import Mathlib

/-! Candidate refinement and candidate list of the acceleration search.

A shallow embedding of `src/src/maximize_rz.c` (the simplex refiners
`max_rz_arr`, `max_rz_file`, `max_rz_arr_harmonics`, `max_rz_file_harmonics`,
their objective functions and `optemiseDerivs`) and of the candidate list
declared in `src/include/accel.h`.

Conventions of the embedding:

* C `double` and `float` values are exact rationals (`ℚ`): rounding is not
  modelled, so the theorems speak about the arithmetic the source writes.
* C `int` values are mathematical integers (`Int`); `/` on `int` is
  `Int.tdiv` (truncation towards zero) and `(int)` on a `double` is `trunc`.
* The file-scope `static` variables of `maximize_rz.c` are the record
  `Globals`, passed explicitly through every function that reads or writes
  them.
* Functions that `maximize_rz.c` calls but does not define (`rz_interp`,
  `z_resp_halfwidth`, `get_localpower3d`, `get_scaleFactorZ`, `get_derivs3d`,
  `read_fcomplex_file` and the solver `amoeba`) are the fields of `Env`;
  every theorem holds for every such environment.
* Each function returns, besides its outputs and the final `Globals`, the
  list of `Event`s it went through: one event per `amoeba` call (with the
  tolerance, the globals in force, and the simplex before and after) and one
  per debugging branch entered.
-/

namespace Presto

/-! ## Data model -/

/-- Single-precision complex number of `presto.h` (`fcomplex`), fields `r` and `i`. -/
structure fcomplex where
  r : ℚ
  i : ℚ
deriving DecidableEq

/-- Modelled from the spec: the two accuracy levels `LOWACC` and `HIGHACC` of `presto.h`
(not among the sources); the spec calls them the reduced ("low accuracy") and
the full ("high accuracy") interpolation half-width. -/
inductive Accuracy where
  | LOWACC
  | HIGHACC
deriving DecidableEq

/-- Modelled from the spec: the macro `POWER(r, i)` of `presto.h` (not among the sources);
the spec defines power as "the squared magnitude of the correlated complex
amplitude". -/
def POWER (r i : ℚ) : ℚ := r * r + i * i

/-- The scale between the simplex coordinate and f-dot: `#define ZSCALE 4.0`. -/
def ZSCALE : ℚ := 4.0

/-- Integral part of a `double`, rounded towards zero (C `modf` and the `(int)` cast). -/
def trunc (x : ℚ) : Int := Int.tdiv x.num x.den

/-- C `modf`: the fractional part (returned) and the integral part (stored through the
pointer), both carrying the sign of the argument. -/
def modf (x : ℚ) : ℚ × ℚ := (x - (trunc x : ℚ), (trunc x : ℚ))

/-- Largest `int` (`limits.h`, 32-bit `int`). -/
def INT_MAX : Int := 2147483647

/-- Smallest `int` (`limits.h`, 32-bit `int`). -/
def INT_MIN : Int := -2147483648

/-- The value `v` is representable in `int`. -/
def fits_int (v : Int) : Bool := decide (INT_MIN ≤ v) && decide (v ≤ INT_MAX)

/-- The value of an `int` expression: the mathematical result when it is representable
in `int`; signed overflow is undefined behaviour in C and gives no value. -/
def int_result (v : Int) : Option Int := if fits_int v = true then some v else none

/-- The cast `(int) x` of a `double`: the integral part of `x` when it is representable
in `int`; otherwise the behaviour is undefined in C and the cast gives no value. -/
def double_to_int (x : ℚ) : Option Int := int_result (trunc x)

/-- The simplex `double x[3][2]` handed to `amoeba`: three vertices `(r, z / ZSCALE)`. -/
structure Simplex where
  x0 : ℚ × ℚ
  x1 : ℚ × ℚ
  x2 : ℚ × ℚ
deriving DecidableEq

/-- The function values `double y[3]` at the three vertices. -/
structure Vals where
  y0 : ℚ
  y1 : ℚ
  y2 : ℚ
deriving DecidableEq

/-- The file-scope `static` variables of `maximize_rz.c`. -/
structure Globals where
  maxdata : List fcomplex
  nummaxdata : Int
  max_kern_half_width : Int
  max_num_harmonics : Int
  maxdata_harmonics : List (List fcomplex)
  maxlocpow : List ℚ
  maxr_offset : List Int
deriving DecidableEq

/-- What a refiner goes through: a call of the solver, or entry into one of the
debugging branches of `max_rz_arr_harmonics`. -/
inductive Event where
  | amoeba (ftol : ℚ) (g : Globals) (xin : Simplex) (yin : Vals) (xout : Simplex) (yout : Vals)
  | retry
  | swarm
  | largePoints
  | smallPoints
deriving DecidableEq

/-- The local variables the debugging branches of `max_rz_arr_harmonics` read and write. -/
structure DebugLocals where
  rout : ℚ
  zout : ℚ
  bestVal : ℚ
  bestPos : ℚ × ℚ
  bstGrd : ℚ × ℚ × ℚ
  lrgPnt0 : ℚ × ℚ × ℚ
  lrgPnt1 : ℚ × ℚ × ℚ
  smlPnt1 : ℚ × ℚ × ℚ
deriving DecidableEq

/-- The functions `maximize_rz.c` uses without defining them. `D` stands for the
`rderivs` structure and `F` for `FILE`. The last three fields are the bodies of the
debugging branches (random numbers, files, shell commands), acting on the locals. -/
structure Env (D F : Type) where
  rz_interp : List fcomplex → Int → ℚ → ℚ → Int → fcomplex
  z_resp_halfwidth : ℚ → Accuracy → Int
  get_localpower3d : List fcomplex → Int → ℚ → ℚ → ℚ → ℚ
  get_scaleFactorZ : List fcomplex → Int → ℚ → ℚ → ℚ → ℚ
  get_derivs3d : List fcomplex → Int → ℚ → ℚ → ℚ → ℚ → D
  amoeba : Simplex → Vals → ℚ → (ℚ × ℚ → ℚ) → Int → Simplex × Vals × Int
  read_fcomplex_file : F → Int → Int → List fcomplex
  swarm_body : Globals → Simplex → Vals → DebugLocals → DebugLocals
  large_points_body : Globals → Simplex → Vals → DebugLocals → DebugLocals
  small_points_body : Globals → Simplex → Vals → DebugLocals → DebugLocals

/-- Outputs of a function together with the globals it leaves and the events it went
through. -/
structure Run (α : Type) where
  val : α
  globals : Globals
  trace : List Event

/-- Outputs of `max_rz_arr` and `max_rz_file`: the returned power and the values stored
through `rout`, `zout` and `derivs`. -/
structure RzOut (D : Type) where
  ret : ℚ
  rout : ℚ
  zout : ℚ
  derivs : D

/-! ## Single-harmonic refiner -/

/-- The objective `power_call_rz`: minus the interpolated power of `maxdata` at
`(rz[0], rz[1] * ZSCALE)`. -/
def power_call_rz {D F : Type} (env : Env D F) (g : Globals) (rz : ℚ × ℚ) : ℚ :=
  let ans := env.rz_interp g.maxdata g.nummaxdata rz.1 (rz.2 * ZSCALE) g.max_kern_half_width;
  -POWER ans.r ans.i

/-- Refiner `max_rz_arr`: two simplex solves, the first at `LOWACC`, the second
restarted at the first result at `HIGHACC`. -/
def max_rz_arr {D F : Type} (env : Env D F) (g : Globals) (data : List fcomplex)
    (numdata : Int) (rin zin : ℚ) : Run (RzOut D) :=
  let step : ℚ := 0.4
  let g1 : Globals := { g with maxdata := data, nummaxdata := numdata }
  let _locpow := env.get_localpower3d data numdata rin zin 0.0
  let g2 : Globals :=
    { g1 with max_kern_half_width := env.z_resp_halfwidth (|zin| + 4.0) Accuracy.LOWACC }
  let x : Simplex :=
    { x0 := (rin - step, zin / ZSCALE - step)
      x1 := (rin - step, zin / ZSCALE + step)
      x2 := (rin + step, zin / ZSCALE) }
  let y : Vals :=
    { y0 := power_call_rz env g2 x.x0
      y1 := power_call_rz env g2 x.x1
      y2 := power_call_rz env g2 x.x2 }
  let s1 := env.amoeba x y 1.0e-7 (power_call_rz env g2) 0
  let xa := s1.1
  let ya := s1.2.1
  let g3 : Globals :=
    { g2 with max_kern_half_width := env.z_resp_halfwidth (|xa.x0.2| + 4.0) Accuracy.HIGHACC }
  let xb : Simplex :=
    { x0 := xa.x0
      x1 := (xa.x0.1 + 0.01, xa.x0.2)
      x2 := (xa.x0.1, xa.x0.2 + 0.01) }
  let yb : Vals :=
    { y0 := power_call_rz env g3 xb.x0
      y1 := power_call_rz env g3 xb.x1
      y2 := power_call_rz env g3 xb.x2 }
  let s2 := env.amoeba xb yb 1.0e-10 (power_call_rz env g3) 0
  let xc := s2.1
  let yc := s2.2.1
  let rout := xc.x0.1
  let zout := xc.x0.2 * ZSCALE
  let locpow := env.get_localpower3d data numdata rout zout 0.0
  let derivs := env.get_derivs3d data numdata rout zout 0.0 locpow
  { val := { ret := -yc.y0, rout := rout, zout := zout, derivs := derivs }
    globals := g3
    trace := [Event.amoeba 1.0e-7 g2 x y xa ya, Event.amoeba 1.0e-10 g3 xb yb xc yc] }

/-- Refiner `max_rz_file`: reads a window of the file around the candidate, refines in
the window with `max_rz_arr`, and shifts the frequency back. `kern_half_width`,
`filedatalen` and `startbin` are `int` variables and `(int) rin_int` is a cast: when one
of these values is not representable in `int` the function has no defined result. -/
def max_rz_file {D F : Type} (env : Env D F) (g : Globals) (fftfile : F) (rin zin : ℚ) :
    Option (Run (RzOut D)) :=
  let extra : Int := 10
  let maxz := |zin| + 4.0
  let rin_frac := (modf rin).1
  let rin_int := (modf rin).2
  (int_result (env.z_resp_halfwidth maxz Accuracy.HIGHACC)).bind fun kern_half_width =>
  (int_result (2 * kern_half_width)).bind fun twice =>
  (int_result (twice + extra)).bind fun filedatalen =>
  (double_to_int rin_int).bind fun rin_int_i =>
  (int_result (rin_int_i - Int.tdiv filedatalen 2)).bind fun startbin =>
  let filedata := env.read_fcomplex_file fftfile startbin filedatalen
  let res := max_rz_arr env g filedata filedatalen
    (rin_frac + ((Int.tdiv filedatalen 2 : Int) : ℚ)) zin
  some { res with val := { res.val with rout := res.val.rout + (startbin : ℚ) } }

/-! ## Multi-harmonic refiner -/

/-- Outputs of `max_rz_arr_harmonics` and `max_rz_file_harmonics`: the values stored
through `rout` and `zout` and the entries `0 .. num_harmonics - 1` written to
`derivs[]` and `power[]`. -/
structure HarmOut (D : Type) where
  rout : ℚ
  zout : ℚ
  derivs : List D
  power : List ℚ

/-- The in-window frequency position at which harmonic `i` is probed: the source
expression `(r_offset[i-1] + r) * i - r_offset[i-1]`, with `off = r_offset[i-1]`. -/
def harmonic_r (off : Int) (r : ℚ) (i : Int) : ℚ := ((off : ℚ) + r) * (i : ℚ) - (off : ℚ)

/-- The f-dot at which the objective probes harmonic `i`: the source expression
`rz[1] * ZSCALE * i`. -/
def harmonic_z (zs : ℚ) (i : Int) : ℚ := zs * ZSCALE * (i : ℚ)

/-- The objective `power_call_rz_harmonics`: minus the sum over the harmonics
`i = 1 .. max_num_harmonics` of the interpolated power divided by `maxlocpow[i-1]`.
The loop index is `k = i - 1`. -/
def power_call_rz_harmonics {D F : Type} (env : Env D F) (g : Globals) (rz : ℚ × ℚ) : ℚ :=
  let total_power := (List.range g.max_num_harmonics.toNat).foldl
    (fun (total_power : ℚ) (k : Nat) =>
      let i : Int := (k : Int) + 1
      let ans := env.rz_interp (g.maxdata_harmonics.getD k []) g.nummaxdata
        (harmonic_r (g.maxr_offset.getD k 0) rz.1 i) (harmonic_z rz.2 i) g.max_kern_half_width
      total_power + POWER ans.r ans.i / g.maxlocpow.getD k 0) 0;
  -total_power

/-- The objective `power_call_rz_harmonics_noNorm`: as `power_call_rz_harmonics`, without
the division by `maxlocpow[i-1]`. -/
def power_call_rz_harmonics_noNorm {D F : Type} (env : Env D F) (g : Globals) (rz : ℚ × ℚ) :
    ℚ :=
  let total_power := (List.range g.max_num_harmonics.toNat).foldl
    (fun (total_power : ℚ) (k : Nat) =>
      let i : Int := (k : Int) + 1
      let ans := env.rz_interp (g.maxdata_harmonics.getD k []) g.nummaxdata
        (harmonic_r (g.maxr_offset.getD k 0) rz.1 i) (harmonic_z rz.2 i) g.max_kern_half_width
      total_power + POWER ans.r ans.i) 0;
  -total_power

/-- The function `optemiseDerivs`: for each harmonic `i = 1 .. num_harmonics` the
interpolated power and the derivative bundle at `(rr, zz)`; returns the entries written
to `derivs[]` and `power[]`. -/
def optemiseDerivs {D F : Type} (env : Env D F) (data : List (List fcomplex))
    (num_harmonics : Int) (r_offset : List Int) (numdata : Int) (r z : ℚ) : List D × List ℚ :=
  let res := (List.range num_harmonics.toNat).map (fun (k : Nat) =>
    let i : Int := (k : Int) + 1
    let rr := harmonic_r (r_offset.getD k 0) r i
    let zz := z * (i : ℚ)
    let locpow := env.get_scaleFactorZ (data.getD k []) numdata rr zz 0.0
    let x : ℚ × ℚ := (rr, zz / ZSCALE)
    let kern_half_width := env.z_resp_halfwidth (|x.2| + 4.0) Accuracy.HIGHACC
    let ans := env.rz_interp (data.getD k []) numdata x.1 (x.2 * ZSCALE) kern_half_width
    (env.get_derivs3d (data.getD k []) numdata rr zz 0.0 locpow, POWER ans.r ans.i))
  (res.map Prod.fst, res.map Prod.snd)

/-- The loop at the end of `max_rz_arr_harmonics` ("calculates derivatives at the peak"):
for each harmonic it points `maxdata` at that harmonic's data and appends the entries of
`derivs[]` and `power[]`. -/
def final_derivs_loop {D F : Type} (env : Env D F) (g : Globals) (data : List (List fcomplex))
    (num_harmonics : Int) (r_offset : List Int) (numdata : Int) (rout zout : ℚ) :
    Globals × List D × List ℚ :=
  (List.range num_harmonics.toNat).foldl
    (fun (st : Globals × List D × List ℚ) (k : Nat) =>
      let i : Int := (k : Int) + 1
      let rr := harmonic_r (r_offset.getD k 0) rout i
      let locpow := env.get_scaleFactorZ (data.getD k []) numdata rr (zout * (i : ℚ)) 0.0
      let x0 : ℚ × ℚ := (rr, zout / ZSCALE * (i : ℚ))
      let gk : Globals := { st.1 with maxdata := data.getD k [] }
      let pw := -power_call_rz env gk x0
      let dv := env.get_derivs3d (data.getD k []) numdata rr (zout * (i : ℚ)) 0.0 locpow
      (gk, st.2.1 ++ [dv], st.2.2 ++ [pw]))
    (g, [], [])

/-- Refiner `max_rz_arr_harmonics`. The guards `skp`, `swrm` and the `&& 0` of the retry
test are kept as the source writes them; the bodies of the swarm and grid branches are
the corresponding fields of `Env`. Local array entries the source leaves uninitialised
are `0` here. -/
def max_rz_arr_harmonics {D F : Type} (env : Env D F) (g : Globals)
    (data : List (List fcomplex)) (num_harmonics : Int) (r_offset : List Int) (numdata : Int)
    (rin zin : ℚ) : Run (HarmOut D) :=
  let step : ℚ := 0.4
  let bestVal : ℚ := 0
  let locpow : List ℚ := (List.range num_harmonics.toNat).map (fun (k : Nat) =>
    let i : Int := (k : Int) + 1
    env.get_scaleFactorZ (data.getD k []) numdata (harmonic_r (r_offset.getD k 0) rin i)
      (zin * (i : ℚ)) 0.0)
  let g1 : Globals :=
    { g with maxlocpow := locpow, maxr_offset := r_offset, maxdata_harmonics := data,
             nummaxdata := numdata, max_num_harmonics := num_harmonics }
  let skp : Int := 0
  let swrm : Int := 0
  let g2 : Globals :=
    { g1 with max_kern_half_width :=
        env.z_resp_halfwidth (|zin * (num_harmonics : ℚ)| + 4.0) Accuracy.LOWACC }
  let initPower := power_call_rz_harmonics env g2 (rin, zin / ZSCALE)
  let lrgPnt0 : ℚ × ℚ × ℚ := (rin, zin, -power_call_rz_harmonics env g2 (rin, zin / ZSCALE))
  let x : Simplex :=
    { x0 := (rin - step, zin / ZSCALE - step)
      x1 := (rin - step, zin / ZSCALE + step)
      x2 := (rin + step, zin / ZSCALE) }
  let y : Vals :=
    { y0 := power_call_rz_harmonics env g2 x.x0
      y1 := power_call_rz_harmonics env g2 x.x1
      y2 := power_call_rz_harmonics env g2 x.x2 }
  let s1 := env.amoeba x y 1.0e-7 (power_call_rz_harmonics env g2) 0
  let tr1 : List Event := [Event.amoeba 1.0e-7 g2 x y s1.1 s1.2.1]
  let newPower := s1.2.1.y0
  let st1 : Simplex × Vals × List Event :=
    if newPower > initPower ∧ (0 : Int) ≠ 0 then
      let xr : Simplex :=
        { x0 := (rin, zin / ZSCALE)
          x1 := (rin - step, zin / ZSCALE - step)
          x2 := (rin + step, zin / ZSCALE - step) }
      let yr : Vals :=
        { y0 := power_call_rz_harmonics env g2 xr.x0
          y1 := power_call_rz_harmonics env g2 xr.x1
          y2 := power_call_rz_harmonics env g2 xr.x2 }
      let sr := env.amoeba xr yr 1.0e-7 (power_call_rz_harmonics env g2) 0
      (sr.1, sr.2.1, tr1 ++ [Event.retry, Event.amoeba 1.0e-7 g2 xr yr sr.1 sr.2.1])
    else (s1.1, s1.2.1, tr1)
  let xa := st1.1
  let g3 : Globals :=
    { g2 with max_kern_half_width :=
        env.z_resp_halfwidth (|xa.x0.2 * ZSCALE * (num_harmonics : ℚ)| + 4.0) Accuracy.HIGHACC }
  let xb : Simplex :=
    { x0 := xa.x0
      x1 := (xa.x0.1 + 0.01, xa.x0.2)
      x2 := (xa.x0.1, xa.x0.2 + 0.01) }
  let yb : Vals :=
    { y0 := power_call_rz_harmonics env g3 xb.x0
      y1 := power_call_rz_harmonics env g3 xb.x1
      y2 := power_call_rz_harmonics env g3 xb.x2 }
  let s2 := env.amoeba xb yb 1.0e-10 (power_call_rz_harmonics env g3) 0
  let xc := s2.1
  let yc := s2.2.1
  let tr2 : List Event := st1.2.2 ++ [Event.amoeba 1.0e-10 g3 xb yb xc yc]
  let loc0 : DebugLocals :=
    { rout := xc.x0.1, zout := xc.x0.2 * ZSCALE, bestVal := bestVal, bestPos := (0, 0),
      bstGrd := (0, 0, 0), lrgPnt0 := lrgPnt0, lrgPnt1 := (0, 0, 0), smlPnt1 := (0, 0, 0) }
  let st3 : DebugLocals × List Event :=
    if swrm ≠ 0 then (env.swarm_body g3 xc yc loc0, tr2 ++ [Event.swarm]) else (loc0, tr2)
  let st4 : DebugLocals × List Event :=
    if skp ≠ 0 then (env.large_points_body g3 xc yc st3.1, st3.2 ++ [Event.largePoints])
    else st3
  let st5 : DebugLocals × List Event :=
    if skp ≠ 0 then (env.small_points_body g3 xc yc st4.1, st4.2 ++ [Event.smallPoints])
    else st4
  let rout := st5.1.rout
  let zout := st5.1.zout
  let fin := final_derivs_loop env g3 data num_harmonics r_offset numdata rout zout
  { val := { rout := rout, zout := zout, derivs := fin.2.1, power := fin.2.2 }
    globals := fin.1
    trace := st5.2 }

/-- The window length `filedatalen` of `max_rz_file_harmonics`. -/
def max_rz_file_harmonics_filedatalen {D F : Type} (env : Env D F) (num_harmonics : Int)
    (zin : ℚ) : Int :=
  let extra : Int := 10
  let maxz := |zin * (num_harmonics : ℚ)| + 4.0
  let kern_half_width := env.z_resp_halfwidth maxz Accuracy.HIGHACC
  2 * kern_half_width + extra

/-- The array `r_offset` that `max_rz_file_harmonics` builds: for harmonic `i` the first
bin of its window, `(int) rin_int - filedatalen / 2 + lobin` with `rin_int` the integral
part of `rin * i`. -/
def max_rz_file_harmonics_r_offset {D F : Type} (env : Env D F) (num_harmonics lobin : Int)
    (rin zin : ℚ) : List Int :=
  let filedatalen := max_rz_file_harmonics_filedatalen env num_harmonics zin
  (List.range num_harmonics.toNat).map (fun (k : Nat) =>
    let i : Int := (k : Int) + 1
    let rin_int := (modf (rin * (i : ℚ))).2
    trunc rin_int - Int.tdiv filedatalen 2 + lobin)

/-- The in-window estimate that `max_rz_file_harmonics` passes to `max_rz_arr_harmonics`:
`rin_frac + filedatalen / 2` with `rin_frac` the fractional part of `rin`. -/
def max_rz_file_harmonics_rin {D F : Type} (env : Env D F) (num_harmonics : Int)
    (rin zin : ℚ) : ℚ :=
  let filedatalen := max_rz_file_harmonics_filedatalen env num_harmonics zin
  let rin_frac := (modf rin).1
  rin_frac + ((Int.tdiv filedatalen 2 : Int) : ℚ)

/-- Refiner `max_rz_file_harmonics`: reads one window per harmonic, refines with
`max_rz_arr_harmonics`, and adds `r_offset[0]` to the frequency. -/
def max_rz_file_harmonics {D F : Type} (env : Env D F) (g : Globals) (fftfile : F)
    (num_harmonics lobin : Int) (rin zin : ℚ) : Run (HarmOut D) :=
  let filedatalen := max_rz_file_harmonics_filedatalen env num_harmonics zin
  let r_offset := max_rz_file_harmonics_r_offset env num_harmonics lobin rin zin
  let filedata := r_offset.map (fun (off : Int) => env.read_fcomplex_file fftfile off filedatalen)
  let res := max_rz_arr_harmonics env g filedata num_harmonics r_offset filedatalen
    (max_rz_file_harmonics_rin env num_harmonics rin zin) zin
  { res with val := { res.val with rout := res.val.rout + ((r_offset.getD 0 0 : Int) : ℚ) } }

/-! ## Candidate list -/

/-- Closest candidates accepted as independent: `#define ACCEL_CLOSEST_R 15.0`. -/
def ACCEL_CLOSEST_R : ℚ := 15.0

/-- The scalar fields of `struct accelcand` of `accel.h`; the per-harmonic arrays
(`pows`, `hirs`, `hizs`, `derivs`) are filled by the refiner and play no part in
insertion. -/
structure accelcand where
  power : ℚ
  sigma : ℚ
  numharm : Int
  r : ℚ
  z : ℚ
deriving DecidableEq

/-- Modelled from the spec: what spec 4.6 leaves to "the policy" and what it leaves open.
`harmonic_relation n1 r1 n2 r2` says whether the policy treats two candidates with the
harmonic counts `n1`, `n2` and frequencies `r1`, `r2` (existing entry first) as a
harmonic relation rather than as duplicates; `tie_keeps_new` says which entry is kept
when the powers are equal, a case for which "keep the higher-power entry" names
neither. -/
structure InsertPolicy where
  harmonic_relation : Int → ℚ → Int → ℚ → Bool
  tie_keeps_new : Bool

/-- Modelled from the spec: the existing entry `e` is found for the new candidate `c`.
Spec 4.6: "any existing candidate whose frequency lies within the closeness threshold
(15 bins) of the new one", "unless they differ in harmonic count and the policy instead
treats the lower one as a harmonic relation". -/
def merges (pol : InsertPolicy) (e c : accelcand) : Bool :=
  decide (|c.r - e.r| < ACCEL_CLOSEST_R) &&
    !(decide (e.numharm ≠ c.numharm) && pol.harmonic_relation e.numharm e.r c.numharm c.r)

/-- Modelled from the spec: of the new candidate `c` and the existing entry `e`, `c` is
the one to keep. Spec 4.6: "keep the higher-power entry and discard the other". -/
def new_wins (pol : InsertPolicy) (c e : accelcand) : Bool :=
  decide (e.power < c.power) || (decide (e.power = c.power) && pol.tie_keeps_new)

/-- Modelled from the spec: the body of `insert_new_accelcand`, which `accel.h` declares
and `accel_utils.c` (not among the sources) defines. Spec 4.6: "Insertion finds any
existing candidate whose frequency lies within the closeness threshold (15 bins) of the
new one; if found, keep the higher-power entry and discard the other (unless they differ
in harmonic count and the policy instead treats the lower one as a harmonic relation)".
The new candidate is kept when it is the one to keep against every entry found; the
entries found are then discarded, which maintains the invariant of spec 3 ("no two
retained candidates have fundamental frequencies closer than a fixed closeness
threshold"). Otherwise the new candidate is discarded and the list is unchanged. The
place of a new entry (here: the end) is not fixed by the spec, which sorts the final
list. The result carries the flag `added`. -/
def insert_new_accelcand (pol : InsertPolicy) (list : List accelcand) (power sigma : ℚ)
    (numharm : Int) (rr zz : ℚ) : List accelcand × Int :=
  let c : accelcand := { power := power, sigma := sigma, numharm := numharm, r := rr, z := zz }
  if (list.filter fun e => merges pol e c).all (fun e => new_wins pol c e) then
    ((list.filter fun e => !merges pol e c) ++ [c], 1)
  else (list, 0)

/-- The list left by inserting candidate `a` and then candidate `b` with
`insert_new_accelcand`. -/
def insert_both (pol : InsertPolicy) (list : List accelcand) (a b : accelcand) :
    List accelcand :=
  (insert_new_accelcand pol
    (insert_new_accelcand pol list a.power a.sigma a.numharm a.r a.z).1
    b.power b.sigma b.numharm b.r b.z).1

/-- A policy for the evaluations: no pair is a harmonic relation, an existing entry is
kept on a tie. -/
def mergePolicy : InsertPolicy where
  harmonic_relation := fun _ _ _ _ => false
  tie_keeps_new := false

/-- A second policy for the evaluations: every pair of different harmonic counts is a
harmonic relation, the new candidate is kept on a tie. -/
def relationPolicy : InsertPolicy where
  harmonic_relation := fun _ _ _ _ => true
  tie_keeps_new := true

/-! ## A concrete environment for evaluating the functions -/

/-- A small environment on which the refiners can be evaluated: the interpolation
returns its position as the amplitude, the half-width is 8 at `LOWACC` and 16 at
`HIGHACC`, the normalisations are 1 and 2, the derivative bundle records the position,
f-dot and normalisation, the solver returns its simplex unchanged, every file window is
empty, and the debugging branches overwrite `rout` and `zout`. -/
def sampleEnv : Env (ℚ × ℚ × ℚ) Unit where
  rz_interp := fun _ _ r z _ => { r := r, i := z }
  z_resp_halfwidth := fun _ acc =>
    match acc with
    | Accuracy.LOWACC => 8
    | Accuracy.HIGHACC => 16
  get_localpower3d := fun _ _ _ _ _ => 1
  get_scaleFactorZ := fun _ _ _ _ _ => 2
  get_derivs3d := fun _ _ r z _ locpow => (r, z, locpow)
  amoeba := fun x y _ _ n => (x, y, n)
  read_fcomplex_file := fun _ _ _ => []
  swarm_body := fun _ _ _ l => { l with rout := 0, zout := 0 }
  large_points_body := fun _ _ _ l => { l with rout := 0, zout := 0 }
  small_points_body := fun _ _ _ l => { l with rout := 0, zout := 0 }

/-- Initial contents of the file-scope variables for the evaluations: all empty or zero. -/
def emptyGlobals : Globals where
  maxdata := []
  nummaxdata := 0
  max_kern_half_width := 0
  max_num_harmonics := 0
  maxdata_harmonics := []
  maxlocpow := []
  maxr_offset := []

/-! ## Harmonic elimination and harmonic summation (declared in `accel.h`) -/

/-- Modelled from the spec: the harmonic relation tested by `eliminate_harmonics`, whose
body (`accel_utils.c`) is not among the sources. Spec 4.6: the frequency of `c` "is (to
within the closeness threshold) an integer multiple or fraction of a stronger
candidate's frequency, for every harmonic ratio representable under the searched
harmonic range". The ratios are `p / q` with `p` and `q` from 1 to 16, the largest
`-numharm` that `usage` allows; the threshold is `ACCEL_CLOSEST_R`. -/
def harmonically_related (c s : accelcand) : Bool :=
  (List.range 16).any fun (p : Nat) =>
    (List.range 16).any fun (q : Nat) =>
      decide (|c.r - s.r * ((p : ℚ) + 1) / ((q : ℚ) + 1)| < ACCEL_CLOSEST_R)

/-- Modelled from the spec: the body of `eliminate_harmonics`, which `accel.h` declares
and `accel_utils.c` (not among the sources) defines. Spec 4.6: "a harmonic-elimination
pass removes a candidate `C` if its frequency is (to within the closeness threshold) an
integer multiple or fraction of a stronger candidate's frequency ... (this step is
skipped entirely when a candidate's own harmonic count is 1)". Stronger means higher
power. Returns the list and the count stored through `numcands`. -/
def eliminate_harmonics (cands : List accelcand) : List accelcand × Int :=
  let kept := cands.filter fun (c : accelcand) =>
    decide (c.numharm = 1) ||
      !(cands.any fun (s : accelcand) => decide (c.power < s.power) && harmonically_related c s)
  (kept, (kept.length : Int))

/-- The structure `ffdotpows` of `accel.h`: the matrix `powers` has `numzs` rows (f-dot)
of `numrs` columns (frequency); `rinds` is the table of frequency indices. -/
structure ffdotpows where
  numrs : Int
  numzs : Int
  rlo : Int
  zlo : Int
  powers : List (List ℚ)
  rinds : List Nat
deriving DecidableEq

/-- Modelled from the spec: the power that harmonic summation adds to cell `(ii, jj)` of
the fundamental plane. Spec 4.3: "add the subharmonic's power into the fundamental at the
column positions given by the row-index table (nearest-bin remap, no interpolation)": the
column of the subharmonic plane is `rinds[jj]`. The spec does not say which f-dot row
of the subharmonic plane belongs to row `ii`; `zind` is that row, as a function of
`numharm`, `harmnum` and `ii`. -/
def subharmonic_power (zind : Int → Int → Nat → Nat) (subharmonic : ffdotpows)
    (numharm harmnum : Int) (ii jj : Nat) : ℚ :=
  (subharmonic.powers.getD (zind numharm harmnum ii) []).getD (subharmonic.rinds.getD jj 0) 0

/-- Modelled from the spec: the body of `add_ffdotpows` (declared in `accel.h`, defined in
`accel_utils.c`, not among the sources), the "copying variant that produces a new
combined plane": every cell of the new matrix is the old cell plus the subharmonic's
power. -/
def add_ffdotpows (zind : Int → Int → Nat → Nat) (fundamental subharmonic : ffdotpows)
    (numharm harmnum : Int) : ffdotpows :=
  { fundamental with
    powers := (List.range fundamental.numzs.toNat).map fun (ii : Nat) =>
      (List.range fundamental.numrs.toNat).map fun (jj : Nat) =>
        (fundamental.powers.getD ii []).getD jj 0 +
          subharmonic_power zind subharmonic numharm harmnum ii jj }

/-- Modelled from the spec: the body of `add_ffdotpows_ptrs` (declared in `accel.h`,
defined in `accel_utils.c`, not among the sources), the "pointer-aliasing variant that
accumulates in place": row by row and cell by cell, the subharmonic's power is added to
the cell of the fundamental's own matrix. -/
def add_ffdotpows_ptrs (zind : Int → Int → Nat → Nat) (fundamental subharmonic : ffdotpows)
    (numharm harmnum : Int) : ffdotpows :=
  { fundamental with
    powers := (List.range fundamental.numzs.toNat).foldl
      (fun (powers : List (List ℚ)) (ii : Nat) =>
        powers.set ii
          ((List.range fundamental.numrs.toNat).foldl
            (fun (row : List ℚ) (jj : Nat) =>
              row.set jj (row.getD jj 0 + subharmonic_power zind subharmonic numharm harmnum ii jj))
            (powers.getD ii [])))
      fundamental.powers }

/-! ## Command line parser (`accelsearch_cmd.c`)

Conventions: `argv` is a list of strings and `argc` its length; indices into
`argv` and loop counters that the source keeps non-negative are natural
numbers; `exit(EXIT_FAILURE)` is the outcome `exit_failure`. The library
functions `strtol` and `strtod` are the fields of `Libc`; of a conversion the
parser only looks at the value, at whether anything was converted
(`end != argv[i]`), at whether only white space follows (`*end == 0` after the
skip) and at `errno == ERANGE`. Failure of `malloc`, `calloc` and `realloc` is
not modelled. -/

/-- A call either returns a value or ends the program with `exit(EXIT_FAILURE)`. -/
inductive Outcome (α : Type) where
  | returned (a : α)
  | exit_failure
deriving DecidableEq

/-- Sequencing: the rest of the function runs only when the call returned. -/
def Outcome.bind {α β : Type} (o : Outcome α) (f : α → Outcome β) : Outcome β :=
  match o with
  | Outcome.returned a => f a
  | Outcome.exit_failure => Outcome.exit_failure

/-- What the parser observes of `v = strtol(s, &end, 0)`. -/
structure StrtolResult where
  value : Int
  converted : Bool
  clean : Bool
  erange : Bool
deriving DecidableEq

/-- What the parser observes of `v = strtod(s, &end)`; infinite results are not
modelled. -/
structure StrtodResult where
  value : ℚ
  converted : Bool
  clean : Bool
  erange : Bool
deriving DecidableEq

/-- The C library functions the parser converts numbers with. -/
structure Libc where
  strtol : String → StrtolResult
  strtod : String → StrtodResult

/-- Largest finite `float` (`float.h`, IEEE single precision). -/
def FLT_MAX : ℚ := 340282346638528859811704183484516925440

/-- Smallest positive normal `float` (`float.h`, IEEE single precision). -/
def FLT_MIN : ℚ := 1 / 2 ^ 126

/-- The function `checkFloatConversion`: exits when the value is too large or too small
for a `float`. The value is finite here, so `v<HUGE_VAL && v>-HUGE_VAL` holds. -/
def checkFloatConversion (v : ℚ) (erange : Bool) : Outcome Unit :=
  if (erange = true ∧ v ≠ 0) ∨ (if v < 0 then -v else v) > FLT_MAX then Outcome.exit_failure
  else if (erange = true ∧ v = 0) ∨ (v ≠ 0 ∧ (if v < 0 then -v else v) < FLT_MIN) then
    Outcome.exit_failure
  else Outcome.returned ()

/-- The function `getIntOpt`: reads the integer after option `argv[i]`. Returns the new
index and the content of `*value`. -/
def getIntOpt (lc : Libc) (argv : List String) (i : Nat) (value : Int) (force : Int) :
    Outcome (Nat × Int) :=
  let nothingFound : Outcome (Nat × Int) :=
    if force = 0 then Outcome.returned (i + 1 - 1, value) else Outcome.exit_failure
  if i + 1 ≥ argv.length then nothingFound
  else
    let r := lc.strtol (argv.getD (i + 1) "")
    if r.converted = false then nothingFound
    else if r.clean = false then nothingFound
    else if r.erange = true ∨ r.value > INT_MAX ∨ r.value < INT_MIN then Outcome.exit_failure
    else Outcome.returned (i + 1, r.value)

/-- The `for` loop of `getIntOpts`, started at `used` with the values stored so far; at
most `fuel` iterations. Returns the final `used` and the stored values. -/
def getIntOpts_loop (lc : Libc) (argv : List String) (i : Nat) (cmax : Int) :
    Nat → Nat → List Int → Outcome (Nat × List Int)
  | 0, used, values => Outcome.returned (used, values)
  | fuel + 1, used, values =>
    if (cmax = -1 ∨ (used : Int) < cmax) ∧ used + i + 1 < argv.length then
      let r := lc.strtol (argv.getD (used + i + 1) "")
      if r.converted = false then Outcome.returned (used, values)
      else if r.clean = false then Outcome.returned (used, values)
      else if r.erange = true ∨ r.value > INT_MAX ∨ r.value < INT_MIN then
        Outcome.exit_failure
      else getIntOpts_loop lc argv i cmax fuel (used + 1) (values ++ [r.value])
    else Outcome.returned (used, values)

/-- The function `getIntOpts`: reads at least `cmin` and at most `cmax` integers after
option `argv[i]` (`cmax == -1`: no upper limit). Returns `i + used` and the entries
`0 .. used - 1` of `*values`. The loop gets `argc` iterations, more than it can use. -/
def getIntOpts (lc : Libc) (argv : List String) (i : Nat) (cmin cmax : Int) :
    Outcome (Nat × List Int) :=
  if (i : Int) + cmin ≥ (argv.length : Int) then Outcome.exit_failure
  else
    (getIntOpts_loop lc argv i cmax argv.length 0 []).bind fun res =>
      if (res.1 : Int) < cmin then Outcome.exit_failure
      else Outcome.returned (i + res.1, res.2)

/-- The function `getFloatOpt`: reads the `float` after option `argv[i]`. -/
def getFloatOpt (lc : Libc) (argv : List String) (i : Nat) (value : ℚ) (force : Int) :
    Outcome (Nat × ℚ) :=
  let nothingFound : Outcome (Nat × ℚ) :=
    if force = 0 then Outcome.returned (i + 1 - 1, value) else Outcome.exit_failure
  if i + 1 ≥ argv.length then nothingFound
  else
    let r := lc.strtod (argv.getD (i + 1) "")
    if r.converted = false then nothingFound
    else if r.clean = false then nothingFound
    else (checkFloatConversion r.value r.erange).bind fun _ => Outcome.returned (i + 1, r.value)

/-- The function `getDoubleOpt`: reads the `double` after option `argv[i]`. -/
def getDoubleOpt (lc : Libc) (argv : List String) (i : Nat) (value : ℚ) (force : Int) :
    Outcome (Nat × ℚ) :=
  let nothingFound : Outcome (Nat × ℚ) :=
    if force = 0 then Outcome.returned (i + 1 - 1, value) else Outcome.exit_failure
  if i + 1 ≥ argv.length then nothingFound
  else
    let r := lc.strtod (argv.getD (i + 1) "")
    if r.converted = false then nothingFound
    else if r.clean = false then nothingFound
    else if r.erange = true then Outcome.exit_failure
    else Outcome.returned (i + 1, r.value)

/-- The function `getStringOpt`: takes the string after option `argv[i]`; `none` is the
null pointer. -/
def getStringOpt (argv : List String) (i : Nat) (value : Option String) (force : Int) :
    Outcome (Nat × Option String) :=
  if i + 1 ≥ argv.length then
    if force ≠ 0 then Outcome.exit_failure else Outcome.returned (i + 1 - 1, value)
  else if force = 0 ∧ (argv.getD (i + 1) "").get 0 = '-' then
    Outcome.returned (i + 1 - 1, value)
  else Outcome.returned (i + 1, some (argv.getD (i + 1) ""))

/-- The function `checkIntLower`: exits unless `values[0 .. count-1]` are all `<= max`. -/
def checkIntLower (_opt : String) (values : List Int) (count : Int) (max : Int) :
    Outcome Unit :=
  if (List.range count.toNat).all (fun k => decide (values.getD k 0 ≤ max)) then
    Outcome.returned ()
  else Outcome.exit_failure

/-- The function `checkIntHigher`: exits unless `values[0 .. count-1]` are all `>= min`. -/
def checkIntHigher (_opt : String) (values : List Int) (count : Int) (min : Int) :
    Outcome Unit :=
  if (List.range count.toNat).all (fun k => decide (values.getD k 0 ≥ min)) then
    Outcome.returned ()
  else Outcome.exit_failure

/-- The function `checkFloatLower` (and `checkDoubleLower`, which has the same body):
exits unless `values[0 .. count-1]` are all `<= max`. -/
def checkFloatLower (_opt : String) (values : List ℚ) (count : Int) (max : ℚ) :
    Outcome Unit :=
  if (List.range count.toNat).all (fun k => decide (values.getD k 0 ≤ max)) then
    Outcome.returned ()
  else Outcome.exit_failure

/-- The function `checkFloatHigher` (and `checkDoubleHigher`, which has the same body):
exits unless `values[0 .. count-1]` are all `>= min`. -/
def checkFloatHigher (_opt : String) (values : List ℚ) (count : Int) (min : ℚ) :
    Outcome Unit :=
  if (List.range count.toNat).all (fun k => decide (values.getD k 0 ≥ min)) then
    Outcome.returned ()
  else Outcome.exit_failure

/-- The structure `Cmdline` as `accelsearch_cmd.c` initialises and fills it (the fields
named in its initialiser, in that order). `int*` fields are the list of their entries,
`char*` fields are `none` when null. -/
structure Cmdline where
  gpuP : Int
  gpu : List Int
  gpuC : Int
  nstepsP : Int
  nsteps : List Int
  nstepsC : Int
  nbatchP : Int
  nbatch : List Int
  nbatchC : Int
  widthP : Int
  width : Int
  widthC : Int
  lsgpuP : Int
  cpuP : Int
  ncpusP : Int
  ncpus : Int
  ncpusC : Int
  lobinP : Int
  lobin : Int
  lobinC : Int
  numharmP : Int
  numharm : Int
  numharmC : Int
  zmaxP : Int
  zmax : Int
  zmaxC : Int
  sigmaP : Int
  sigma : ℚ
  sigmaC : Int
  rloP : Int
  rlo : ℚ
  rloC : Int
  rhiP : Int
  rhi : ℚ
  rhiC : Int
  floP : Int
  flo : ℚ
  floC : Int
  fhiP : Int
  fhi : ℚ
  fhiC : Int
  inmemP : Int
  photonP : Int
  medianP : Int
  locpowP : Int
  zaplistP : Int
  zaplist : Option String
  zaplistC : Int
  baryvP : Int
  baryv : ℚ
  baryvC : Int
  otheroptP : Int
  noharmpolishP : Int
  noharmremoveP : Int
  argc : Int
  argv : List String
  full_cmd_line : Option String
deriving DecidableEq

/-- The default array `gpuDefault`. -/
def gpuDefault : List Int := [0]

/-- The default array `nstepsDefault`. -/
def nstepsDefault : List Int := [4]

/-- The default array `nbatchDefault`. -/
def nbatchDefault : List Int := [2]

/-- The initial value of the file-scope variable `static Cmdline cmd`. -/
def cmd : Cmdline where
  gpuP := 1
  gpu := gpuDefault
  gpuC := 0
  nstepsP := 1
  nsteps := nstepsDefault
  nstepsC := 1
  nbatchP := 1
  nbatch := nbatchDefault
  nbatchC := 1
  widthP := 1
  width := 8
  widthC := 1
  lsgpuP := 0
  cpuP := 0
  ncpusP := 1
  ncpus := 1
  ncpusC := 1
  lobinP := 1
  lobin := 0
  lobinC := 1
  numharmP := 1
  numharm := 8
  numharmC := 1
  zmaxP := 1
  zmax := 200
  zmaxC := 1
  sigmaP := 1
  sigma := 2.0
  sigmaC := 1
  rloP := 0
  rlo := 0
  rloC := 0
  rhiP := 0
  rhi := 0
  rhiC := 0
  floP := 1
  flo := 1.0
  floC := 1
  fhiP := 1
  fhi := 10000.0
  fhiC := 1
  inmemP := 0
  photonP := 0
  medianP := 0
  locpowP := 0
  zaplistP := 0
  zaplist := none
  zaplistC := 0
  baryvP := 1
  baryv := 0.0
  baryvC := 1
  otheroptP := 0
  noharmpolishP := 0
  noharmremoveP := 0
  argc := 0
  argv := []
  full_cmd_line := none

/-- The variables of the loop of `parseCmdline`: the structure being filled, `argv`
(whose front the loop overwrites with the non-option arguments) and the index `i`. -/
structure ParseState where
  cmd : Cmdline
  argv : List String
  i : Nat

/-- The inner loop `while( ++i<argc ) argv[cmd.argc++] = argv[i];` run at the token
`--`: one step per index `i + 1 .. argc - 1`. Returns `argv` and `cmd.argc`. -/
def copy_rest (argv : List String) (i : Nat) (argc : Int) : List String × Int :=
  (List.range (argv.length - (i + 1))).foldl
    (fun (acc : List String × Int) (k : Nat) =>
      (acc.1.set acc.2.toNat (acc.1.getD (i + 1 + k) ""), acc.2 + 1))
    (argv, argc)

/-- The body of the `for` loop of `parseCmdline` at index `st.i`: the token `--`, then
the options in the order of the source, then the unknown-option test, then a non-option
argument. The index it returns is the one the loop then increments. -/
def parse_step (lc : Libc) (st : ParseState) : Outcome ParseState :=
  if st.argv.getD st.i "" = "--" then
    let res := copy_rest st.argv st.i st.cmd.argc
    Outcome.returned { cmd := { st.cmd with argc := res.2 }, argv := res.1, i := st.argv.length }
  else if st.argv.getD st.i "" = "-gpu" then
    let keep := st.i
    let c : Cmdline := { st.cmd with gpuP := 1 }
    (getIntOpts lc st.argv st.i 0 32).bind fun r =>
    let c : Cmdline := { c with gpu := r.2, gpuC := (r.1 : Int) - (keep : Int) }
    (checkIntLower "-gpu" c.gpu c.gpuC 32).bind fun _ =>
    (checkIntHigher "-gpu" c.gpu c.gpuC 0).bind fun _ =>
    Outcome.returned { st with cmd := c, i := r.1 }
  else if st.argv.getD st.i "" = "-nsteps" then
    let keep := st.i
    let c : Cmdline := { st.cmd with nstepsP := 1 }
    (getIntOpts lc st.argv st.i 0 32).bind fun r =>
    let c : Cmdline := { c with nsteps := r.2, nstepsC := (r.1 : Int) - (keep : Int) }
    (checkIntLower "-nsteps" c.nsteps c.nstepsC 8).bind fun _ =>
    (checkIntHigher "-nsteps" c.nsteps c.nstepsC 1).bind fun _ =>
    Outcome.returned { st with cmd := c, i := r.1 }
  else if st.argv.getD st.i "" = "-nbatch" then
    let keep := st.i
    let c : Cmdline := { st.cmd with nbatchP := 1 }
    (getIntOpts lc st.argv st.i 0 32).bind fun r =>
    let c : Cmdline := { c with nbatch := r.2, nbatchC := (r.1 : Int) - (keep : Int) }
    (checkIntLower "-nbatch" c.nbatch c.nbatchC 5).bind fun _ =>
    (checkIntHigher "-nbatch" c.nbatch c.nbatchC 1).bind fun _ =>
    Outcome.returned { st with cmd := c, i := r.1 }
  else if st.argv.getD st.i "" = "-width" then
    let keep := st.i
    let c : Cmdline := { st.cmd with widthP := 1 }
    (getIntOpt lc st.argv st.i c.width 1).bind fun r =>
    let c : Cmdline := { c with width := r.2, widthC := (r.1 : Int) - (keep : Int) }
    (checkIntLower "-width" [c.width] c.widthC 32).bind fun _ =>
    (checkIntHigher "-width" [c.width] c.widthC 2).bind fun _ =>
    Outcome.returned { st with cmd := c, i := r.1 }
  else if st.argv.getD st.i "" = "-lsgpu" then
    Outcome.returned { st with cmd := { st.cmd with lsgpuP := 1 } }
  else if st.argv.getD st.i "" = "-cpu" then
    Outcome.returned { st with cmd := { st.cmd with cpuP := 1 } }
  else if st.argv.getD st.i "" = "-ncpus" then
    let keep := st.i
    let c : Cmdline := { st.cmd with ncpusP := 1 }
    (getIntOpt lc st.argv st.i c.ncpus 1).bind fun r =>
    let c : Cmdline := { c with ncpus := r.2, ncpusC := (r.1 : Int) - (keep : Int) }
    (checkIntHigher "-ncpus" [c.ncpus] c.ncpusC 1).bind fun _ =>
    Outcome.returned { st with cmd := c, i := r.1 }
  else if st.argv.getD st.i "" = "-lobin" then
    let keep := st.i
    let c : Cmdline := { st.cmd with lobinP := 1 }
    (getIntOpt lc st.argv st.i c.lobin 1).bind fun r =>
    let c : Cmdline := { c with lobin := r.2, lobinC := (r.1 : Int) - (keep : Int) }
    (checkIntHigher "-lobin" [c.lobin] c.lobinC 0).bind fun _ =>
    Outcome.returned { st with cmd := c, i := r.1 }
  else if st.argv.getD st.i "" = "-numharm" then
    let keep := st.i
    let c : Cmdline := { st.cmd with numharmP := 1 }
    (getIntOpt lc st.argv st.i c.numharm 1).bind fun r =>
    let c : Cmdline := { c with numharm := r.2, numharmC := (r.1 : Int) - (keep : Int) }
    (checkIntLower "-numharm" [c.numharm] c.numharmC 16).bind fun _ =>
    (checkIntHigher "-numharm" [c.numharm] c.numharmC 1).bind fun _ =>
    Outcome.returned { st with cmd := c, i := r.1 }
  else if st.argv.getD st.i "" = "-zmax" then
    let keep := st.i
    let c : Cmdline := { st.cmd with zmaxP := 1 }
    (getIntOpt lc st.argv st.i c.zmax 1).bind fun r =>
    let c : Cmdline := { c with zmax := r.2, zmaxC := (r.1 : Int) - (keep : Int) }
    (checkIntLower "-zmax" [c.zmax] c.zmaxC 1200).bind fun _ =>
    (checkIntHigher "-zmax" [c.zmax] c.zmaxC 0).bind fun _ =>
    Outcome.returned { st with cmd := c, i := r.1 }
  else if st.argv.getD st.i "" = "-sigma" then
    let keep := st.i
    let c : Cmdline := { st.cmd with sigmaP := 1 }
    (getFloatOpt lc st.argv st.i c.sigma 1).bind fun r =>
    let c : Cmdline := { c with sigma := r.2, sigmaC := (r.1 : Int) - (keep : Int) }
    (checkFloatLower "-sigma" [c.sigma] c.sigmaC 30.0).bind fun _ =>
    (checkFloatHigher "-sigma" [c.sigma] c.sigmaC 1.0).bind fun _ =>
    Outcome.returned { st with cmd := c, i := r.1 }
  else if st.argv.getD st.i "" = "-rlo" then
    let keep := st.i
    let c : Cmdline := { st.cmd with rloP := 1 }
    (getDoubleOpt lc st.argv st.i c.rlo 1).bind fun r =>
    let c : Cmdline := { c with rlo := r.2, rloC := (r.1 : Int) - (keep : Int) }
    (checkFloatHigher "-rlo" [c.rlo] c.rloC 0.0).bind fun _ =>
    Outcome.returned { st with cmd := c, i := r.1 }
  else if st.argv.getD st.i "" = "-rhi" then
    let keep := st.i
    let c : Cmdline := { st.cmd with rhiP := 1 }
    (getDoubleOpt lc st.argv st.i c.rhi 1).bind fun r =>
    let c : Cmdline := { c with rhi := r.2, rhiC := (r.1 : Int) - (keep : Int) }
    (checkFloatHigher "-rhi" [c.rhi] c.rhiC 0.0).bind fun _ =>
    Outcome.returned { st with cmd := c, i := r.1 }
  else if st.argv.getD st.i "" = "-flo" then
    let keep := st.i
    let c : Cmdline := { st.cmd with floP := 1 }
    (getDoubleOpt lc st.argv st.i c.flo 1).bind fun r =>
    let c : Cmdline := { c with flo := r.2, floC := (r.1 : Int) - (keep : Int) }
    (checkFloatHigher "-flo" [c.flo] c.floC 0.0).bind fun _ =>
    Outcome.returned { st with cmd := c, i := r.1 }
  else if st.argv.getD st.i "" = "-fhi" then
    let keep := st.i
    let c : Cmdline := { st.cmd with fhiP := 1 }
    (getDoubleOpt lc st.argv st.i c.fhi 1).bind fun r =>
    let c : Cmdline := { c with fhi := r.2, fhiC := (r.1 : Int) - (keep : Int) }
    (checkFloatHigher "-fhi" [c.fhi] c.fhiC 0.0).bind fun _ =>
    Outcome.returned { st with cmd := c, i := r.1 }
  else if st.argv.getD st.i "" = "-inmem" then
    Outcome.returned { st with cmd := { st.cmd with inmemP := 1 } }
  else if st.argv.getD st.i "" = "-photon" then
    Outcome.returned { st with cmd := { st.cmd with photonP := 1 } }
  else if st.argv.getD st.i "" = "-median" then
    Outcome.returned { st with cmd := { st.cmd with medianP := 1 } }
  else if st.argv.getD st.i "" = "-locpow" then
    Outcome.returned { st with cmd := { st.cmd with locpowP := 1 } }
  else if st.argv.getD st.i "" = "-zaplist" then
    let keep := st.i
    let c : Cmdline := { st.cmd with zaplistP := 1 }
    (getStringOpt st.argv st.i c.zaplist 1).bind fun r =>
    let c : Cmdline := { c with zaplist := r.2, zaplistC := (r.1 : Int) - (keep : Int) }
    Outcome.returned { st with cmd := c, i := r.1 }
  else if st.argv.getD st.i "" = "-baryv" then
    let keep := st.i
    let c : Cmdline := { st.cmd with baryvP := 1 }
    (getDoubleOpt lc st.argv st.i c.baryv 1).bind fun r =>
    let c : Cmdline := { c with baryv := r.2, baryvC := (r.1 : Int) - (keep : Int) }
    (checkFloatLower "-baryv" [c.baryv] c.baryvC 0.1).bind fun _ =>
    (checkFloatHigher "-baryv" [c.baryv] c.baryvC (-0.1)).bind fun _ =>
    Outcome.returned { st with cmd := c, i := r.1 }
  else if st.argv.getD st.i "" = "-otheropt" then
    Outcome.returned { st with cmd := { st.cmd with otheroptP := 1 } }
  else if st.argv.getD st.i "" = "-noharmpolish" then
    Outcome.returned { st with cmd := { st.cmd with noharmpolishP := 1 } }
  else if st.argv.getD st.i "" = "-noharmremove" then
    Outcome.returned { st with cmd := { st.cmd with noharmremoveP := 1 } }
  else if (st.argv.getD st.i "").get 0 = '-' then Outcome.exit_failure
  else
    Outcome.returned
      { st with
        cmd := { st.cmd with argc := st.cmd.argc + 1 }
        argv := st.argv.set st.cmd.argc.toNat (st.argv.getD st.i "") }

/-- The `for` loop of `parseCmdline` from index `st.i` on; at most `fuel` iterations. -/
def parse_loop (lc : Libc) : Nat → ParseState → Outcome ParseState
  | 0, st => Outcome.returned st
  | fuel + 1, st =>
    if st.i < st.argv.length then
      (parse_step lc st).bind fun st1 => parse_loop lc fuel { st1 with i := st1.i + 1 }
    else Outcome.returned st

/-- The state in which `parseCmdline` enters its loop: `cmd.full_cmd_line` is the command
line joined by blanks (`catArgv`), `i = 1` and `cmd.argc = 1`. -/
def parse_init (cmd0 : Cmdline) (argv : List String) : ParseState :=
  { cmd := { cmd0 with full_cmd_line := some (" ".intercalate argv), argc := 1 }
    argv := argv
    i := 1 }

/-- The function `parseCmdline`, called on the structure `cmd0` (the file-scope `cmd`).
The loop gets `argc` iterations, more than it can use. The embedding is of calls with
`argc ≥ 1`, as `main` receives them: `catArgv` copies `argv[0]` before the loop, which
for `argc = 0` reads a null pointer, an execution for which this definition says
nothing true (it gives `exit_failure` there). -/
def parseCmdline (lc : Libc) (cmd0 : Cmdline) (argv : List String) : Outcome Cmdline :=
  (parse_loop lc argv.length (parse_init cmd0 argv)).bind
    fun st =>
      let c : Cmdline := { st.cmd with argv := st.argv.drop 1 }
      let c : Cmdline := { c with argc := c.argc - 1 }
      if 1 > c.argc then Outcome.exit_failure
      else if 1 < c.argc then Outcome.exit_failure
      else Outcome.returned c

/-- A `strtol` for the evaluations: it knows the decimal tokens used in them. -/
def sample_strtol (s : String) : StrtolResult :=
  if s = "0" then { value := 0, converted := true, clean := true, erange := false }
  else if s = "1" then { value := 1, converted := true, clean := true, erange := false }
  else if s = "2" then { value := 2, converted := true, clean := true, erange := false }
  else if s = "3" then { value := 3, converted := true, clean := true, erange := false }
  else if s = "4" then { value := 4, converted := true, clean := true, erange := false }
  else if s = "8" then { value := 8, converted := true, clean := true, erange := false }
  else if s = "16" then { value := 16, converted := true, clean := true, erange := false }
  else if s = "17" then { value := 17, converted := true, clean := true, erange := false }
  else if s = "99999999999" then
    { value := 99999999999, converted := true, clean := true, erange := false }
  else { value := 0, converted := false, clean := false, erange := false }

/-- The library for the evaluations: `sample_strtol`, and a `strtod` that converts
nothing. -/
def sampleLibc : Libc where
  strtol := sample_strtol
  strtod := fun _ => { value := 0, converted := false, clean := false, erange := false }

/-- The token has the form of an integer for the parser: `strtol` converts something
and only white space follows. -/
def converts (lc : Libc) (s : String) : Bool :=
  (lc.strtol s).converted && (lc.strtol s).clean

/-- The token is a well-formed integer that fits an `int`: it has the form of an integer,
`strtol` reports no range error and the value lies between `INT_MIN` and `INT_MAX`. -/
def int_token (lc : Libc) (s : String) : Bool :=
  converts lc s && !(lc.strtol s).erange &&
    decide (INT_MIN ≤ (lc.strtol s).value) && decide ((lc.strtol s).value ≤ INT_MAX)

/-! ## The non-option arguments of a command line

A second description of the command line, following the synopsis that `usage` prints
(`[-gpu [gpu]] [-nsteps [nsteps]] [-nbatch [nbatch]] [-width width] [-lsgpu] ... [--]
infile`): which positions hold non-option arguments. It does not move any token. -/

/-- The number of tokens from position `j` on that have the form of an integer, at most
`limit`: the values of a list option. -/
def count_ints (lc : Libc) (argv : List String) (j : Nat) : Nat → Nat
  | 0 => 0
  | limit + 1 =>
    if j < argv.length ∧ converts lc (argv.getD j "") = true then
      count_ints lc argv (j + 1) limit + 1
    else 0

/-- The number of tokens after the option at position `i` that are its values: up to 32
integers for the list options, one token for an option with a value, none for a
switch. -/
def option_values (lc : Libc) (argv : List String) (i : Nat) : Nat :=
  if argv.getD i "" ∈ ["-gpu", "-nsteps", "-nbatch"] then count_ints lc argv (i + 1) 32
  else if argv.getD i "" ∈ ["-width", "-ncpus", "-lobin", "-numharm", "-zmax", "-sigma",
      "-rlo", "-rhi", "-flo", "-fhi", "-zaplist", "-baryv"] then 1
  else 0

/-- The positions of the non-option arguments from position `i` on: after `--` every
later position; a token that begins with `-` is an option and is skipped with its
values; any other token is a non-option argument. At most `fuel` tokens are looked at. -/
def nonoption_positions (lc : Libc) (argv : List String) : Nat → Nat → List Nat
  | 0, _ => []
  | fuel + 1, i =>
    if i < argv.length then
      if argv.getD i "" = "--" then List.range' (i + 1) (argv.length - (i + 1))
      else if (argv.getD i "").get 0 = '-' then
        nonoption_positions lc argv fuel (i + option_values lc argv i + 1)
      else i :: nonoption_positions lc argv fuel (i + 1)
    else []

/-! ## Reading a run of a refiner -/

/-- Twice the signed area of the triangle `a b c` in the `(r, z / ZSCALE)` plane. -/
def cross (a b c : ℚ × ℚ) : ℚ := (b.1 - a.1) * (c.2 - a.2) - (b.2 - a.2) * (c.1 - a.1)

/-- The three vertices of a simplex are not on one line. -/
def Simplex.nondegenerate (s : Simplex) : Bool := decide (cross s.x0 s.x1 s.x2 ≠ 0)

/-- The point `p` lies strictly inside the triangle: it is strictly on the same side of
the three edges, taken in order. -/
def Simplex.strictly_inside (s : Simplex) (p : ℚ × ℚ) : Bool :=
  (decide (0 < cross s.x0 s.x1 p) && decide (0 < cross s.x1 s.x2 p) &&
      decide (0 < cross s.x2 s.x0 p)) ||
    (decide (cross s.x0 s.x1 p < 0) && decide (cross s.x1 s.x2 p < 0) &&
      decide (cross s.x2 s.x0 p < 0))

/-- The simplex handed to the first solver call of a run. -/
def first_solve_simplex (tr : List Event) : Option Simplex :=
  match tr with
  | Event.amoeba _ _ xin _ _ _ :: _ => some xin
  | _ => none

/-- The value of `max_kern_half_width` at each solver call of a run, in order. -/
def solve_half_widths (tr : List Event) : List Int :=
  tr.filterMap fun e =>
    match e with
    | Event.amoeba _ g _ _ _ _ => some g.max_kern_half_width
    | _ => none

/-- What the solver is given and what it leaves at each solver call of a run, without
the file-scope variables: tolerance, simplex and values in, simplex and values out. -/
def solver_calls (tr : List Event) : List (ℚ × Simplex × Vals × Simplex × Vals) :=
  tr.filterMap fun e =>
    match e with
    | Event.amoeba ftol _ xin yin xout yout => some (ftol, xin, yin, xout, yout)
    | _ => none

/-- An environment whose half-width depends on the working f-dot: `z_resp_halfwidth` is
the integral part of its argument at both accuracies; everything else as in
`sampleEnv`. -/
def widthEnv : Env (ℚ × ℚ × ℚ) Unit :=
  { sampleEnv with z_resp_halfwidth := fun z _ => trunc z }

/-! ## Double arithmetic for the starting simplex

The refiners above are in exact arithmetic. The starting simplex is modelled a second
time with the rounding of every `double` operation. -/

/-- The largest `e` with `2 ^ e <= n` for `n >= 1` (0 for `n = 0`); `fuel` bounds the
number of halvings. -/
def log2_floor : Nat → Nat → Nat
  | 0, _ => 0
  | fuel + 1, n => if 2 ≤ n then log2_floor fuel (n / 2) + 1 else 0

/-- The binade of the positive ratio `n / d`: the `e` with `2 ^ e <= n / d < 2 ^ (e + 1)`. -/
def binade (n d : Nat) : Int :=
  let e0 : Int := (log2_floor n n : Int) - (log2_floor d d : Int)
  if e0 ≥ 0 then (if d * 2 ^ e0.toNat ≤ n then e0 else e0 - 1)
  else (if d ≤ n * 2 ^ (-e0).toNat then e0 else e0 - 1)

/-- The integer nearest to `N / D`; of two nearest ones, the even one. -/
def round_even (N D : Nat) : Nat :=
  let m := N / D
  let r := N % D
  if 2 * r < D then m else if D < 2 * r then m + 1 else if m % 2 = 0 then m else m + 1

/-- Significand and exponent of the `double` nearest to the positive ratio `n / d`: the
ratio is scaled into the binade `[2 ^ 52, 2 ^ 53)` and rounded to an integer. -/
def round_double_parts (n d : Nat) : Nat × Int :=
  let e := binade n d
  let m := if 52 - e ≥ 0 then round_even (n * 2 ^ (52 - e).toNat) d
           else round_even n (d * 2 ^ (e - 52).toNat)
  (m, e - 52)

/-- The `double` (IEEE 754 binary64, 53-bit significand) nearest to the exact value `x`,
ties to even: the result of a `double` operation whose exact result is `x`. The
exponent range is not bounded (no overflow, no subnormal numbers). -/
def round_double (x : ℚ) : ℚ :=
  if x = 0 then 0
  else
    let p := round_double_parts x.num.natAbs x.den
    (x.num.sign : ℚ) * (p.1 : ℚ) * (2 : ℚ) ^ p.2

/-- The starting simplex of `max_rz_arr` and `max_rz_arr_harmonics` in `double`
arithmetic: `step = 0.4` is the nearest `double`, and `rin - step`, `rin + step`,
`zin / ZSCALE`, `zin / ZSCALE - step`, `zin / ZSCALE + step` are each rounded once. -/
def first_simplex_double (rin zin : ℚ) : Simplex :=
  let step : ℚ := round_double 0.4
  { x0 := (round_double (rin - step), round_double (round_double (zin / ZSCALE) - step))
    x1 := (round_double (rin - step), round_double (round_double (zin / ZSCALE) + step))
    x2 := (round_double (rin + step), round_double (zin / ZSCALE)) }

/-! ## Constants of `accel.h` -/

/-- A preprocessor directive on an object-like macro with an integer body. -/
inductive Directive where
  | define (value : Int)
  | undef
deriving DecidableEq

/-- The definition in force after one more directive. -/
def Directive.apply (_cur : Option Int) (d : Directive) : Option Int :=
  match d with
  | Directive.define v => some v
  | Directive.undef => none

/-- The directives on `ACCEL_USELEN` that are not commented out, in the order of the
header: `#define ACCEL_USELEN 7470`, `#undef ACCEL_USELEN`, `#define ACCEL_USELEN 3962`. -/
def ACCEL_USELEN_directives : List Directive :=
  [Directive.define 7470, Directive.undef, Directive.define 3962]

/-- The value of `ACCEL_USELEN` seen by the code after the header. -/
def ACCEL_USELEN : Int := (ACCEL_USELEN_directives.foldl Directive.apply none).getD 0

/-- Conversion of an integer to `unsigned short` (16 bits): the value modulo `65536`. -/
def to_unsigned_short (n : Int) : Int := n % 65536

/-- Points per Fourier bin: `#define ACCEL_NUMBETWEEN 2`. -/
def ACCEL_NUMBETWEEN : Int := 2

/-- Step size in Fourier frequency: `#define ACCEL_DR 0.5`. -/
def ACCEL_DR : ℚ := 0.5

/-- Reciprocal of `ACCEL_DR`: `#define ACCEL_RDR 2`. -/
def ACCEL_RDR : Int := 2

/-- Step size in Fourier f-dot: `#define ACCEL_DZ 2`. -/
def ACCEL_DZ : Int := 2

/-- Reciprocal of `ACCEL_DZ`: `#define ACCEL_RDZ 0.5`. -/
def ACCEL_RDZ : ℚ := 0.5

/-! ## Bit flag values of `cuda_accel.h`

The flag word is a C `int`; every value below is non-negative and below `2 ^ 30`, so the
flags are natural numbers with the bitwise operations of `Nat`. -/

/-- The flag `CU_INPT_DEVICE`, `(1<<0)`: whole raw input FFT in device memory. -/
def CU_INPT_DEVICE : Nat := 1 <<< 0

/-- The flag `CU_INPT_HOST`, `(1<<1)`: whole raw input FFT in page-locked host memory. -/
def CU_INPT_HOST : Nat := 1 <<< 1

/-- The flag `CU_INPT_SINGLE_C`, `(1<<2)`: input prepared one step at a time on the CPU. -/
def CU_INPT_SINGLE_C : Nat := 1 <<< 2

/-- The flag `CU_INPT_SINGLE_G`, `(1<<3)`: input prepared one step at a time on the GPU. -/
def CU_INPT_SINGLE_G : Nat := 1 <<< 3

/-- The group mask `CU_INPT_SINGLE`, `(CU_INPT_SINGLE_G|CU_INPT_SINGLE_C)`. -/
def CU_INPT_SINGLE : Nat := CU_INPT_SINGLE_G ||| CU_INPT_SINGLE_C

/-- The group mask `CU_INPT_ALL`,
`( CU_INPT_DEVICE | CU_INPT_HOST | CU_INPT_SINGLE_G | CU_INPT_SINGLE_C )`. -/
def CU_INPT_ALL : Nat :=
  CU_INPT_DEVICE ||| CU_INPT_HOST ||| CU_INPT_SINGLE_G ||| CU_INPT_SINGLE_C

/-- The flag `CU_OUTP_DEVICE`, `(1<<4)`: candidates written to device memory. -/
def CU_OUTP_DEVICE : Nat := 1 <<< 4

/-- The flag `CU_OUTP_HOST`, `(1<<5)`: candidates written to page-locked host memory. -/
def CU_OUTP_HOST : Nat := 1 <<< 5

/-- The flag `CU_OUTP_SINGLE`, `(1<<6)`: candidates of the current plane only. -/
def CU_OUTP_SINGLE : Nat := 1 <<< 6

/-- The group mask `CU_OUTP_ALL`, `( CU_OUTP_DEVICE | CU_OUTP_HOST | CU_OUTP_SINGLE )`. -/
def CU_OUTP_ALL : Nat := CU_OUTP_DEVICE ||| CU_OUTP_HOST ||| CU_OUTP_SINGLE

/-- The flag `FLAG_SAS_SIG`, `(1<<7)`: sigma calculations on the GPU. -/
def FLAG_SAS_SIG : Nat := 1 <<< 7

/-- The flag `CU_CAND_LST`, `(1<<8)`: candidates stored in a list. -/
def CU_CAND_LST : Nat := 1 <<< 8

/-- The flag `CU_CAND_ARR`, `(1<<9)`: candidates stored in an array. -/
def CU_CAND_ARR : Nat := 1 <<< 9

/-- The flag `FLAG_PLN_TEX`, `(1<<10)`: texture memory for the planes. -/
def FLAG_PLN_TEX : Nat := 1 <<< 10

/-- The flag `FLAG_CNV_TEX`, `(1<<11)`: texture memory for the convolution. -/
def FLAG_CNV_TEX : Nat := 1 <<< 11

/-- The flag `FLAG_CNV_1KER`, `(1<<12)`: minimal kernel. -/
def FLAG_CNV_1KER : Nat := 1 <<< 12

/-- The flag `FLAG_CNV_OVLP`, `(1<<13)`: overlap kernel. -/
def FLAG_CNV_OVLP : Nat := 1 <<< 13

/-- The flag `FLAG_CNV_PLN`, `(1<<14)`: convolve one plane at a time. -/
def FLAG_CNV_PLN : Nat := 1 <<< 14

/-- The flag `FLAG_CNV_STK`, `(1<<15)`: convolve one stack at a time. -/
def FLAG_CNV_STK : Nat := 1 <<< 15

/-- The flag `FLAG_CNV_FAM`, `(1<<16)`: convolve one family at a time. -/
def FLAG_CNV_FAM : Nat := 1 <<< 16

/-- The group mask `FLAG_CNV_ALL`, `( FLAG_CNV_PLN | FLAG_CNV_STK | FLAG_CNV_FAM )`. -/
def FLAG_CNV_ALL : Nat := FLAG_CNV_PLN ||| FLAG_CNV_STK ||| FLAG_CNV_FAM

/-- The flag `FLAG_STP_ROW`, `(1<<17)`: multi-step, rows interleaved. -/
def FLAG_STP_ROW : Nat := 1 <<< 17

/-- The flag `FLAG_STP_PLN`, `(1<<18)`: multi-step, planes interleaved. -/
def FLAG_STP_PLN : Nat := 1 <<< 18

/-- The flag `FLAG_STP_STK`, `(1<<19)`: multi-step, stacks interleaved. -/
def FLAG_STP_STK : Nat := 1 <<< 19

/-- The group mask `FLAG_STP_ALL`, `( FLAG_STP_ROW | FLAG_STP_PLN | FLAG_STP_STK )`. -/
def FLAG_STP_ALL : Nat := FLAG_STP_ROW ||| FLAG_STP_PLN ||| FLAG_STP_STK

/-- The flag `FLAG_CUFFTCB_INP`, `(1<<24)`: input callback does the convolution. -/
def FLAG_CUFFTCB_INP : Nat := 1 <<< 24

/-- The flag `FLAG_CUFFTCB_OUT`, `(1<<25)`: output callback creates the powers. -/
def FLAG_CUFFTCB_OUT : Nat := 1 <<< 25

/-- The flag `FLAG_RETURN_ALL`, `(1<<26)`: return results for all stages of summing. -/
def FLAG_RETURN_ALL : Nat := 1 <<< 26

/-- The flag `FLAG_STORE_ALL`, `(1<<28)`: store candidates for all stages of summing. -/
def FLAG_STORE_ALL : Nat := 1 <<< 28

/-- The flag `FLAG_STORE_EXP`, `(1<<29)`: store expanded candidates. -/
def FLAG_STORE_EXP : Nat := 1 <<< 29

/-- The single-bit flags of the search flag word, from `CU_INPT_DEVICE` to
`FLAG_STORE_EXP`, in the order of the header. -/
def search_flags : List Nat :=
  [CU_INPT_DEVICE, CU_INPT_HOST, CU_INPT_SINGLE_C, CU_INPT_SINGLE_G, CU_OUTP_DEVICE,
   CU_OUTP_HOST, CU_OUTP_SINGLE, FLAG_SAS_SIG, CU_CAND_LST, CU_CAND_ARR, FLAG_PLN_TEX,
   FLAG_CNV_TEX, FLAG_CNV_1KER, FLAG_CNV_OVLP, FLAG_CNV_PLN, FLAG_CNV_STK, FLAG_CNV_FAM,
   FLAG_STP_ROW, FLAG_STP_PLN, FLAG_STP_STK, FLAG_CUFFTCB_INP, FLAG_CUFFTCB_OUT,
   FLAG_RETURN_ALL, FLAG_STORE_ALL, FLAG_STORE_EXP]

/-- The flag `f` is set in the mask `m`. -/
def flag_in (f m : Nat) : Bool := decide (f &&& m ≠ 0)

/-! ## Theorems: the two simplex solves -/

/-- C1: for every input and every environment, `max_rz_arr` and `max_rz_arr_harmonics`
call `amoeba` exactly twice. The first call has tolerance 1e-7 and runs while
`max_kern_half_width` is a `z_resp_halfwidth (..) LOWACC`; the second has tolerance
1e-10 and runs while it is a `z_resp_halfwidth (..) HIGHACC`; the values returned
(`rout`, `zout`, and the power for `max_rz_arr`) are read from the simplex that the
second call leaves. -/
theorem C1_two_solves_low_then_high {D F : Type} (env : Env D F) (g : Globals)
    (data : List fcomplex) (datas : List (List fcomplex)) (num_harmonics : Int)
    (r_offset : List Int) (numdata : Int) (rin zin : ℚ) :
    (∃ (g2 g3 : Globals) (x xa xb xc : Simplex) (y ya yb yc : Vals),
      (max_rz_arr env g data numdata rin zin).trace =
        [Event.amoeba 1.0e-7 g2 x y xa ya, Event.amoeba 1.0e-10 g3 xb yb xc yc] ∧
      g2.max_kern_half_width = env.z_resp_halfwidth (|zin| + 4.0) Accuracy.LOWACC ∧
      g3.max_kern_half_width = env.z_resp_halfwidth (|xa.x0.2| + 4.0) Accuracy.HIGHACC ∧
      xa = (env.amoeba x y 1.0e-7 (power_call_rz env g2) 0).1 ∧
      ya = (env.amoeba x y 1.0e-7 (power_call_rz env g2) 0).2.1 ∧
      xc = (env.amoeba xb yb 1.0e-10 (power_call_rz env g3) 0).1 ∧
      yc = (env.amoeba xb yb 1.0e-10 (power_call_rz env g3) 0).2.1 ∧
      (max_rz_arr env g data numdata rin zin).val.rout = xc.x0.1 ∧
      (max_rz_arr env g data numdata rin zin).val.zout = xc.x0.2 * ZSCALE ∧
      (max_rz_arr env g data numdata rin zin).val.ret = -yc.y0) ∧
    (∃ (g2 g3 : Globals) (x xa xb xc : Simplex) (y ya yb yc : Vals),
      (max_rz_arr_harmonics env g datas num_harmonics r_offset numdata rin zin).trace =
        [Event.amoeba 1.0e-7 g2 x y xa ya, Event.amoeba 1.0e-10 g3 xb yb xc yc] ∧
      g2.max_kern_half_width =
        env.z_resp_halfwidth (|zin * (num_harmonics : ℚ)| + 4.0) Accuracy.LOWACC ∧
      g3.max_kern_half_width =
        env.z_resp_halfwidth (|xa.x0.2 * ZSCALE * (num_harmonics : ℚ)| + 4.0)
          Accuracy.HIGHACC ∧
      xa = (env.amoeba x y 1.0e-7 (power_call_rz_harmonics env g2) 0).1 ∧
      ya = (env.amoeba x y 1.0e-7 (power_call_rz_harmonics env g2) 0).2.1 ∧
      xc = (env.amoeba xb yb 1.0e-10 (power_call_rz_harmonics env g3) 0).1 ∧
      yc = (env.amoeba xb yb 1.0e-10 (power_call_rz_harmonics env g3) 0).2.1 ∧
      (max_rz_arr_harmonics env g datas num_harmonics r_offset numdata rin zin).val.rout =
        xc.x0.1 ∧
      (max_rz_arr_harmonics env g datas num_harmonics r_offset numdata rin zin).val.zout =
        xc.x0.2 * ZSCALE) := by
  constructor
  · exact ⟨_, _, _, _, _, _, _, _, _, _, rfl, rfl, rfl, rfl, rfl, rfl, rfl, rfl, rfl, rfl⟩
  · simp only [max_rz_arr_harmonics, ne_eq, not_true_eq_false, and_false, if_false]
    exact ⟨_, _, _, _, _, _, _, _, _, _, rfl, rfl, rfl, rfl, rfl, rfl, rfl, rfl, rfl⟩

/-! ## Theorems: the multi-harmonic objective -/

/-- Accumulating `f 0, .., f (n-1)` in loop order gives their sum. -/
theorem foldl_add_range (f : ℕ → ℚ) (n : ℕ) :
    (List.range n).foldl (fun (acc : ℚ) (k : ℕ) => acc + f k) 0 = ∑ k in Finset.range n, f k := by
  induction n with
  | zero => simp
  | succ m ih => rw [List.range_succ, List.foldl_append, ih, Finset.sum_range_succ]; rfl

/-- A sum over the loop index `k = 0 .. n-1` is the sum over the harmonic number
`h = k + 1 = 1 .. n`. -/
theorem sum_range_eq_sum_Icc (f : ℕ → ℚ) (n : ℕ) :
    ∑ k in Finset.range n, f k = ∑ h in Finset.Icc 1 n, f (h - 1) := by
  induction n with
  | zero => simp
  | succ m ih =>
    rw [Finset.sum_range_succ, ih, ← Nat.Icc_insert_succ_right (by omega),
      Finset.sum_insert (by simp)]
    simp [add_comm]

/-- The objective `power_call_rz_harmonics` as a sum over the harmonic number. -/
theorem power_call_rz_harmonics_eq_sum {D F : Type} (env : Env D F) (g : Globals)
    (r zs : ℚ) :
    power_call_rz_harmonics env g (r, zs) =
      -(∑ h in Finset.Icc 1 g.max_num_harmonics.toNat,
          POWER
            (env.rz_interp (g.maxdata_harmonics.getD (h - 1) []) g.nummaxdata
              (((g.maxr_offset.getD (h - 1) 0 : ℚ) + r) * (h : ℚ) - (g.maxr_offset.getD (h - 1) 0 : ℚ))
              (zs * ZSCALE * (h : ℚ)) g.max_kern_half_width).r
            (env.rz_interp (g.maxdata_harmonics.getD (h - 1) []) g.nummaxdata
              (((g.maxr_offset.getD (h - 1) 0 : ℚ) + r) * (h : ℚ) - (g.maxr_offset.getD (h - 1) 0 : ℚ))
              (zs * ZSCALE * (h : ℚ)) g.max_kern_half_width).i
          / g.maxlocpow.getD (h - 1) 0) := by
  unfold power_call_rz_harmonics
  simp only []
  rw [foldl_add_range, sum_range_eq_sum_Icc]
  congr 1
  apply Finset.sum_congr rfl
  intro h hh
  have h1 : 1 ≤ h := (Finset.mem_Icc.mp hh).1
  have hc : (((h - 1 : ℕ) : Int) + 1 : Int) = (h : Int) := by omega
  simp only [harmonic_r, harmonic_z, hc, Int.cast_natCast]

/-- C2: for every number of harmonics `H = max_num_harmonics` and every simplex point
`(r, zs)`, `power_call_rz_harmonics` returns minus the sum over `h = 1 .. H` of
`P_h / maxlocpow[h-1]`, where `P_h` is the squared magnitude of `rz_interp` on harmonic
`h`'s data at position `(maxr_offset[h-1] + r) * h - maxr_offset[h-1]` and f-dot
`zs * ZSCALE * h`: each harmonic is divided by its own normalisation entry. In
`max_rz_arr_harmonics` that entry is `get_scaleFactorZ` of harmonic `h`'s own data at
the harmonic's own position, at both solves. -/
theorem C2_objective_is_normalised_sum {D F : Type} (env : Env D F) (g : Globals)
    (r zs : ℚ) (datas : List (List fcomplex)) (num_harmonics : Int) (r_offset : List Int)
    (numdata : Int) (rin zin : ℚ) :
    power_call_rz_harmonics env g (r, zs) =
      -(∑ h in Finset.Icc 1 g.max_num_harmonics.toNat,
          POWER
            (env.rz_interp (g.maxdata_harmonics.getD (h - 1) []) g.nummaxdata
              (((g.maxr_offset.getD (h - 1) 0 : ℚ) + r) * (h : ℚ) - (g.maxr_offset.getD (h - 1) 0 : ℚ))
              (zs * ZSCALE * (h : ℚ)) g.max_kern_half_width).r
            (env.rz_interp (g.maxdata_harmonics.getD (h - 1) []) g.nummaxdata
              (((g.maxr_offset.getD (h - 1) 0 : ℚ) + r) * (h : ℚ) - (g.maxr_offset.getD (h - 1) 0 : ℚ))
              (zs * ZSCALE * (h : ℚ)) g.max_kern_half_width).i
          / g.maxlocpow.getD (h - 1) 0) ∧
    (∀ ev ∈ (max_rz_arr_harmonics env g datas num_harmonics r_offset numdata rin zin).trace,
      ∃ (ftol : ℚ) (g2 : Globals) (x xa : Simplex) (y ya : Vals),
        ev = Event.amoeba ftol g2 x y xa ya ∧
        g2.max_num_harmonics = num_harmonics ∧
        g2.maxlocpow = (List.range num_harmonics.toNat).map (fun (k : ℕ) =>
          env.get_scaleFactorZ (datas.getD k []) numdata
            (((r_offset.getD k 0 : ℚ) + rin) * ((k : ℚ) + 1) - (r_offset.getD k 0 : ℚ))
            (zin * ((k : ℚ) + 1)) 0.0)) := by
  refine ⟨power_call_rz_harmonics_eq_sum env g r zs, ?_⟩
  intro ev hev
  simp only [max_rz_arr_harmonics, ne_eq, not_true_eq_false, and_false, if_false,
    List.cons_append, List.nil_append, List.mem_cons, List.mem_singleton,
    List.not_mem_nil, or_false] at hev
  rcases hev with rfl | rfl
  · exact ⟨_, _, _, _, _, _, rfl, rfl, by simp [harmonic_r]⟩
  · exact ⟨_, _, _, _, _, _, rfl, rfl, by simp [harmonic_r]⟩

/-! ## Theorems: powers and derivatives at the peak -/

/-- The closing loop of `max_rz_arr_harmonics` in closed form: it changes `maxdata` only,
and entry `k` of `power[]` and `derivs[]` is computed from harmonic `k + 1` alone. -/
theorem final_derivs_loop_eq {D F : Type} (env : Env D F) (g : Globals)
    (data : List (List fcomplex)) (num_harmonics : Int) (r_offset : List Int) (numdata : Int)
    (rout zout : ℚ) :
    ∃ md : List fcomplex,
      final_derivs_loop env g data num_harmonics r_offset numdata rout zout =
        ({ g with maxdata := md },
         (List.range num_harmonics.toNat).map (fun (k : ℕ) =>
            env.get_derivs3d (data.getD k []) numdata
              (harmonic_r (r_offset.getD k 0) rout ((k : Int) + 1))
              (zout * (((k : Int) + 1 : Int) : ℚ)) 0.0
              (env.get_scaleFactorZ (data.getD k []) numdata
                (harmonic_r (r_offset.getD k 0) rout ((k : Int) + 1))
                (zout * (((k : Int) + 1 : Int) : ℚ)) 0.0)),
         (List.range num_harmonics.toNat).map (fun (k : ℕ) =>
            -power_call_rz env { g with maxdata := data.getD k [] }
              (harmonic_r (r_offset.getD k 0) rout ((k : Int) + 1),
               zout / ZSCALE * (((k : Int) + 1 : Int) : ℚ)))) := by
  unfold final_derivs_loop
  generalize num_harmonics.toNat = n
  induction n with
  | zero => exact ⟨g.maxdata, rfl⟩
  | succ m ih =>
    obtain ⟨md, hmd⟩ := ih
    refine ⟨data.getD m [], ?_⟩
    rw [List.range_succ, List.foldl_append, hmd]
    simp only [List.foldl_cons, List.foldl_nil, List.map_append, List.map_cons, List.map_nil]

/-- C3: after the second solve in `max_rz_arr_harmonics`, for every harmonic
`h = 1 .. num_harmonics`, `power[h-1]` is the un-normalised interpolated power of
`data[h-1]` at position `(r_offset[h-1] + rout) * h - r_offset[h-1]` and f-dot `zout * h`
(under the half-width left by the `HIGHACC` pass), and `derivs[h-1]` is `get_derivs3d` at
the same position and f-dot, with `rout`, `zout` the values the function returns. -/
theorem C3_power_and_derivs_at_returned_peak {D F : Type} (env : Env D F) (g : Globals)
    (datas : List (List fcomplex)) (num_harmonics : Int) (r_offset : List Int)
    (numdata : Int) (rin zin : ℚ) (h : ℕ) (h1 : 1 ≤ h) (hH : (h : Int) ≤ num_harmonics) :
    (max_rz_arr_harmonics env g datas num_harmonics r_offset numdata rin zin).val.power[h - 1]? =
      some (POWER
        (env.rz_interp (datas.getD (h - 1) []) numdata
          (((r_offset.getD (h - 1) 0 : ℚ) +
              (max_rz_arr_harmonics env g datas num_harmonics r_offset numdata rin zin).val.rout)
            * (h : ℚ) - (r_offset.getD (h - 1) 0 : ℚ))
          ((max_rz_arr_harmonics env g datas num_harmonics r_offset numdata rin zin).val.zout
            * (h : ℚ))
          (max_rz_arr_harmonics env g datas num_harmonics r_offset numdata rin
            zin).globals.max_kern_half_width).r
        (env.rz_interp (datas.getD (h - 1) []) numdata
          (((r_offset.getD (h - 1) 0 : ℚ) +
              (max_rz_arr_harmonics env g datas num_harmonics r_offset numdata rin zin).val.rout)
            * (h : ℚ) - (r_offset.getD (h - 1) 0 : ℚ))
          ((max_rz_arr_harmonics env g datas num_harmonics r_offset numdata rin zin).val.zout
            * (h : ℚ))
          (max_rz_arr_harmonics env g datas num_harmonics r_offset numdata rin
            zin).globals.max_kern_half_width).i) ∧
    (max_rz_arr_harmonics env g datas num_harmonics r_offset numdata rin zin).val.derivs[h - 1]? =
      some (env.get_derivs3d (datas.getD (h - 1) []) numdata
        (((r_offset.getD (h - 1) 0 : ℚ) +
            (max_rz_arr_harmonics env g datas num_harmonics r_offset numdata rin zin).val.rout)
          * (h : ℚ) - (r_offset.getD (h - 1) 0 : ℚ))
        ((max_rz_arr_harmonics env g datas num_harmonics r_offset numdata rin zin).val.zout
          * (h : ℚ)) 0.0
        (env.get_scaleFactorZ (datas.getD (h - 1) []) numdata
          (((r_offset.getD (h - 1) 0 : ℚ) +
              (max_rz_arr_harmonics env g datas num_harmonics r_offset numdata rin zin).val.rout)
            * (h : ℚ) - (r_offset.getD (h - 1) 0 : ℚ))
          ((max_rz_arr_harmonics env g datas num_harmonics r_offset numdata rin zin).val.zout
            * (h : ℚ)) 0.0)) ∧
    (∃ w : ℚ,
      (max_rz_arr_harmonics env g datas num_harmonics r_offset numdata rin
        zin).globals.max_kern_half_width = env.z_resp_halfwidth w Accuracy.HIGHACC) := by
  have hlt : h - 1 < num_harmonics.toNat := by omega
  have hc : (((h - 1 : ℕ) : Int) + 1 : Int) = (h : Int) := by omega
  have hz : ∀ q : ℚ, q / ZSCALE * (h : ℚ) * ZSCALE = q * (h : ℚ) := by
    intro q
    unfold ZSCALE
    ring
  simp only [max_rz_arr_harmonics, ne_eq, not_true_eq_false, and_false, if_false]
  obtain ⟨md, hmd⟩ := final_derivs_loop_eq env
    { g with maxlocpow := (List.range num_harmonics.toNat).map (fun (k : Nat) =>
               env.get_scaleFactorZ (datas.getD k []) numdata
                 (harmonic_r (r_offset.getD k 0) rin ((k : Int) + 1))
                 (zin * (((k : Int) + 1 : Int) : ℚ)) 0.0),
             maxr_offset := r_offset, maxdata_harmonics := datas,
             nummaxdata := numdata, max_num_harmonics := num_harmonics,
             max_kern_half_width := _ }
    datas num_harmonics r_offset numdata _ _
  rw [hmd]
  refine ⟨?_, ?_, ⟨_, rfl⟩⟩
  · simp only [List.getElem?_map, List.getElem?_range hlt, Option.map_some', power_call_rz,
      harmonic_r, hc, Int.cast_natCast, neg_neg, hz]
  · simp only [List.getElem?_map, List.getElem?_range hlt, Option.map_some',
      harmonic_r, hc, Int.cast_natCast]

/-- C3 at a concrete input: two harmonics with offsets 3 and 5, second harmonic. -/
theorem C3_power_and_derivs_at_returned_peak_witness :
    ((1 : ℕ) ≤ 2 ∧ ((2 : ℕ) : Int) ≤ 2) ∧
    (max_rz_arr_harmonics sampleEnv emptyGlobals [[], []] 2 [3, 5] 8 3 2).val.power[2 - 1]? =
      some (POWER
        (sampleEnv.rz_interp (List.getD [[], []] (2 - 1) []) 8
          ((((List.getD ([3, 5] : List Int) (2 - 1) 0 : Int) : ℚ) +
              (max_rz_arr_harmonics sampleEnv emptyGlobals [[], []] 2 [3, 5] 8 3 2).val.rout)
            * ((2 : ℕ) : ℚ) - ((List.getD ([3, 5] : List Int) (2 - 1) 0 : Int) : ℚ))
          ((max_rz_arr_harmonics sampleEnv emptyGlobals [[], []] 2 [3, 5] 8 3 2).val.zout
            * ((2 : ℕ) : ℚ))
          (max_rz_arr_harmonics sampleEnv emptyGlobals [[], []] 2 [3, 5] 8 3
            2).globals.max_kern_half_width).r
        (sampleEnv.rz_interp (List.getD [[], []] (2 - 1) []) 8
          ((((List.getD ([3, 5] : List Int) (2 - 1) 0 : Int) : ℚ) +
              (max_rz_arr_harmonics sampleEnv emptyGlobals [[], []] 2 [3, 5] 8 3 2).val.rout)
            * ((2 : ℕ) : ℚ) - ((List.getD ([3, 5] : List Int) (2 - 1) 0 : Int) : ℚ))
          ((max_rz_arr_harmonics sampleEnv emptyGlobals [[], []] 2 [3, 5] 8 3 2).val.zout
            * ((2 : ℕ) : ℚ))
          (max_rz_arr_harmonics sampleEnv emptyGlobals [[], []] 2 [3, 5] 8 3
            2).globals.max_kern_half_width).i) :=
  ⟨⟨by decide, by decide⟩,
    (C3_power_and_derivs_at_returned_peak sampleEnv emptyGlobals [[], []] 2 [3, 5] 8 3 2 2
      (by decide) (by decide)).1⟩

/-! ## Theorems: the result is what the solver leaves -/

/-- C4: whatever the solver does, `max_rz_arr` outputs what the second `amoeba` call
leaves in the first simplex vertex: `rout = x[0][0]`, `zout = ZSCALE * x[0][1]`, returned
power `-y[0]`. In particular a solver that leaves an arbitrary simplex `p` with values
`v` makes the refiner return `(p.x0.1, ZSCALE * p.x0.2, -v.y0)`, however far that is from
`(rin, zin)`: nothing clamps or checks the result. -/
theorem C4_result_is_second_solve_vertex {D F : Type} (env : Env D F) (g : Globals)
    (data : List fcomplex) (numdata : Int) (rin zin : ℚ) (p : Simplex) (v : Vals) :
    (∃ (first : Event) (g3 : Globals) (xb : Simplex) (yb : Vals),
      (max_rz_arr env g data numdata rin zin).trace =
        [first, Event.amoeba 1.0e-10 g3 xb yb
          (env.amoeba xb yb 1.0e-10 (power_call_rz env g3) 0).1
          (env.amoeba xb yb 1.0e-10 (power_call_rz env g3) 0).2.1] ∧
      (max_rz_arr env g data numdata rin zin).val.rout =
        (env.amoeba xb yb 1.0e-10 (power_call_rz env g3) 0).1.x0.1 ∧
      (max_rz_arr env g data numdata rin zin).val.zout =
        ZSCALE * (env.amoeba xb yb 1.0e-10 (power_call_rz env g3) 0).1.x0.2 ∧
      (max_rz_arr env g data numdata rin zin).val.ret =
        -(env.amoeba xb yb 1.0e-10 (power_call_rz env g3) 0).2.1.y0) ∧
    (max_rz_arr { env with amoeba := fun _ _ _ _ n => (p, v, n) } g data numdata rin
        zin).val.rout = p.x0.1 ∧
    (max_rz_arr { env with amoeba := fun _ _ _ _ n => (p, v, n) } g data numdata rin
        zin).val.zout = ZSCALE * p.x0.2 ∧
    (max_rz_arr { env with amoeba := fun _ _ _ _ n => (p, v, n) } g data numdata rin
        zin).val.ret = -v.y0 := by
  refine ⟨⟨_, _, _, _, rfl, rfl, ?_, rfl⟩, rfl, ?_, rfl⟩
  · exact mul_comm _ _
  · exact mul_comm _ _

/-- C5: in `max_rz_arr_harmonics` the retry, particle-swarm and grid-search branches are
entered for no input: the events of a run are exactly the two solver calls, so `rout`
and `zout` are `x[0][0]` and `ZSCALE * x[0][1]` of the second solve, and the run does not
depend on what the bodies of those branches would do. -/
theorem C5_debug_branches_never_run {D F : Type} (env : Env D F) (g : Globals)
    (datas : List (List fcomplex)) (num_harmonics : Int) (r_offset : List Int)
    (numdata : Int) (rin zin : ℚ)
    (b1 b2 b3 : Globals → Simplex → Vals → DebugLocals → DebugLocals) :
    Event.retry ∉ (max_rz_arr_harmonics env g datas num_harmonics r_offset numdata rin zin).trace ∧
    Event.swarm ∉ (max_rz_arr_harmonics env g datas num_harmonics r_offset numdata rin zin).trace ∧
    Event.largePoints ∉
      (max_rz_arr_harmonics env g datas num_harmonics r_offset numdata rin zin).trace ∧
    Event.smallPoints ∉
      (max_rz_arr_harmonics env g datas num_harmonics r_offset numdata rin zin).trace ∧
    (∃ (first : Event) (g3 : Globals) (xb : Simplex) (yb : Vals),
      (max_rz_arr_harmonics env g datas num_harmonics r_offset numdata rin zin).trace =
        [first, Event.amoeba 1.0e-10 g3 xb yb
          (env.amoeba xb yb 1.0e-10 (power_call_rz_harmonics env g3) 0).1
          (env.amoeba xb yb 1.0e-10 (power_call_rz_harmonics env g3) 0).2.1] ∧
      (max_rz_arr_harmonics env g datas num_harmonics r_offset numdata rin zin).val.rout =
        (env.amoeba xb yb 1.0e-10 (power_call_rz_harmonics env g3) 0).1.x0.1 ∧
      (max_rz_arr_harmonics env g datas num_harmonics r_offset numdata rin zin).val.zout =
        ZSCALE * (env.amoeba xb yb 1.0e-10 (power_call_rz_harmonics env g3) 0).1.x0.2) ∧
    (max_rz_arr_harmonics
        { env with swarm_body := b1, large_points_body := b2, small_points_body := b3 }
        g datas num_harmonics r_offset numdata rin zin).val.rout =
      (max_rz_arr_harmonics env g datas num_harmonics r_offset numdata rin zin).val.rout ∧
    (max_rz_arr_harmonics
        { env with swarm_body := b1, large_points_body := b2, small_points_body := b3 }
        g datas num_harmonics r_offset numdata rin zin).val.zout =
      (max_rz_arr_harmonics env g datas num_harmonics r_offset numdata rin zin).val.zout := by
  simp only [max_rz_arr_harmonics, ne_eq, not_true_eq_false, and_false, if_false,
    List.cons_append, List.nil_append]
  refine ⟨by simp, by simp, by simp, by simp, ⟨_, _, _, _, rfl, rfl, mul_comm _ _⟩, rfl, rfl⟩

/-! ## Theorems: harmonic positions -/

/-- Entry `k` of an array whose `n` entries all equal `off`. -/
theorem getD_replicate_of_lt (n k : ℕ) (off : Int) (hk : k < n) :
    (List.replicate n off).getD k 0 = off := by
  simp [List.getD_eq_getElem?_getD, List.getElem?_replicate_of_lt hk]

/-- C6: for every harmonic number `h`, every `r` and every common offset `off`, the
position used for harmonic `h`, `(off + r) * h - off`, is at absolute frequency
`h * (off + r)`, `h` times the fundamental's absolute frequency, and the f-dot used is
`h` times the fundamental's. With all entries of the offset array equal to `off`, the
objective `power_call_rz_harmonics` therefore probes harmonic `h` at in-window position
`h * (off + r) - off` and f-dot `h * (zs * ZSCALE)`, and `optemiseDerivs` at
`h * (off + r) - off` and `h * z`. -/
theorem C6_harmonic_is_h_times_fundamental {D F : Type} (env : Env D F) (g : Globals)
    (datas : List (List fcomplex)) (numdata : Int) (H : ℕ) (off : Int) (r zs z : ℚ)
    (h : Int) :
    ((off : ℚ) + harmonic_r off r h = (h : ℚ) * ((off : ℚ) + r)) ∧
    (harmonic_z zs h = (h : ℚ) * harmonic_z zs 1) ∧
    (power_call_rz_harmonics env
        { g with maxr_offset := List.replicate H off, max_num_harmonics := (H : Int) } (r, zs) =
      -(∑ k in Finset.Icc 1 H,
          POWER
            (env.rz_interp (g.maxdata_harmonics.getD (k - 1) []) g.nummaxdata
              ((k : ℚ) * ((off : ℚ) + r) - (off : ℚ)) ((k : ℚ) * (zs * ZSCALE))
              g.max_kern_half_width).r
            (env.rz_interp (g.maxdata_harmonics.getD (k - 1) []) g.nummaxdata
              ((k : ℚ) * ((off : ℚ) + r) - (off : ℚ)) ((k : ℚ) * (zs * ZSCALE))
              g.max_kern_half_width).i
          / g.maxlocpow.getD (k - 1) 0)) ∧
    ((optemiseDerivs env datas (H : Int) (List.replicate H off) numdata r z).2 =
      (List.range H).map (fun (k : ℕ) =>
        POWER
          (env.rz_interp (datas.getD k []) numdata
            (((k : ℚ) + 1) * ((off : ℚ) + r) - (off : ℚ)) (((k : ℚ) + 1) * z)
            (env.z_resp_halfwidth (|z * ((k : ℚ) + 1) / ZSCALE| + 4.0) Accuracy.HIGHACC)).r
          (env.rz_interp (datas.getD k []) numdata
            (((k : ℚ) + 1) * ((off : ℚ) + r) - (off : ℚ)) (((k : ℚ) + 1) * z)
            (env.z_resp_halfwidth (|z * ((k : ℚ) + 1) / ZSCALE| + 4.0) Accuracy.HIGHACC)).i)) := by
  refine ⟨?_, ?_, ?_, ?_⟩
  · unfold harmonic_r
    ring
  · unfold harmonic_z
    push_cast
    ring
  · rw [power_call_rz_harmonics_eq_sum]
    simp only [Int.toNat_ofNat]
    congr 1
    apply Finset.sum_congr rfl
    intro k hk
    have hlt : k - 1 < H := by
      have := Finset.mem_Icc.mp hk
      omega
    rw [getD_replicate_of_lt H (k - 1) off hlt]
    have e1 : ((off : ℚ) + r) * (k : ℚ) - (off : ℚ) = (k : ℚ) * ((off : ℚ) + r) - (off : ℚ) := by
      ring
    have e2 : zs * ZSCALE * (k : ℚ) = (k : ℚ) * (zs * ZSCALE) := by ring
    rw [e1, e2]
  · unfold optemiseDerivs
    simp only [Int.toNat_ofNat, List.map_map]
    apply List.map_congr_left
    intro k hk
    have hlt : k < H := List.mem_range.mp hk
    have e1 : harmonic_r off r ((k : Int) + 1) = ((k : ℚ) + 1) * ((off : ℚ) + r) - (off : ℚ) := by
      unfold harmonic_r
      push_cast
      ring
    have e2 : z * ((k : ℚ) + 1) / ZSCALE * ZSCALE = ((k : ℚ) + 1) * z := by
      unfold ZSCALE
      ring
    have e3 : z * (((k : Int) + 1 : Int) : ℚ) / ZSCALE = z * ((k : ℚ) + 1) / ZSCALE := by
      push_cast
      ring
    simp only [Function.comp, getD_replicate_of_lt H k off hlt, e1, e3, e2]

/-! ## Theorems: file windows -/

/-- Truncating a `double` that holds an integer gives that integer. -/
theorem trunc_intCast (n : Int) : trunc (n : ℚ) = n := by
  simp [trunc]

/-- C7 (evaluation at `num_harmonics = 2`, `lobin = 0`, `rin = 100`, `zin = 0`, for every
half-width function): with `t = filedatalen / 2`, `max_rz_file_harmonics` builds
`r_offset = [100 - t, 200 - t]` and passes the in-window estimate `t`; these are the
offsets and the estimate the first solve starts from. At that estimate the second
harmonic is probed at in-window position `200 + t`, absolute bin `400`, while twice the
fundamental's absolute bin `r_offset[0] + t = 100` is `200`. -/
theorem C7_file_harmonics_second_harmonic_bin {D F : Type} (env : Env D F) (g : Globals)
    (fftfile : F) :
    max_rz_file_harmonics_r_offset env 2 0 100 0 =
      [100 - Int.tdiv (max_rz_file_harmonics_filedatalen env 2 0) 2,
       200 - Int.tdiv (max_rz_file_harmonics_filedatalen env 2 0) 2] ∧
    max_rz_file_harmonics_rin env 2 100 0 =
      ((Int.tdiv (max_rz_file_harmonics_filedatalen env 2 0) 2 : Int) : ℚ) ∧
    (∃ (g2 : Globals) (x xa : Simplex) (y ya : Vals) (second : Event),
      (max_rz_file_harmonics env g fftfile 2 0 100 0).trace =
        [Event.amoeba 1.0e-7 g2 x y xa ya, second] ∧
      g2.maxr_offset = max_rz_file_harmonics_r_offset env 2 0 100 0 ∧
      x.x2 = (max_rz_file_harmonics_rin env 2 100 0 + 0.4, 0 / ZSCALE)) ∧
    harmonic_r ((max_rz_file_harmonics_r_offset env 2 0 100 0).getD 1 0)
        (max_rz_file_harmonics_rin env 2 100 0) 2 =
      200 + ((Int.tdiv (max_rz_file_harmonics_filedatalen env 2 0) 2 : Int) : ℚ) ∧
    (((max_rz_file_harmonics_r_offset env 2 0 100 0).getD 1 0 : Int) : ℚ) +
        harmonic_r ((max_rz_file_harmonics_r_offset env 2 0 100 0).getD 1 0)
          (max_rz_file_harmonics_rin env 2 100 0) 2 = 400 ∧
    2 * ((((max_rz_file_harmonics_r_offset env 2 0 100 0).getD 0 0 : Int) : ℚ) +
        max_rz_file_harmonics_rin env 2 100 0) = 200 := by
  have t100 : trunc (100 : ℚ) = 100 := rfl
  have t200 : trunc (200 : ℚ) = 200 := rfl
  have hoff : max_rz_file_harmonics_r_offset env 2 0 100 0 =
      [100 - Int.tdiv (max_rz_file_harmonics_filedatalen env 2 0) 2,
       200 - Int.tdiv (max_rz_file_harmonics_filedatalen env 2 0) 2] := by
    have h2 : (2 : Int).toNat = 2 := rfl
    have m1 : (100 : ℚ) * (((0 : ℕ) : Int) + 1 : Int) = 100 := by norm_num
    have m2 : (100 : ℚ) * (((1 : ℕ) : Int) + 1 : Int) = 200 := by norm_num
    simp only [max_rz_file_harmonics_r_offset, h2, List.range_succ, List.range_zero,
      List.nil_append, List.cons_append, List.map_cons, List.map_nil, modf, m1, m2,
      trunc_intCast, t100, t200, add_zero]
  have hrin : max_rz_file_harmonics_rin env 2 100 0 =
      ((Int.tdiv (max_rz_file_harmonics_filedatalen env 2 0) 2 : Int) : ℚ) := by
    simp only [max_rz_file_harmonics_rin, modf, t100]
    norm_num
  refine ⟨hoff, hrin, ?_, ?_, ?_, ?_⟩
  · simp only [max_rz_file_harmonics, max_rz_arr_harmonics, ne_eq, not_true_eq_false,
      and_false, if_false, List.cons_append, List.nil_append]
    exact ⟨_, _, _, _, _, _, rfl, rfl, rfl⟩
  · rw [hoff, hrin]
    simp only [List.getD_cons_succ, List.getD_cons_zero, harmonic_r]
    push_cast
    ring
  · rw [hoff, hrin]
    simp only [List.getD_cons_succ, List.getD_cons_zero, harmonic_r]
    push_cast
    ring
  · rw [hoff, hrin]
    simp only [List.getD_cons_zero]
    push_cast
    ring

/-- An `int` expression whose value is representable has that value. -/
theorem int_result_of_fits (v : Int) (h : fits_int v = true) : int_result v = some v := by
  unfold int_result
  rw [if_pos h]

/-- An `int` expression whose value is not representable has no value. -/
theorem int_result_of_not_fits (v : Int) (h : ¬ fits_int v = true) : int_result v = none := by
  unfold int_result
  rw [if_neg h]

/-- C8, counterexample: at `rin = 3000000000.5` the integral part of `rin` is
3000000000, larger than `INT_MAX`; the cast `(int) rin_int` has no defined value and
`max_rz_file` has no defined result, so no `startbin = trunc rin - filedatalen / 2` is
used by the code. -/
theorem C8_counterexample :
    max_rz_file sampleEnv emptyGlobals () 3000000000.5 0 = none ∧
    trunc (3000000000.5 : ℚ) = 3000000000 ∧ INT_MAX < 3000000000 := by
  have ht : trunc (3000000000.5 : ℚ) = 3000000000 := by
    unfold trunc
    norm_num
    rfl
  have ht2 : trunc ((3000000000 : Int) : ℚ) = 3000000000 := trunc_intCast _
  refine ⟨?_, ht, by decide⟩
  simp only [max_rz_file, sampleEnv, modf, ht, ht2, double_to_int]
  rfl

/-- C8, amended: with `filedatalen = 2 * z_resp_halfwidth (|zin| + 4, HIGHACC) + 10` and
`startbin = trunc rin - filedatalen / 2`, when the half-width, twice the half-width,
`filedatalen`, the integral part of `rin` and `startbin` are all representable in `int`,
`max_rz_file` runs `max_rz_arr` on the window read at `startbin` with the estimate
`rin - startbin`; its `rout` is that run's `rout` plus `startbin`, and `zout`, the
returned power, the derivatives and the solver calls are that run's unchanged. When one
of the five values is not representable, `max_rz_file` has no defined result. -/
theorem C8_max_rz_file_translates_window {D F : Type} (env : Env D F) (g : Globals)
    (fftfile : F) (rin zin : ℚ) (filedatalen startbin : Int)
    (hf : filedatalen = 2 * env.z_resp_halfwidth (|zin| + 4) Accuracy.HIGHACC + 10)
    (hs : startbin = trunc rin - Int.tdiv filedatalen 2) :
    ((fits_int (env.z_resp_halfwidth (|zin| + 4) Accuracy.HIGHACC) = true ∧
        fits_int (2 * env.z_resp_halfwidth (|zin| + 4) Accuracy.HIGHACC) = true ∧
        fits_int filedatalen = true ∧ fits_int (trunc rin) = true ∧
        fits_int startbin = true) →
      ∃ run, max_rz_file env g fftfile rin zin = some run ∧
        run.val.rout =
          (max_rz_arr env g (env.read_fcomplex_file fftfile startbin filedatalen) filedatalen
            (rin - (startbin : ℚ)) zin).val.rout + (startbin : ℚ) ∧
        run.val.zout =
          (max_rz_arr env g (env.read_fcomplex_file fftfile startbin filedatalen) filedatalen
            (rin - (startbin : ℚ)) zin).val.zout ∧
        run.val.ret =
          (max_rz_arr env g (env.read_fcomplex_file fftfile startbin filedatalen) filedatalen
            (rin - (startbin : ℚ)) zin).val.ret ∧
        run.val.derivs =
          (max_rz_arr env g (env.read_fcomplex_file fftfile startbin filedatalen) filedatalen
            (rin - (startbin : ℚ)) zin).val.derivs ∧
        run.trace =
          (max_rz_arr env g (env.read_fcomplex_file fftfile startbin filedatalen) filedatalen
            (rin - (startbin : ℚ)) zin).trace) ∧
    (¬ (fits_int (env.z_resp_halfwidth (|zin| + 4) Accuracy.HIGHACC) = true ∧
        fits_int (2 * env.z_resp_halfwidth (|zin| + 4) Accuracy.HIGHACC) = true ∧
        fits_int filedatalen = true ∧ fits_int (trunc rin) = true ∧
        fits_int startbin = true) →
      max_rz_file env g fftfile rin zin = none) := by
  subst hf
  subst hs
  have h4 : (4.0 : ℚ) = 4 := by norm_num
  have hest : rin - ((trunc rin : Int) : ℚ) +
      ((Int.tdiv (2 * env.z_resp_halfwidth (|zin| + 4) Accuracy.HIGHACC + 10) 2 : Int) : ℚ) =
      rin - ((trunc rin -
        Int.tdiv (2 * env.z_resp_halfwidth (|zin| + 4) Accuracy.HIGHACC + 10) 2 : Int) : ℚ) := by
    push_cast
    ring
  constructor
  · rintro ⟨h1, h2, h3, h4', h5⟩
    unfold max_rz_file
    simp only [modf, trunc_intCast, h4, double_to_int, int_result_of_fits _ h1,
      int_result_of_fits _ h2, int_result_of_fits _ h3, int_result_of_fits _ h4',
      int_result_of_fits _ h5, Option.some_bind, hest]
    exact ⟨_, rfl, rfl, rfl, rfl, rfl, rfl⟩
  · intro hnot
    unfold max_rz_file
    simp only [modf, trunc_intCast, h4, double_to_int]
    by_cases h1 : fits_int (env.z_resp_halfwidth (|zin| + 4) Accuracy.HIGHACC) = true
    · rw [int_result_of_fits _ h1, Option.some_bind]
      by_cases h2 : fits_int (2 * env.z_resp_halfwidth (|zin| + 4) Accuracy.HIGHACC) = true
      · rw [int_result_of_fits _ h2, Option.some_bind]
        by_cases h3 :
            fits_int (2 * env.z_resp_halfwidth (|zin| + 4) Accuracy.HIGHACC + 10) = true
        · rw [int_result_of_fits _ h3, Option.some_bind]
          by_cases h4' : fits_int (trunc rin) = true
          · rw [int_result_of_fits _ h4', Option.some_bind]
            by_cases h5 : fits_int (trunc rin -
                Int.tdiv (2 * env.z_resp_halfwidth (|zin| + 4) Accuracy.HIGHACC + 10) 2) = true
            · exact absurd ⟨h1, h2, h3, h4', h5⟩ hnot
            · rw [int_result_of_not_fits _ h5]
              rfl
          · rw [int_result_of_not_fits _ h4']
            rfl
        · rw [int_result_of_not_fits _ h3]
          rfl
      · rw [int_result_of_not_fits _ h2]
        rfl
    · rw [int_result_of_not_fits _ h1]
      rfl

/-- C8 at a concrete input: `rin = -5/2`, `zin = 0`, window length 42, first bin -23. -/
theorem C8_max_rz_file_translates_window_witness :
    ((42 : Int) = 2 * sampleEnv.z_resp_halfwidth (|(0 : ℚ)| + 4) Accuracy.HIGHACC + 10 ∧
      (-23 : Int) = trunc (-5 / 2) - Int.tdiv 42 2 ∧
      fits_int (sampleEnv.z_resp_halfwidth (|(0 : ℚ)| + 4) Accuracy.HIGHACC) = true ∧
      fits_int (2 * sampleEnv.z_resp_halfwidth (|(0 : ℚ)| + 4) Accuracy.HIGHACC) = true ∧
      fits_int 42 = true ∧ fits_int (trunc (-5 / 2)) = true ∧ fits_int (-23) = true) ∧
    ∃ run, max_rz_file sampleEnv emptyGlobals () (-5 / 2) 0 = some run ∧
      run.val.rout =
        (max_rz_arr sampleEnv emptyGlobals (sampleEnv.read_fcomplex_file () (-23) 42) 42
          (-5 / 2 - ((-23 : Int) : ℚ)) 0).val.rout + ((-23 : Int) : ℚ) :=
  have ht : trunc (-5 / 2 : ℚ) = -2 := by unfold trunc; norm_num; rfl
  have hs : (-23 : Int) = trunc (-5 / 2) - Int.tdiv 42 2 := by rw [ht]; rfl
  have hfit : fits_int (trunc (-5 / 2)) = true := by rw [ht]; rfl
  ⟨⟨rfl, hs, rfl, rfl, rfl, hfit, rfl⟩,
    ((C8_max_rz_file_translates_window sampleEnv emptyGlobals () (-5 / 2) 0 42 (-23) rfl
      hs).1 ⟨rfl, rfl, rfl, hfit, rfl⟩).elim fun run h => ⟨run, h.1, h.2.1⟩⟩

/-! ## Theorems: candidate list -/

/-- The closeness threshold is positive. -/
theorem ACCEL_CLOSEST_R_pos : 0 < ACCEL_CLOSEST_R := by
  unfold ACCEL_CLOSEST_R
  norm_num

/-- The new candidate is kept when it is the one to keep against every entry found: the
entries found go, the candidate is added. -/
theorem insert_new_accelcand_kept (pol : InsertPolicy) (L : List accelcand)
    (power sigma : ℚ) (numharm : Int) (rr zz : ℚ)
    (h : ∀ e ∈ L,
      merges pol e { power := power, sigma := sigma, numharm := numharm, r := rr, z := zz } =
        true →
      new_wins pol { power := power, sigma := sigma, numharm := numharm, r := rr, z := zz } e =
        true) :
    insert_new_accelcand pol L power sigma numharm rr zz =
      ((L.filter fun e => !merges pol e
          { power := power, sigma := sigma, numharm := numharm, r := rr, z := zz }) ++
        [{ power := power, sigma := sigma, numharm := numharm, r := rr, z := zz }], 1) := by
  unfold insert_new_accelcand
  rw [if_pos]
  rw [List.all_eq_true]
  intro e he
  rw [List.mem_filter] at he
  exact h e he.1 he.2

/-- The new candidate is discarded, and the list unchanged, when an entry found is the
one to keep. -/
theorem insert_new_accelcand_discarded (pol : InsertPolicy) (L : List accelcand)
    (power sigma : ℚ) (numharm : Int) (rr zz : ℚ)
    (h : ¬ ∀ e ∈ L,
      merges pol e { power := power, sigma := sigma, numharm := numharm, r := rr, z := zz } =
        true →
      new_wins pol { power := power, sigma := sigma, numharm := numharm, r := rr, z := zz } e =
        true) :
    insert_new_accelcand pol L power sigma numharm rr zz = (L, 0) := by
  unfold insert_new_accelcand
  rw [if_neg]
  rw [List.all_eq_true]
  intro hall
  apply h
  intro e he hm
  exact hall e (List.mem_filter.mpr ⟨he, hm⟩)

/-- Insertion maintains the invariant of the candidate list (spec 3): when no entry of
the list is found for a later one, the same holds after an insertion. -/
theorem insert_new_accelcand_invariant (pol : InsertPolicy) (L : List accelcand)
    (power sigma : ℚ) (numharm : Int) (rr zz : ℚ)
    (hL : L.Pairwise fun x y => merges pol x y = false) :
    (insert_new_accelcand pol L power sigma numharm rr zz).1.Pairwise
      fun x y => merges pol x y = false := by
  by_cases h : ∀ e ∈ L,
      merges pol e { power := power, sigma := sigma, numharm := numharm, r := rr, z := zz } =
        true →
      new_wins pol { power := power, sigma := sigma, numharm := numharm, r := rr, z := zz } e =
        true
  · rw [insert_new_accelcand_kept pol L power sigma numharm rr zz h]
    rw [List.pairwise_append]
    refine ⟨hL.sublist (List.filter_sublist L), List.pairwise_singleton _ _, ?_⟩
    intro x hx y hy
    rw [List.mem_singleton] at hy
    subst hy
    rw [List.mem_filter] at hx
    simpa using hx.2
  · rw [insert_new_accelcand_discarded pol L power sigma numharm rr zz h]
    exact hL

/-- A candidate is found for a candidate with the same frequency and harmonic count. -/
theorem merges_same_key (pol : InsertPolicy) (e c : accelcand) (hr : e.r = c.r)
    (hn : e.numharm = c.numharm) : merges pol e c = true := by
  unfold merges
  rw [hr, hn, sub_self, abs_zero]
  simp [ACCEL_CLOSEST_R_pos]

/-- Filtering out the entries found for `c` a second time changes nothing. -/
theorem filter_not_merges_idem (pol : InsertPolicy) (L : List accelcand) (c : accelcand) :
    ((L.filter fun e => !merges pol e c).filter fun e => !merges pol e c) =
      L.filter fun e => !merges pol e c := by
  rw [List.filter_filter]
  congr 1
  funext e
  exact Bool.and_self _

/-- The entries that stay when the entries found for `c` are discarded. -/
theorem mem_filter_not_merges (pol : InsertPolicy) (L : List accelcand) (c e : accelcand) :
    e ∈ (L.filter fun x => !merges pol x c) ↔ e ∈ L ∧ merges pol e c = false := by
  rw [List.mem_filter]
  simp

/-- The candidate to keep has at least the power of the other one. -/
theorem new_wins_le (pol : InsertPolicy) (c e : accelcand) (h : new_wins pol c e = true) :
    e.power ≤ c.power := by
  unfold new_wins at h
  simp only [Bool.or_eq_true, decide_eq_true_eq, Bool.and_eq_true] at h
  rcases h with h | h
  · exact h.le
  · exact h.1.le

/-- The candidate that is not the one to keep has at most the power of the other one. -/
theorem le_of_not_new_wins (pol : InsertPolicy) (c e : accelcand)
    (h : ¬ new_wins pol c e = true) : c.power ≤ e.power := by
  unfold new_wins at h
  simp only [Bool.or_eq_true, decide_eq_true_eq, Bool.and_eq_true, not_or] at h
  exact not_lt.mp h.1

/-- A candidate of higher power is the one to keep. -/
theorem new_wins_of_lt (pol : InsertPolicy) (c e : accelcand) (h : e.power < c.power) :
    new_wins pol c e = true := by
  unfold new_wins
  simp [h]

/-- Insertion of the candidate `c` when it is the one to keep against every entry found. -/
theorem insert_cand_kept (pol : InsertPolicy) (L : List accelcand) (c : accelcand)
    (h : ∀ e ∈ L, merges pol e c = true → new_wins pol c e = true) :
    insert_new_accelcand pol L c.power c.sigma c.numharm c.r c.z =
      ((L.filter fun e => !merges pol e c) ++ [c], 1) :=
  insert_new_accelcand_kept pol L c.power c.sigma c.numharm c.r c.z h

/-- Insertion of the candidate `c` when an entry found is the one to keep. -/
theorem insert_cand_discarded (pol : InsertPolicy) (L : List accelcand) (c : accelcand)
    (h : ¬ ∀ e ∈ L, merges pol e c = true → new_wins pol c e = true) :
    insert_new_accelcand pol L c.power c.sigma c.numharm c.r c.z = (L, 0) :=
  insert_new_accelcand_discarded pol L c.power c.sigma c.numharm c.r c.z h

/-- The four outcomes of inserting `a` and then `b`. -/
theorem insert_both_cases (pol : InsertPolicy) (L : List accelcand) (a b : accelcand) :
    ((∀ e ∈ L, merges pol e a = true → new_wins pol a e = true) →
      (∀ e ∈ (L.filter fun x => !merges pol x a) ++ [a],
        merges pol e b = true → new_wins pol b e = true) →
      insert_both pol L a b =
        (((L.filter fun x => !merges pol x a) ++ [a]).filter fun x => !merges pol x b) ++ [b]) ∧
    ((∀ e ∈ L, merges pol e a = true → new_wins pol a e = true) →
      (¬ ∀ e ∈ (L.filter fun x => !merges pol x a) ++ [a],
        merges pol e b = true → new_wins pol b e = true) →
      insert_both pol L a b = (L.filter fun x => !merges pol x a) ++ [a]) ∧
    ((¬ ∀ e ∈ L, merges pol e a = true → new_wins pol a e = true) →
      (∀ e ∈ L, merges pol e b = true → new_wins pol b e = true) →
      insert_both pol L a b = (L.filter fun x => !merges pol x b) ++ [b]) ∧
    ((¬ ∀ e ∈ L, merges pol e a = true → new_wins pol a e = true) →
      (¬ ∀ e ∈ L, merges pol e b = true → new_wins pol b e = true) →
      insert_both pol L a b = L) := by
  refine ⟨?_, ?_, ?_, ?_⟩
  · intro ha hb
    unfold insert_both
    rw [insert_cand_kept pol L a ha, insert_cand_kept pol _ b hb]
  · intro ha hb
    unfold insert_both
    rw [insert_cand_kept pol L a ha, insert_cand_discarded pol _ b hb]
  · intro ha hb
    unfold insert_both
    rw [insert_cand_discarded pol L a ha, insert_cand_kept pol _ b hb]
  · intro ha hb
    unfold insert_both
    rw [insert_cand_discarded pol L a ha, insert_cand_discarded pol _ b hb]

/-- An entry that is not within the threshold of the candidate is not found for it. -/
theorem merges_far (pol : InsertPolicy) (e c : accelcand)
    (h : ¬ |c.r - e.r| < ACCEL_CLOSEST_R) : merges pol e c = false := by
  unfold merges
  simp [h]

/-- After the entries found for `c` are discarded, no entry has the frequency and
harmonic count of `c`. -/
theorem countP_key_filter (pol : InsertPolicy) (L : List accelcand) (c : accelcand) :
    (L.filter fun x => !merges pol x c).countP
      (fun e => decide (e.r = c.r ∧ e.z = c.z ∧ e.numharm = c.numharm)) = 0 := by
  rw [List.countP_eq_zero]
  intro e he hkey
  rw [mem_filter_not_merges] at he
  rw [decide_eq_true_eq] at hkey
  rw [merges_same_key pol e c hkey.1 hkey.2.2] at he
  exact absurd he.2 (by decide)

/-- C9, counterexample: the list holds one strong candidate at `r = 10`. Two weak
candidates at `r = 0` and `r = 20` differ by 20 bins, more than 15, yet inserting both
leaves the list as it was, with neither of them in it; and two weak candidates at
`r = 6` and `r = 9`, less than 15 bins apart, leave no entry for the pair either. All
harmonic counts are equal, so the outcome is the same under both policies. -/
theorem C9_counterexample :
    (ACCEL_CLOSEST_R < |(0 : ℚ) - 20| ∧
      insert_both mergePolicy [{ power := 100, sigma := 9, numharm := 1, r := 10, z := 0 }]
          { power := 1, sigma := 1, numharm := 1, r := 0, z := 0 }
          { power := 2, sigma := 1, numharm := 1, r := 20, z := 0 } =
        [{ power := 100, sigma := 9, numharm := 1, r := 10, z := 0 }] ∧
      insert_both relationPolicy [{ power := 100, sigma := 9, numharm := 1, r := 10, z := 0 }]
          { power := 1, sigma := 1, numharm := 1, r := 0, z := 0 }
          { power := 2, sigma := 1, numharm := 1, r := 20, z := 0 } =
        [{ power := 100, sigma := 9, numharm := 1, r := 10, z := 0 }]) ∧
    (|(6 : ℚ) - 9| < ACCEL_CLOSEST_R ∧
      insert_both mergePolicy [{ power := 100, sigma := 9, numharm := 1, r := 10, z := 0 }]
          { power := 1, sigma := 1, numharm := 1, r := 6, z := 0 }
          { power := 2, sigma := 1, numharm := 1, r := 9, z := 0 } =
        [{ power := 100, sigma := 9, numharm := 1, r := 10, z := 0 }] ∧
      insert_both relationPolicy [{ power := 100, sigma := 9, numharm := 1, r := 10, z := 0 }]
          { power := 1, sigma := 1, numharm := 1, r := 6, z := 0 }
          { power := 2, sigma := 1, numharm := 1, r := 9, z := 0 } =
        [{ power := 100, sigma := 9, numharm := 1, r := 10, z := 0 }]) := by
  refine ⟨⟨?_, ?_, ?_⟩, ?_, ?_, ?_⟩
  · norm_num [ACCEL_CLOSEST_R, lt_abs]
  · norm_num [insert_both, insert_new_accelcand, merges, new_wins, mergePolicy,
      ACCEL_CLOSEST_R, abs_lt]
  · norm_num [insert_both, insert_new_accelcand, merges, new_wins, relationPolicy,
      ACCEL_CLOSEST_R, abs_lt]
  · norm_num [ACCEL_CLOSEST_R, abs_lt]
  · norm_num [insert_both, insert_new_accelcand, merges, new_wins, mergePolicy,
      ACCEL_CLOSEST_R, abs_lt]
  · norm_num [insert_both, insert_new_accelcand, merges, new_wins, relationPolicy,
      ACCEL_CLOSEST_R, abs_lt]

/-- C9, amended. Two candidates `a`, `b` that are found for each other (within 15 bins,
and not kept apart by the harmonic-count exception): when at least one of them is the
one to keep against every entry of the list found for it, inserting both leaves exactly
one entry for the pair, after entries of the old list; otherwise both are discarded and
the list is unchanged. Two candidates more than 15 bins apart: when `a` is the one to
keep against every entry found for it, and `b` against every entry found for it that
the insertion of `a` has not discarded, inserting both leaves the two as distinct
entries, each once, after entries of the old list; otherwise the candidate that is not
the one to keep is discarded. -/
theorem C9_insert_pair (pol : InsertPolicy) (L : List accelcand) (a b : accelcand) :
    (merges pol a b = true → merges pol b a = true →
      (((∀ e ∈ L, merges pol e a = true → new_wins pol a e = true) ∨
          (∀ e ∈ L, merges pol e b = true → new_wins pol b e = true)) →
        ∃ (rest : List accelcand) (x : accelcand),
          insert_both pol L a b = rest ++ [x] ∧ (x = a ∨ x = b) ∧ List.Sublist rest L ∧
          (insert_both pol L a b).countP (fun e => decide (e = a ∨ e = b)) = 1) ∧
      (¬ ((∀ e ∈ L, merges pol e a = true → new_wins pol a e = true) ∨
          (∀ e ∈ L, merges pol e b = true → new_wins pol b e = true)) →
        insert_both pol L a b = L)) ∧
    (ACCEL_CLOSEST_R < |a.r - b.r| →
      ((∀ e ∈ L, merges pol e a = true → new_wins pol a e = true) →
        (∀ e ∈ L, merges pol e b = true → merges pol e a = false → new_wins pol b e = true) →
        insert_both pol L a b =
          ((L.filter fun x => !merges pol x a).filter fun x => !merges pol x b) ++ [a, b] ∧
        a ≠ b ∧ (insert_both pol L a b).count a = 1 ∧ (insert_both pol L a b).count b = 1) ∧
      (¬ (∀ e ∈ L, merges pol e a = true → new_wins pol a e = true) →
        insert_new_accelcand pol L a.power a.sigma a.numharm a.r a.z = (L, 0)) ∧
      ((∀ e ∈ L, merges pol e a = true → new_wins pol a e = true) →
        ¬ (∀ e ∈ L, merges pol e b = true → merges pol e a = false → new_wins pol b e = true) →
        insert_both pol L a b = (L.filter fun x => !merges pol x a) ++ [a])) := by
  obtain ⟨hc1, hc2, hc3, hc4⟩ := insert_both_cases pol L a b
  have haa : merges pol a a = true := merges_same_key pol a a rfl rfl
  have hbb : merges pol b b = true := merges_same_key pol b b rfl rfl
  constructor
  · intro hab hba
    constructor
    · intro h
      by_cases ha : (∀ e ∈ L, merges pol e a = true → new_wins pol a e = true)
      · by_cases hb : ∀ e ∈ (L.filter fun x => !merges pol x a) ++ [a],
            merges pol e b = true → new_wins pol b e = true
        · have hfin := hc1 ha hb
          have hfil : (((L.filter fun x => !merges pol x a) ++ [a]).filter
              fun x => !merges pol x b) =
              (L.filter fun x => !merges pol x a).filter fun x => !merges pol x b := by
            rw [List.filter_append]
            simp [hab]
          rw [hfil] at hfin
          refine ⟨_, b, hfin, Or.inr rfl,
            (List.filter_sublist _).trans (List.filter_sublist _), ?_⟩
          rw [hfin, List.countP_append]
          have h0 : ((L.filter fun x => !merges pol x a).filter
              fun x => !merges pol x b).countP (fun e => decide (e = a ∨ e = b)) = 0 := by
            rw [List.countP_eq_zero]
            intro e he hkey
            rw [mem_filter_not_merges, mem_filter_not_merges] at he
            rw [decide_eq_true_eq] at hkey
            rcases hkey with rfl | rfl
            · rw [haa] at he
              exact absurd he.1.2 (by decide)
            · rw [hbb] at he
              exact absurd he.2 (by decide)
          rw [h0]
          simp
        · have hfin := hc2 ha hb
          refine ⟨_, a, hfin, Or.inl rfl, List.filter_sublist _, ?_⟩
          rw [hfin, List.countP_append]
          have h0 : (L.filter fun x => !merges pol x a).countP
              (fun e => decide (e = a ∨ e = b)) = 0 := by
            rw [List.countP_eq_zero]
            intro e he hkey
            rw [mem_filter_not_merges] at he
            rw [decide_eq_true_eq] at hkey
            rcases hkey with rfl | rfl
            · rw [haa] at he
              exact absurd he.2 (by decide)
            · rw [hba] at he
              exact absurd he.2 (by decide)
          rw [h0]
          simp
      · have hb := h.resolve_left ha
        have hfin := hc3 ha hb
        refine ⟨_, b, hfin, Or.inr rfl, List.filter_sublist _, ?_⟩
        rw [hfin, List.countP_append]
        have h0 : (L.filter fun x => !merges pol x b).countP
            (fun e => decide (e = a ∨ e = b)) = 0 := by
          rw [List.countP_eq_zero]
          intro e he hkey
          rw [mem_filter_not_merges] at he
          rw [decide_eq_true_eq] at hkey
          rcases hkey with rfl | rfl
          · rw [hab] at he
            exact absurd he.2 (by decide)
          · rw [hbb] at he
            exact absurd he.2 (by decide)
        rw [h0]
        simp
    · intro h
      rw [not_or] at h
      exact hc4 h.1 h.2
  · intro hfar
    have hab : merges pol a b = false :=
      merges_far pol a b (by rw [abs_sub_comm]; exact not_lt.mpr hfar.le)
    have hne : a ≠ b := by
      intro h
      rw [h, sub_self, abs_zero] at hfar
      exact absurd ACCEL_CLOSEST_R_pos (not_lt.mpr hfar.le)
    refine ⟨?_, ?_, ?_⟩
    · intro ha hb2
      have hb : ∀ e ∈ (L.filter fun x => !merges pol x a) ++ [a],
          merges pol e b = true → new_wins pol b e = true := by
        intro e he hm
        rcases List.mem_append.mp he with he | he
        · rw [mem_filter_not_merges] at he
          exact hb2 e he.1 hm he.2
        · rw [List.mem_singleton.mp he, hab] at hm
          exact absurd hm (by decide)
      have hfin := hc1 ha hb
      have hfil : (((L.filter fun x => !merges pol x a) ++ [a]).filter
          fun x => !merges pol x b) ++ [b] =
          ((L.filter fun x => !merges pol x a).filter fun x => !merges pol x b) ++ [a, b] := by
        rw [List.filter_append]
        simp [hab]
      rw [hfil] at hfin
      have hna : a ∉ (L.filter fun x => !merges pol x a).filter fun x => !merges pol x b := by
        intro hmem
        rw [mem_filter_not_merges, mem_filter_not_merges, haa] at hmem
        exact absurd hmem.1.2 (by decide)
      have hnb : b ∉ (L.filter fun x => !merges pol x a).filter fun x => !merges pol x b := by
        intro hmem
        rw [mem_filter_not_merges, hbb] at hmem
        exact absurd hmem.2 (by decide)
      refine ⟨hfin, hne, ?_, ?_⟩
      · rw [hfin, List.count_append, List.count_eq_zero_of_not_mem hna]
        simp [hne, Ne.symm hne]
      · rw [hfin, List.count_append, List.count_eq_zero_of_not_mem hnb]
        simp [hne, Ne.symm hne]
    · intro ha
      exact insert_cand_discarded pol L a ha
    · intro ha hb2
      refine hc2 ha ?_
      intro hall
      apply hb2
      intro e he hm hma
      exact hall e (List.mem_append_left _ ((mem_filter_not_merges pol L a e).mpr ⟨he, hma⟩)) hm

/-- C9 (amended) at a concrete input: the list holds a weaker candidate at `r = 5`;
the candidates at `r = 0` and `r = 20`, 20 bins apart, both stay, and the weaker
neighbour of the first one goes. -/
theorem C9_insert_pair_witness :
    (ACCEL_CLOSEST_R < |(0 : ℚ) - 20| ∧
      (∀ e ∈ [({ power := 1, sigma := 1, numharm := 1, r := 5, z := 0 } : accelcand)],
        merges mergePolicy e { power := 2, sigma := 1, numharm := 1, r := 0, z := 0 } = true →
        new_wins mergePolicy { power := 2, sigma := 1, numharm := 1, r := 0, z := 0 } e = true) ∧
      (∀ e ∈ [({ power := 1, sigma := 1, numharm := 1, r := 5, z := 0 } : accelcand)],
        merges mergePolicy e { power := 3, sigma := 1, numharm := 1, r := 20, z := 0 } = true →
        merges mergePolicy e { power := 2, sigma := 1, numharm := 1, r := 0, z := 0 } = false →
        new_wins mergePolicy { power := 3, sigma := 1, numharm := 1, r := 20, z := 0 } e = true)) ∧
    insert_both mergePolicy [{ power := 1, sigma := 1, numharm := 1, r := 5, z := 0 }]
        { power := 2, sigma := 1, numharm := 1, r := 0, z := 0 }
        { power := 3, sigma := 1, numharm := 1, r := 20, z := 0 } =
      [{ power := 2, sigma := 1, numharm := 1, r := 0, z := 0 },
       { power := 3, sigma := 1, numharm := 1, r := 20, z := 0 }] :=
  have hfar : ACCEL_CLOSEST_R < |(0 : ℚ) - 20| := by norm_num [ACCEL_CLOSEST_R, lt_abs]
  have ha : ∀ e ∈ [({ power := 1, sigma := 1, numharm := 1, r := 5, z := 0 } : accelcand)],
      merges mergePolicy e { power := 2, sigma := 1, numharm := 1, r := 0, z := 0 } = true →
      new_wins mergePolicy { power := 2, sigma := 1, numharm := 1, r := 0, z := 0 } e = true := by
    intro e he _
    rw [List.mem_singleton.mp he]
    norm_num [new_wins]
  have hb : ∀ e ∈ [({ power := 1, sigma := 1, numharm := 1, r := 5, z := 0 } : accelcand)],
      merges mergePolicy e { power := 3, sigma := 1, numharm := 1, r := 20, z := 0 } = true →
      merges mergePolicy e { power := 2, sigma := 1, numharm := 1, r := 0, z := 0 } = false →
      new_wins mergePolicy { power := 3, sigma := 1, numharm := 1, r := 20, z := 0 } e = true := by
    intro e he _ _
    rw [List.mem_singleton.mp he]
    norm_num [new_wins]
  ⟨⟨hfar, ha, hb⟩,
    ((((C9_insert_pair mergePolicy [{ power := 1, sigma := 1, numharm := 1, r := 5, z := 0 }]
        { power := 2, sigma := 1, numharm := 1, r := 0, z := 0 }
        { power := 3, sigma := 1, numharm := 1, r := 20, z := 0 }).2 hfar).1 ha hb).1).trans
      (by norm_num [merges, mergePolicy, ACCEL_CLOSEST_R, abs_lt])⟩

/-- C10, counterexample: the list holds one candidate at `r = 105` with power 100.
Inserting the candidate `(r, z, numharm) = (100, 0, 1)` twice, with powers 1 and 2, leaves
the list as it was under both policies: it has no entry for the candidate, and its only
entry carries power 100, not the higher of the two powers. -/
theorem C10_counterexample :
    insert_both mergePolicy [{ power := 100, sigma := 9, numharm := 1, r := 105, z := 0 }]
        { power := 1, sigma := 1, numharm := 1, r := 100, z := 0 }
        { power := 2, sigma := 1, numharm := 1, r := 100, z := 0 } =
      [{ power := 100, sigma := 9, numharm := 1, r := 105, z := 0 }] ∧
    insert_both relationPolicy [{ power := 100, sigma := 9, numharm := 1, r := 105, z := 0 }]
        { power := 1, sigma := 1, numharm := 1, r := 100, z := 0 }
        { power := 2, sigma := 1, numharm := 1, r := 100, z := 0 } =
      [{ power := 100, sigma := 9, numharm := 1, r := 105, z := 0 }] ∧
    ([{ power := 100, sigma := 9, numharm := 1, r := 105, z := 0 }] : List accelcand).countP
      (fun e => decide (e.r = 100 ∧ e.z = 0 ∧ e.numharm = 1)) = 0 := by
  refine ⟨?_, ?_, ?_⟩
  · norm_num [insert_both, insert_new_accelcand, merges, new_wins, mergePolicy,
      ACCEL_CLOSEST_R, abs_lt]
  · norm_num [insert_both, insert_new_accelcand, merges, new_wins, relationPolicy,
      ACCEL_CLOSEST_R, abs_lt]
  · norm_num [List.countP_cons]

/-- C10, amended: the same candidate `(r, z, numharm)` is inserted twice, with powers
`p1` and `p2`. When at least one of the two insertions is the one to keep against every
entry found for it (in particular when every entry found has lower power than the higher
of `p1`, `p2`), the list is left with the entries that were not found followed by
exactly one entry for the candidate, which carries the higher of the two powers.
Otherwise both insertions are discarded and the list is unchanged. Inserting with the
same power and significance twice gives what one insertion gives. -/
theorem C10_insert_twice (pol : InsertPolicy) (L : List accelcand) (p1 s1 p2 s2 : ℚ)
    (numharm : Int) (r z : ℚ) :
    (((∀ e ∈ L, merges pol e { power := p1, sigma := s1, numharm := numharm, r := r, z := z } = true →
        new_wins pol { power := p1, sigma := s1, numharm := numharm, r := r, z := z } e = true) ∨
      (∀ e ∈ L, merges pol e { power := p2, sigma := s2, numharm := numharm, r := r, z := z } = true →
        new_wins pol { power := p2, sigma := s2, numharm := numharm, r := r, z := z } e = true)) →
      ∃ c : accelcand,
        (c = { power := p1, sigma := s1, numharm := numharm, r := r, z := z } ∨
          c = { power := p2, sigma := s2, numharm := numharm, r := r, z := z }) ∧
        c.power = max p1 p2 ∧
        insert_both pol L { power := p1, sigma := s1, numharm := numharm, r := r, z := z }
            { power := p2, sigma := s2, numharm := numharm, r := r, z := z } =
          (L.filter fun x =>
            !merges pol x { power := p1, sigma := s1, numharm := numharm, r := r, z := z }) ++ [c] ∧
        (insert_both pol L { power := p1, sigma := s1, numharm := numharm, r := r, z := z }
            { power := p2, sigma := s2, numharm := numharm, r := r, z := z }).countP
          (fun e => decide (e.r = r ∧ e.z = z ∧ e.numharm = numharm)) = 1) ∧
    (¬ ((∀ e ∈ L, merges pol e { power := p1, sigma := s1, numharm := numharm, r := r, z := z } = true →
        new_wins pol { power := p1, sigma := s1, numharm := numharm, r := r, z := z } e = true) ∨
      (∀ e ∈ L, merges pol e { power := p2, sigma := s2, numharm := numharm, r := r, z := z } = true →
        new_wins pol { power := p2, sigma := s2, numharm := numharm, r := r, z := z } e = true)) →
      insert_both pol L { power := p1, sigma := s1, numharm := numharm, r := r, z := z }
          { power := p2, sigma := s2, numharm := numharm, r := r, z := z } = L) ∧
    ((∀ e ∈ L, merges pol e { power := p1, sigma := s1, numharm := numharm, r := r, z := z } = true →
        e.power < max p1 p2) →
      ((∀ e ∈ L, merges pol e { power := p1, sigma := s1, numharm := numharm, r := r, z := z } = true →
        new_wins pol { power := p1, sigma := s1, numharm := numharm, r := r, z := z } e = true) ∨
      (∀ e ∈ L, merges pol e { power := p2, sigma := s2, numharm := numharm, r := r, z := z } = true →
        new_wins pol { power := p2, sigma := s2, numharm := numharm, r := r, z := z } e = true))) ∧
    insert_both pol L { power := p1, sigma := s1, numharm := numharm, r := r, z := z }
        { power := p1, sigma := s1, numharm := numharm, r := r, z := z } =
      (insert_new_accelcand pol L p1 s1 numharm r z).1 := by
  obtain ⟨hc1, hc2, hc3, hc4⟩ := insert_both_cases pol L
    { power := p1, sigma := s1, numharm := numharm, r := r, z := z }
    { power := p2, sigma := s2, numharm := numharm, r := r, z := z }
  have hself : merges pol { power := p1, sigma := s1, numharm := numharm, r := r, z := z }
      { power := p2, sigma := s2, numharm := numharm, r := r, z := z } = true :=
    merges_same_key pol _ _ rfl rfl
  have hcount : ∀ c : accelcand, c.r = r → c.z = z → c.numharm = numharm →
      ((L.filter fun x =>
          !merges pol x { power := p1, sigma := s1, numharm := numharm, r := r, z := z }) ++ [c]).countP
        (fun e => decide (e.r = r ∧ e.z = z ∧ e.numharm = numharm)) = 1 := by
    intro c h1 h2 h3
    rw [List.countP_append,
      countP_key_filter pol L { power := p1, sigma := s1, numharm := numharm, r := r, z := z }]
    simp [h1, h2, h3]
  have hkept : ∀ c : accelcand, c.r = r → c.numharm = numharm →
      (((L.filter fun x =>
          !merges pol x { power := p1, sigma := s1, numharm := numharm, r := r, z := z }) ++
          [({ power := p1, sigma := s1, numharm := numharm, r := r, z := z } : accelcand)]).filter
          fun x => !merges pol x c) =
        L.filter fun x => !merges pol x { power := p1, sigma := s1, numharm := numharm, r := r, z := z } := by
    intro c h1 h3
    have hpred : (fun x => !merges pol x c) =
        fun x => !merges pol x { power := p1, sigma := s1, numharm := numharm, r := r, z := z } := by
      funext x
      unfold merges
      rw [h1, h3]
    rw [hpred, List.filter_append, filter_not_merges_idem]
    have hs11 : merges pol { power := p1, sigma := s1, numharm := numharm, r := r, z := z }
        { power := p1, sigma := s1, numharm := numharm, r := r, z := z } = true :=
      merges_same_key pol _ _ rfl rfl
    simp [hs11]
  have hcase1 : (∀ e ∈ L, merges pol e { power := p1, sigma := s1, numharm := numharm, r := r, z := z } = true →
        new_wins pol { power := p1, sigma := s1, numharm := numharm, r := r, z := z } e = true) →
      ∃ c : accelcand,
        (c = { power := p1, sigma := s1, numharm := numharm, r := r, z := z } ∨
          c = { power := p2, sigma := s2, numharm := numharm, r := r, z := z }) ∧
        c.power = max p1 p2 ∧
        insert_both pol L { power := p1, sigma := s1, numharm := numharm, r := r, z := z }
            { power := p2, sigma := s2, numharm := numharm, r := r, z := z } =
          (L.filter fun x =>
            !merges pol x { power := p1, sigma := s1, numharm := numharm, r := r, z := z }) ++ [c] := by
    intro h1
    by_cases hw : new_wins pol { power := p2, sigma := s2, numharm := numharm, r := r, z := z }
        { power := p1, sigma := s1, numharm := numharm, r := r, z := z } = true
    · refine ⟨_, Or.inr rfl, (max_eq_right (new_wins_le pol _ _ hw)).symm, ?_⟩
      rw [hc1 h1 ?_,
        hkept { power := p2, sigma := s2, numharm := numharm, r := r, z := z } rfl rfl]
      intro e he hm
      rcases List.mem_append.mp he with he | he
      · rw [mem_filter_not_merges] at he
        have hm' : merges pol e { power := p1, sigma := s1, numharm := numharm, r := r, z := z } = true := hm
        rw [he.2] at hm'
        exact absurd hm' (by decide)
      · rw [List.mem_singleton.mp he]
        exact hw
    · refine ⟨_, Or.inl rfl, (max_eq_left (le_of_not_new_wins pol _ _ hw)).symm, ?_⟩
      rw [hc2 h1 ?_]
      intro hall
      exact hw (hall _ (List.mem_append_right _ (List.mem_singleton_self _)) hself)
  have hcase2 : ¬ (∀ e ∈ L, merges pol e { power := p1, sigma := s1, numharm := numharm, r := r, z := z } = true →
        new_wins pol { power := p1, sigma := s1, numharm := numharm, r := r, z := z } e = true) →
      (∀ e ∈ L, merges pol e { power := p2, sigma := s2, numharm := numharm, r := r, z := z } = true →
        new_wins pol { power := p2, sigma := s2, numharm := numharm, r := r, z := z } e = true) →
      ∃ c : accelcand,
        (c = { power := p1, sigma := s1, numharm := numharm, r := r, z := z } ∨
          c = { power := p2, sigma := s2, numharm := numharm, r := r, z := z }) ∧
        c.power = max p1 p2 ∧
        insert_both pol L { power := p1, sigma := s1, numharm := numharm, r := r, z := z }
            { power := p2, sigma := s2, numharm := numharm, r := r, z := z } =
          (L.filter fun x =>
            !merges pol x { power := p1, sigma := s1, numharm := numharm, r := r, z := z }) ++ [c] := by
    intro h1 h2
    refine ⟨_, Or.inr rfl, ?_, hc3 h1 h2⟩
    have hex : ∃ e ∈ L,
        merges pol e { power := p1, sigma := s1, numharm := numharm, r := r, z := z } = true ∧
        ¬ new_wins pol { power := p1, sigma := s1, numharm := numharm, r := r, z := z } e = true := by
      by_contra hcon
      apply h1
      intro e he hm
      by_contra hnw
      exact hcon ⟨e, he, hm, hnw⟩
    obtain ⟨e, he, hm, hnw⟩ := hex
    have hle1 := le_of_not_new_wins pol _ e hnw
    have hle2 := new_wins_le pol _ e (h2 e he hm)
    exact (max_eq_right (le_trans hle1 hle2)).symm
  refine ⟨?_, ?_, ?_, ?_⟩
  · intro h
    by_cases h1 : (∀ e ∈ L, merges pol e { power := p1, sigma := s1, numharm := numharm, r := r, z := z } = true →
        new_wins pol { power := p1, sigma := s1, numharm := numharm, r := r, z := z } e = true)
    · obtain ⟨c, hc, hp, hfin⟩ := hcase1 h1
      refine ⟨c, hc, hp, hfin, ?_⟩
      rw [hfin]
      rcases hc with rfl | rfl
      · exact hcount _ rfl rfl rfl
      · exact hcount _ rfl rfl rfl
    · have h2 := h.resolve_left h1
      obtain ⟨c, hc, hp, hfin⟩ := hcase2 h1 h2
      refine ⟨c, hc, hp, hfin, ?_⟩
      rw [hfin]
      rcases hc with rfl | rfl
      · exact hcount _ rfl rfl rfl
      · exact hcount _ rfl rfl rfl
  · intro h
    rw [not_or] at h
    exact hc4 h.1 h.2
  · intro hlt
    by_cases hp : p1 ≤ p2
    · refine Or.inr fun e he hm => new_wins_of_lt pol _ e ?_
      have := hlt e he hm
      rwa [max_eq_right hp] at this
    · refine Or.inl fun e he hm => new_wins_of_lt pol _ e ?_
      have := hlt e he hm
      rwa [max_eq_left (not_le.mp hp).le] at this
  · obtain ⟨hd1, hd2, _, hd4⟩ := insert_both_cases pol L
      { power := p1, sigma := s1, numharm := numharm, r := r, z := z }
      { power := p1, sigma := s1, numharm := numharm, r := r, z := z }
    by_cases h1 : (∀ e ∈ L, merges pol e { power := p1, sigma := s1, numharm := numharm, r := r, z := z } = true →
        new_wins pol { power := p1, sigma := s1, numharm := numharm, r := r, z := z } e = true)
    · rw [insert_new_accelcand_kept pol L p1 s1 numharm r z h1]
      by_cases hw : ∀ e ∈ (L.filter fun x =>
            !merges pol x { power := p1, sigma := s1, numharm := numharm, r := r, z := z }) ++
            [{ power := p1, sigma := s1, numharm := numharm, r := r, z := z }],
          merges pol e { power := p1, sigma := s1, numharm := numharm, r := r, z := z } = true →
          new_wins pol { power := p1, sigma := s1, numharm := numharm, r := r, z := z } e = true
      · rw [hd1 h1 hw,
          hkept { power := p1, sigma := s1, numharm := numharm, r := r, z := z } rfl rfl]
      · rw [hd2 h1 hw]
    · rw [insert_new_accelcand_discarded pol L p1 s1 numharm r z h1]
      exact hd4 h1 h1

/-- C10 (amended) at a concrete input: the list holds a weaker candidate at `r = 105`;
the candidate `(100, 0, 1)` inserted with powers 2 and 3 is left as one entry. -/
theorem C10_insert_twice_witness :
    (∀ e ∈ [({ power := 1, sigma := 1, numharm := 1, r := 105, z := 0 } : accelcand)],
      merges mergePolicy e { power := 2, sigma := 1, numharm := 1, r := 100, z := 0 } = true →
      new_wins mergePolicy { power := 2, sigma := 1, numharm := 1, r := 100, z := 0 } e = true) ∧
    ∃ c : accelcand,
      (c = { power := 2, sigma := 1, numharm := 1, r := 100, z := 0 } ∨
        c = { power := 3, sigma := 1, numharm := 1, r := 100, z := 0 }) ∧
      c.power = max 2 3 ∧
      insert_both mergePolicy [{ power := 1, sigma := 1, numharm := 1, r := 105, z := 0 }]
          { power := 2, sigma := 1, numharm := 1, r := 100, z := 0 }
          { power := 3, sigma := 1, numharm := 1, r := 100, z := 0 } =
        ([({ power := 1, sigma := 1, numharm := 1, r := 105, z := 0 } : accelcand)].filter fun x =>
          !merges mergePolicy x { power := 2, sigma := 1, numharm := 1, r := 100, z := 0 }) ++ [c] ∧
      (insert_both mergePolicy [{ power := 1, sigma := 1, numharm := 1, r := 105, z := 0 }]
          { power := 2, sigma := 1, numharm := 1, r := 100, z := 0 }
          { power := 3, sigma := 1, numharm := 1, r := 100, z := 0 }).countP
        (fun e => decide (e.r = 100 ∧ e.z = 0 ∧ e.numharm = 1)) = 1 :=
  have ha : ∀ e ∈ [({ power := 1, sigma := 1, numharm := 1, r := 105, z := 0 } : accelcand)],
      merges mergePolicy e { power := 2, sigma := 1, numharm := 1, r := 100, z := 0 } = true →
      new_wins mergePolicy { power := 2, sigma := 1, numharm := 1, r := 100, z := 0 } e = true := by
    intro e he _
    rw [List.mem_singleton.mp he]
    norm_num [new_wins]
  ⟨ha, (C10_insert_twice mergePolicy [{ power := 1, sigma := 1, numharm := 1, r := 105, z := 0 }] 2 1 3 1 1 100 0).1 (Or.inl ha)⟩

/-! ## Theorems: harmonic elimination -/

/-- C11: for every candidate list, `eliminate_harmonics` never removes a candidate whose
`numharm` is 1; and a candidate that is not exempt in this way (`numharm` not 1), weaker
than a candidate of the list and within the closeness threshold of half that candidate's
frequency (a strong fundamental at `r = 100`, the weaker one at `r = 50`), is removed.
The pass only removes: what it returns are candidates of the list, the count it stores
is their number, and a candidate that no candidate of the list exceeds in power stays. -/
theorem C11_eliminate_harmonics (cands : List accelcand) (strong weak : accelcand) :
    (∀ c ∈ cands, c.numharm = 1 → c ∈ (eliminate_harmonics cands).1) ∧
    (strong ∈ cands → weak.power < strong.power → weak.numharm ≠ 1 →
      |weak.r - strong.r / 2| < ACCEL_CLOSEST_R → weak ∉ (eliminate_harmonics cands).1) ∧
    List.Sublist (eliminate_harmonics cands).1 cands ∧
    (eliminate_harmonics cands).2 = ((eliminate_harmonics cands).1.length : Int) ∧
    (∀ c ∈ cands, (∀ s ∈ cands, s.power ≤ c.power) → c ∈ (eliminate_harmonics cands).1) := by
  refine ⟨?_, ?_, List.filter_sublist _, rfl, ?_⟩
  · intro c hc h1
    simp only [eliminate_harmonics, List.mem_filter, Bool.or_eq_true, decide_eq_true_eq]
    exact ⟨hc, Or.inl h1⟩
  · intro hs hp hn hclose hmem
    simp only [eliminate_harmonics, List.mem_filter, Bool.or_eq_true, decide_eq_true_eq,
      Bool.not_eq_true', List.any_eq_false, Bool.and_eq_true, not_and] at hmem
    rcases hmem.2 with h1 | hnone
    · exact hn h1
    · have hrel : harmonically_related weak strong = true := by
        unfold harmonically_related
        rw [List.any_eq_true]
        refine ⟨0, List.mem_range.mpr (by norm_num), ?_⟩
        rw [List.any_eq_true]
        refine ⟨1, List.mem_range.mpr (by norm_num), ?_⟩
        rw [decide_eq_true_eq]
        have e : strong.r * (((0 : ℕ) : ℚ) + 1) / (((1 : ℕ) : ℚ) + 1) = strong.r / 2 := by
          norm_num
        rw [e]
        exact hclose
      exact (hnone strong hs hp) hrel
  · intro c hc hmax
    simp only [eliminate_harmonics, List.mem_filter, Bool.or_eq_true, decide_eq_true_eq,
      Bool.not_eq_true', List.any_eq_false, Bool.and_eq_true, not_and]
    exact ⟨hc, Or.inr fun s hs hlt => absurd hlt (not_lt.mpr (hmax s hs))⟩

/-- C11 at a concrete input: of the strong candidate at `r = 100` and a weaker one at
`r = 50` with `numharm = 2`, the pass keeps the strong one only; with `numharm = 1` the
weaker one is exempt and both stay. -/
theorem C11_eliminate_harmonics_witness :
    ((10 : ℚ) < 100 ∧ (2 : Int) ≠ 1 ∧ |(50 : ℚ) - 100 / 2| < ACCEL_CLOSEST_R) ∧
    ({ power := 10, sigma := 3, numharm := 2, r := 50, z := 0 } : accelcand) ∉
      (eliminate_harmonics
        [{ power := 100, sigma := 9, numharm := 8, r := 100, z := 0 },
         { power := 10, sigma := 3, numharm := 2, r := 50, z := 0 }]).1 ∧
    ({ power := 10, sigma := 3, numharm := 1, r := 50, z := 0 } : accelcand) ∈
      (eliminate_harmonics
        [{ power := 100, sigma := 9, numharm := 8, r := 100, z := 0 },
         { power := 10, sigma := 3, numharm := 1, r := 50, z := 0 }]).1 :=
  ⟨⟨by norm_num, by decide, by norm_num [ACCEL_CLOSEST_R]⟩,
    (C11_eliminate_harmonics
      [{ power := 100, sigma := 9, numharm := 8, r := 100, z := 0 },
       { power := 10, sigma := 3, numharm := 2, r := 50, z := 0 }]
      { power := 100, sigma := 9, numharm := 8, r := 100, z := 0 }
      { power := 10, sigma := 3, numharm := 2, r := 50, z := 0 }).2.1
      (List.mem_cons_self _ _) (by norm_num) (by decide) (by norm_num [ACCEL_CLOSEST_R]),
    (C11_eliminate_harmonics
      [{ power := 100, sigma := 9, numharm := 8, r := 100, z := 0 },
       { power := 10, sigma := 3, numharm := 1, r := 50, z := 0 }]
      { power := 100, sigma := 9, numharm := 8, r := 100, z := 0 }
      { power := 10, sigma := 3, numharm := 1, r := 50, z := 0 }).1 _
      (List.mem_cons_of_mem _ (List.mem_cons_self _ _)) rfl⟩

/-! ## Theorems: harmonic summation -/

/-- Updating the entries `0 .. n-1` of an array in place, one after the other, keeps its
length. -/
theorem foldl_set_range_length {α : Type} (d : α) (f : Nat → α → α) (n : Nat) (l : List α) :
    ((List.range n).foldl (fun (acc : List α) (j : Nat) => acc.set j (f j (acc.getD j d)))
      l).length = l.length := by
  induction n with
  | zero => rfl
  | succ m ih =>
    rw [List.range_succ, List.foldl_append]
    simp only [List.foldl_cons, List.foldl_nil, List.length_set]
    exact ih

/-- Updating the entries `0 .. n-1` of an array in place, one after the other: entry `k`
ends as `f k` of its old value when it was updated, and as its old value otherwise. -/
theorem foldl_set_range_getD {α : Type} (d : α) (f : Nat → α → α) (n : Nat) (l : List α)
    (k : Nat) :
    ((List.range n).foldl (fun (acc : List α) (j : Nat) => acc.set j (f j (acc.getD j d)))
      l).getD k d = if k < n ∧ k < l.length then f k (l.getD k d) else l.getD k d := by
  induction n generalizing k with
  | zero => simp
  | succ m ih =>
    rw [List.range_succ, List.foldl_append]
    simp only [List.foldl_cons, List.foldl_nil]
    rw [List.getD_eq_getElem?_getD, List.getElem?_set, foldl_set_range_length]
    by_cases hk : m = k
    · subst hk
      have hm := ih m
      simp only [lt_self_iff_false, false_and, if_false] at hm
      rw [if_pos rfl, hm]
      by_cases hl : m < l.length
      · rw [if_pos hl, if_pos ⟨Nat.lt_succ_self m, hl⟩]
        rfl
      · rw [if_neg hl, if_neg (fun h => hl h.2)]
        rw [List.getD_eq_getElem?_getD, List.getElem?_eq_none (not_lt.mp hl)]
    · rw [if_neg hk, ← List.getD_eq_getElem?_getD, ih]
      have hiff : (k < m + 1) ↔ (k < m) := by omega
      simp only [hiff]

/-- C12: for every fundamental plane whose matrix has `numzs` rows of `numrs` columns,
every subharmonic plane, `numharm` and `harmnum`, the copying summation `add_ffdotpows`
and the in-place summation `add_ffdotpows_ptrs` leave the same power in every cell
`(ii, jj)` of the fundamental plane. -/
theorem C12_add_ffdotpows_variants_agree (zind : Int → Int → Nat → Nat)
    (fundamental subharmonic : ffdotpows) (numharm harmnum : Int)
    (hrows : fundamental.powers.length = fundamental.numzs.toNat)
    (hcols : ∀ row ∈ fundamental.powers, row.length = fundamental.numrs.toNat)
    (ii jj : Nat) :
    ((add_ffdotpows zind fundamental subharmonic numharm harmnum).powers.getD ii []).getD jj 0 =
      ((add_ffdotpows_ptrs zind fundamental subharmonic numharm harmnum).powers.getD ii []).getD
        jj 0 := by
  unfold add_ffdotpows add_ffdotpows_ptrs
  simp only []
  have hout := foldl_set_range_getD []
    (fun (ii : Nat) (row : List ℚ) =>
      (List.range fundamental.numrs.toNat).foldl
        (fun (row : List ℚ) (jj : Nat) =>
          row.set jj (row.getD jj 0 + subharmonic_power zind subharmonic numharm harmnum ii jj))
        row)
    fundamental.numzs.toNat fundamental.powers ii
  beta_reduce at hout
  rw [hout]
  by_cases hi : ii < fundamental.numzs.toNat
  · have hil : ii < fundamental.powers.length := by rw [hrows]; exact hi
    have hrow : (fundamental.powers.getD ii []).length = fundamental.numrs.toNat := by
      rw [List.getD_eq_getElem _ _ hil]
      exact hcols _ (List.getElem_mem _)
    have hin := foldl_set_range_getD 0
      (fun (jj : Nat) (x : ℚ) => x + subharmonic_power zind subharmonic numharm harmnum ii jj)
      fundamental.numrs.toNat (fundamental.powers.getD ii []) jj
    beta_reduce at hin
    rw [if_pos ⟨hi, hil⟩, hin, hrow]
    by_cases hj : jj < fundamental.numrs.toNat
    · simp [List.getD_eq_getElem?_getD, List.getElem?_map, List.getElem?_range, hi, hj]
    · have hjl : (fundamental.powers.getD ii []).length ≤ jj := by rw [hrow]; omega
      rw [if_neg (fun h => hj h.1)]
      rw [List.getD_eq_getElem?_getD (fundamental.powers.getD ii []),
        List.getElem?_eq_none hjl]
      have hr : (List.range fundamental.numrs.toNat)[jj]? = none :=
        List.getElem?_eq_none (by rw [List.length_range]; omega)
      simp [List.getD_eq_getElem?_getD, List.getElem?_map, List.getElem?_range, hi, hr]
  · have hil : fundamental.powers.length ≤ ii := by rw [hrows]; omega
    rw [if_neg (fun h => hi h.1)]
    have hr : (List.range fundamental.numzs.toNat)[ii]? = none :=
      List.getElem?_eq_none (by rw [List.length_range]; omega)
    simp [List.getD_eq_getElem?_getD, List.getElem?_eq_none hil, List.getElem?_map, hr]

/-- C12 at a concrete input: planes of two rows and two columns, cell `(1, 0)`. -/
theorem C12_add_ffdotpows_variants_agree_witness :
    ((([[1, 2], [3, 4]] : List (List ℚ)).length = (2 : Int).toNat) ∧
      (∀ row ∈ ([[1, 2], [3, 4]] : List (List ℚ)), row.length = (2 : Int).toNat)) ∧
    ((add_ffdotpows (fun _ _ ii => ii)
        { numrs := 2, numzs := 2, rlo := 0, zlo := 0, powers := [[1, 2], [3, 4]], rinds := [0, 1] }
        { numrs := 2, numzs := 2, rlo := 0, zlo := 0, powers := [[5, 6], [7, 8]], rinds := [1, 0] }
        2 1).powers.getD 1 []).getD 0 0 =
      ((add_ffdotpows_ptrs (fun _ _ ii => ii)
        { numrs := 2, numzs := 2, rlo := 0, zlo := 0, powers := [[1, 2], [3, 4]], rinds := [0, 1] }
        { numrs := 2, numzs := 2, rlo := 0, zlo := 0, powers := [[5, 6], [7, 8]], rinds := [1, 0] }
        2 1).powers.getD 1 []).getD 0 0 :=
  ⟨⟨rfl, by
      intro row hrow
      simp only [List.mem_cons, List.mem_singleton, List.not_mem_nil, or_false] at hrow
      rcases hrow with rfl | rfl <;> rfl⟩,
    C12_add_ffdotpows_variants_agree (fun _ _ ii => ii)
      { numrs := 2, numzs := 2, rlo := 0, zlo := 0, powers := [[1, 2], [3, 4]], rinds := [0, 1] }
      { numrs := 2, numzs := 2, rlo := 0, zlo := 0, powers := [[5, 6], [7, 8]], rinds := [1, 0] }
      2 1 rfl (by
        intro row hrow
        simp only [List.mem_cons, List.mem_singleton, List.not_mem_nil, or_false] at hrow
        rcases hrow with rfl | rfl <;> rfl) 1 0⟩

/-! ## Theorems: reading integer options -/

/-- A sequence of two steps returns exactly when both steps return. -/
theorem Outcome.bind_eq_returned {α β : Type} (o : Outcome α) (f : α → Outcome β) (b : β) :
    o.bind f = Outcome.returned b ↔ ∃ a, o = Outcome.returned a ∧ f a = Outcome.returned b := by
  cases o with
  | returned a => simp [Outcome.bind]
  | exit_failure => simp [Outcome.bind]

/-- A sequence of two steps whose first step exits, exits. -/
theorem Outcome.bind_exit {α β : Type} (f : α → Outcome β) :
    (Outcome.exit_failure : Outcome α).bind f = Outcome.exit_failure := rfl

/-- A sequence of two steps whose first step returns `a` continues with `a`. -/
theorem Outcome.bind_returned {α β : Type} (a : α) (f : α → Outcome β) :
    (Outcome.returned a).bind f = f a := rfl

/-- The loop of `getIntOpts`: when it returns, every token it counted is a well-formed
integer that fits an `int` and is stored in order, and it stopped because the limit
`cmax` was reached, the command line ended, or the next token is not an integer. -/
theorem getIntOpts_loop_spec (lc : Libc) (argv : List String) (i : Nat) (cmax : Int) :
    ∀ (fuel used : Nat) (values : List Int) (u : Nat) (vs : List Int),
      argv.length ≤ fuel + (used + i + 1) →
      values.length = used →
      (∀ k < used, int_token lc (argv.getD (i + 1 + k) "") = true ∧
        values.getD k 0 = (lc.strtol (argv.getD (i + 1 + k) "")).value) →
      (cmax ≠ -1 → (used : Int) ≤ cmax) →
      getIntOpts_loop lc argv i cmax fuel used values = Outcome.returned (u, vs) →
      used ≤ u ∧ vs.length = u ∧
      (∀ k < u, int_token lc (argv.getD (i + 1 + k) "") = true ∧
        vs.getD k 0 = (lc.strtol (argv.getD (i + 1 + k) "")).value) ∧
      (cmax ≠ -1 → (u : Int) ≤ cmax) ∧
      ((cmax ≠ -1 ∧ (u : Int) = cmax) ∨ argv.length ≤ u + i + 1 ∨
        converts lc (argv.getD (i + 1 + u) "") = false) := by
  intro fuel
  induction fuel with
  | zero =>
    intro used values u vs hfuel hlen hinv hmax h
    simp only [getIntOpts_loop, Outcome.returned.injEq, Prod.mk.injEq] at h
    obtain ⟨rfl, rfl⟩ := h
    exact ⟨le_refl _, hlen, hinv, hmax, Or.inr (Or.inl (by omega))⟩
  | succ n ih =>
    intro used values u vs hfuel hlen hinv hmax h
    simp only [getIntOpts_loop] at h
    have hidx : used + i + 1 = i + 1 + used := by omega
    split_ifs at h with hguard hconv hclean hrange
    · simp only [Outcome.returned.injEq, Prod.mk.injEq] at h
      obtain ⟨rfl, rfl⟩ := h
      refine ⟨le_refl _, hlen, hinv, hmax, Or.inr (Or.inr ?_)⟩
      rw [← hidx]
      unfold converts
      rw [hconv]
      rfl
    · simp only [Outcome.returned.injEq, Prod.mk.injEq] at h
      obtain ⟨rfl, rfl⟩ := h
      refine ⟨le_refl _, hlen, hinv, hmax, Or.inr (Or.inr ?_)⟩
      rw [← hidx]
      unfold converts
      rw [hclean]
      exact Bool.and_false _
    · have hstep := ih (used + 1) (values ++ [(lc.strtol (argv.getD (used + i + 1) "")).value])
        u vs (by omega) (by simp [hlen]) ?_ ?_ h
      · exact ⟨by omega, hstep.2.1, hstep.2.2.1, hstep.2.2.2.1, hstep.2.2.2.2⟩
      · intro k hk
        by_cases hku : k < used
        · refine ⟨(hinv k hku).1, ?_⟩
          rw [List.getD_append _ _ _ _ (by omega)]
          exact (hinv k hku).2
        · have hke : k = used := by omega
          subst hke
          rw [← hidx]
          constructor
          · simp only [not_or, not_lt, Bool.not_eq_true] at hrange
            simp only [Bool.not_eq_false] at hconv hclean
            simp only [int_token, converts, Bool.and_eq_true, Bool.not_eq_true',
              decide_eq_true_eq]
            exact ⟨⟨⟨⟨hconv, hclean⟩, hrange.1⟩, hrange.2.2⟩, hrange.2.1⟩
          · rw [List.getD_append_right _ _ _ _ (by omega), hlen, Nat.sub_self]
            rfl
      · intro hne
        rcases hguard.1 with h1 | h1
        · exact absurd h1 hne
        · push_cast
          omega
    · simp only [Outcome.returned.injEq, Prod.mk.injEq] at h
      obtain ⟨rfl, rfl⟩ := h
      refine ⟨le_refl _, hlen, hinv, hmax, ?_⟩
      rw [not_and_or] at hguard
      rcases hguard with hg | hg
      · rw [not_or] at hg
        exact Or.inl ⟨hg.1, le_antisymm (hmax hg.1) (not_lt.mp hg.2)⟩
      · exact Or.inr (Or.inl (by omega))

/-- The function `getIntOpts` with `cmax >= -1`: when it returns, it returns `i + used`
with the `used` values stored in order; the command line is longer than `i + cmin`. -/
theorem getIntOpts_spec (lc : Libc) (argv : List String) (i : Nat) (cmin cmax : Int)
    (ret : Nat) (values : List Int) (hcmax : -1 ≤ cmax)
    (h : getIntOpts lc argv i cmin cmax = Outcome.returned (ret, values)) :
    ∃ used : Nat, ret = i + used ∧ cmin ≤ (used : Int) ∧ (cmax ≠ -1 → (used : Int) ≤ cmax) ∧
      values.length = used ∧
      (∀ k < used, int_token lc (argv.getD (i + 1 + k) "") = true ∧
        values.getD k 0 = (lc.strtol (argv.getD (i + 1 + k) "")).value) ∧
      ((cmax ≠ -1 ∧ (used : Int) = cmax) ∨ argv.length ≤ i + 1 + used ∨
        converts lc (argv.getD (i + 1 + used) "") = false) ∧
      (i : Int) + cmin < (argv.length : Int) := by
  unfold getIntOpts at h
  split_ifs at h with hargc
  rw [Outcome.bind_eq_returned] at h
  obtain ⟨res, hloop, hret⟩ := h
  split_ifs at hret with hmin
  simp only [Outcome.returned.injEq, Prod.mk.injEq] at hret
  obtain ⟨rfl, rfl⟩ := hret
  have hspec := getIntOpts_loop_spec lc argv i cmax argv.length 0 [] res.1 res.2
    (by omega) rfl (fun k hk => absurd hk (Nat.not_lt_zero k))
    (fun hne => by
      have h0 : cmax ≠ -1 := hne
      push_cast
      omega)
    hloop
  refine ⟨res.1, rfl, not_lt.mp hmin, hspec.2.2.2.1, hspec.2.1, hspec.2.2.1, ?_, not_le.mp hargc⟩
  rcases hspec.2.2.2.2 with h1 | h1 | h1
  · exact Or.inl h1
  · exact Or.inr (Or.inl (by omega))
  · exact Or.inr (Or.inr h1)

/-- C20 (as stated, refuted): with `cmin = 0` and `cmax = -2`, on the command line
`accelsearch -gpu 3`, `getIntOpts` at the option index 1 returns `1 = i + 0` and stores
nothing: `used = 0`, although one well-formed integer follows the option, and
`used <= cmax` fails. -/
theorem C20_counterexample :
    getIntOpts sampleLibc ["accelsearch", "-gpu", "3"] 1 0 (-2) = Outcome.returned (1, []) ∧
    int_token sampleLibc "3" = true ∧ ¬ ((0 : Int) ≤ -2) := by
  decide

/-- C20 (amended): for every `argv`, option index `i`, `cmin` and `cmax >= -1`, if
`getIntOpts` returns then it returns `i + used`, where the `used` tokens directly after
`argv[i]` are well-formed integers that fit an `int`, `values[k]` is the integer in
`argv[i+1+k]` for every `k < used`, and the count stopped because it reached `cmax`
(when `cmax != -1`), or the command line ended, or the next token is not an integer;
`cmin <= used` holds, and `used <= cmax` holds when `cmax != -1`. -/
theorem C20_getIntOpts_result (lc : Libc) (argv : List String) (i : Nat) (cmin cmax : Int)
    (ret : Nat) (values : List Int) (hcmax : -1 ≤ cmax)
    (h : getIntOpts lc argv i cmin cmax = Outcome.returned (ret, values)) :
    ∃ used : Nat, ret = i + used ∧ cmin ≤ (used : Int) ∧ (cmax ≠ -1 → (used : Int) ≤ cmax) ∧
      values.length = used ∧
      (∀ k < used, int_token lc (argv.getD (i + 1 + k) "") = true ∧
        values.getD k 0 = (lc.strtol (argv.getD (i + 1 + k) "")).value) ∧
      ((cmax ≠ -1 ∧ (used : Int) = cmax) ∨ argv.length ≤ i + 1 + used ∨
        converts lc (argv.getD (i + 1 + used) "") = false) := by
  obtain ⟨used, h1, h2, h3, h4, h5, h6, _⟩ := getIntOpts_spec lc argv i cmin cmax ret values hcmax h
  exact ⟨used, h1, h2, h3, h4, h5, h6⟩

/-- C20 (amended) at a concrete input: `accelsearch -gpu 1 2 in.fft`, option index 1,
`cmin = 0`, `cmax = 32`: two values are read and the index returned is 3. -/
theorem C20_getIntOpts_result_witness :
    ((-1 : Int) ≤ 32 ∧
      getIntOpts sampleLibc ["accelsearch", "-gpu", "1", "2", "in.fft"] 1 0 32 =
        Outcome.returned (3, [1, 2])) ∧
    ∃ used : Nat, 3 = 1 + used ∧ (0 : Int) ≤ (used : Int) ∧
      ((32 : Int) ≠ -1 → (used : Int) ≤ 32) ∧
      ([1, 2] : List Int).length = used ∧
      (∀ k < used,
        int_token sampleLibc
            ((["accelsearch", "-gpu", "1", "2", "in.fft"] : List String).getD (1 + 1 + k) "") =
          true ∧
        ([1, 2] : List Int).getD k 0 =
          (sampleLibc.strtol
            ((["accelsearch", "-gpu", "1", "2", "in.fft"] : List String).getD (1 + 1 + k)
              "")).value) ∧
      (((32 : Int) ≠ -1 ∧ (used : Int) = 32) ∨
        (["accelsearch", "-gpu", "1", "2", "in.fft"] : List String).length ≤ 1 + 1 + used ∨
        converts sampleLibc
            ((["accelsearch", "-gpu", "1", "2", "in.fft"] : List String).getD (1 + 1 + used) "") =
          false) :=
  ⟨⟨by decide, by decide⟩,
    C20_getIntOpts_result sampleLibc ["accelsearch", "-gpu", "1", "2", "in.fft"] 1 0 32 3 [1, 2]
      (by decide) (by decide)⟩

/-! ## Theorems: the steps of `parseCmdline` -/

/-- With `force` set, `getIntOpt` returns only after reading the next token as a
well-formed integer that fits an `int`. -/
theorem getIntOpt_spec (lc : Libc) (argv : List String) (i : Nat) (value : Int)
    (r : Nat × Int) (h : getIntOpt lc argv i value 1 = Outcome.returned r) :
    r.1 = i + 1 ∧ i + 1 < argv.length ∧ int_token lc (argv.getD (i + 1) "") = true ∧
      r.2 = (lc.strtol (argv.getD (i + 1) "")).value := by
  unfold getIntOpt at h
  simp only [one_ne_zero, if_false] at h
  split_ifs at h with h1 h2 h3 h4
  simp only [Outcome.returned.injEq] at h
  subst h
  simp only [not_or, not_lt, Bool.not_eq_true] at h4
  simp only [Bool.not_eq_false] at h2 h3
  refine ⟨rfl, by omega, ?_, rfl⟩
  simp only [int_token, converts, Bool.and_eq_true, Bool.not_eq_true', decide_eq_true_eq]
  exact ⟨⟨⟨⟨h2, h3⟩, h4.1⟩, h4.2.2⟩, h4.2.1⟩

/-- With `force` set, `getFloatOpt` returns only after reading the next token. -/
theorem getFloatOpt_spec (lc : Libc) (argv : List String) (i : Nat) (value : ℚ)
    (r : Nat × ℚ) (h : getFloatOpt lc argv i value 1 = Outcome.returned r) :
    r.1 = i + 1 := by
  unfold getFloatOpt at h
  simp only [one_ne_zero, if_false] at h
  split_ifs at h with h1 h2 h3
  rw [Outcome.bind_eq_returned] at h
  obtain ⟨_, _, h⟩ := h
  simp only [Outcome.returned.injEq] at h
  subst h
  rfl

/-- With `force` set, `getDoubleOpt` returns only after reading the next token. -/
theorem getDoubleOpt_spec (lc : Libc) (argv : List String) (i : Nat) (value : ℚ)
    (r : Nat × ℚ) (h : getDoubleOpt lc argv i value 1 = Outcome.returned r) :
    r.1 = i + 1 := by
  unfold getDoubleOpt at h
  simp only [one_ne_zero, if_false] at h
  split_ifs at h with h1 h2 h3 h4
  simp only [Outcome.returned.injEq] at h
  subst h
  rfl

/-- With `force` set, `getStringOpt` returns only after taking the next token. -/
theorem getStringOpt_spec (argv : List String) (i : Nat) (value : Option String)
    (r : Nat × Option String) (h : getStringOpt argv i value 1 = Outcome.returned r) :
    r.1 = i + 1 := by
  unfold getStringOpt at h
  simp only [one_ne_zero, ne_eq, not_false_eq_true, if_true, false_and, if_false] at h
  split_ifs at h with h1
  simp only [Outcome.returned.injEq] at h
  subst h
  rfl

/-- Copying the rest of the command line forward keeps the length of `argv`. -/
theorem copy_rest_length (argv : List String) (i : Nat) (argc : Int) :
    (copy_rest argv i argc).1.length = argv.length := by
  unfold copy_rest
  generalize argv.length - (i + 1) = n
  induction n with
  | zero => rfl
  | succ m ih =>
    rw [List.range_succ, List.foldl_append]
    simp only [List.foldl_cons, List.foldl_nil, List.length_set]
    exact ih

/-- A single value passes `checkIntLower` only when it is at most `max`. -/
theorem checkIntLower_one (opt : String) (v : Int) (max : Int) (u : Unit)
    (h : checkIntLower opt [v] 1 max = Outcome.returned u) : v ≤ max := by
  unfold checkIntLower at h
  split_ifs at h with hall
  simpa using hall

/-- A single value passes `checkIntHigher` only when it is at least `min`. -/
theorem checkIntHigher_one (opt : String) (v : Int) (min : Int) (u : Unit)
    (h : checkIntHigher opt [v] 1 min = Outcome.returned u) : min ≤ v := by
  unfold checkIntHigher at h
  split_ifs at h with hall
  simpa using hall

/-- The branch of the loop body for the token `--`. -/
theorem parse_step_dashdash (lc : Libc) (st : ParseState)
    (htok : st.argv.getD st.i "" = "--") :
    parse_step lc st =
      Outcome.returned
        { cmd := { st.cmd with argc := (copy_rest st.argv st.i st.cmd.argc).2 }
          argv := (copy_rest st.argv st.i st.cmd.argc).1
          i := st.argv.length } := by
  unfold parse_step
  rw [htok]
  rfl

/-- The branch of the loop body for the option `-gpu`. -/
theorem parse_step_gpu (lc : Libc) (st : ParseState)
    (htok : st.argv.getD st.i "" = "-gpu") :
    parse_step lc st =
      (getIntOpts lc st.argv st.i 0 32).bind fun r =>
      (checkIntLower "-gpu" r.2 ((r.1 : Int) - (st.i : Int)) 32).bind fun _ =>
      (checkIntHigher "-gpu" r.2 ((r.1 : Int) - (st.i : Int)) 0).bind fun _ =>
      Outcome.returned
        { st with
          cmd := { st.cmd with gpuP := 1, gpu := r.2, gpuC := (r.1 : Int) - (st.i : Int) }
          i := r.1 } := by
  unfold parse_step
  rw [htok]
  rfl

/-- The branch of the loop body for the option `-nsteps`. -/
theorem parse_step_nsteps (lc : Libc) (st : ParseState)
    (htok : st.argv.getD st.i "" = "-nsteps") :
    parse_step lc st =
      (getIntOpts lc st.argv st.i 0 32).bind fun r =>
      (checkIntLower "-nsteps" r.2 ((r.1 : Int) - (st.i : Int)) 8).bind fun _ =>
      (checkIntHigher "-nsteps" r.2 ((r.1 : Int) - (st.i : Int)) 1).bind fun _ =>
      Outcome.returned
        { st with
          cmd := { st.cmd with nstepsP := 1, nsteps := r.2, nstepsC := (r.1 : Int) - (st.i : Int) }
          i := r.1 } := by
  unfold parse_step
  rw [htok]
  rfl

/-- The branch of the loop body for the option `-nbatch`. -/
theorem parse_step_nbatch (lc : Libc) (st : ParseState)
    (htok : st.argv.getD st.i "" = "-nbatch") :
    parse_step lc st =
      (getIntOpts lc st.argv st.i 0 32).bind fun r =>
      (checkIntLower "-nbatch" r.2 ((r.1 : Int) - (st.i : Int)) 5).bind fun _ =>
      (checkIntHigher "-nbatch" r.2 ((r.1 : Int) - (st.i : Int)) 1).bind fun _ =>
      Outcome.returned
        { st with
          cmd := { st.cmd with nbatchP := 1, nbatch := r.2, nbatchC := (r.1 : Int) - (st.i : Int) }
          i := r.1 } := by
  unfold parse_step
  rw [htok]
  rfl

/-- The branch of the loop body for the option `-width`. -/
theorem parse_step_width (lc : Libc) (st : ParseState)
    (htok : st.argv.getD st.i "" = "-width") :
    parse_step lc st =
      (getIntOpt lc st.argv st.i st.cmd.width 1).bind fun r =>
      (checkIntLower "-width" [r.2] ((r.1 : Int) - (st.i : Int)) 32).bind fun _ =>
      (checkIntHigher "-width" [r.2] ((r.1 : Int) - (st.i : Int)) 2).bind fun _ =>
      Outcome.returned
        { st with
          cmd := { st.cmd with widthP := 1, width := r.2, widthC := (r.1 : Int) - (st.i : Int) }
          i := r.1 } := by
  unfold parse_step
  rw [htok]
  rfl

/-- The branch of the loop body for the switch `-lsgpu`. -/
theorem parse_step_lsgpu (lc : Libc) (st : ParseState)
    (htok : st.argv.getD st.i "" = "-lsgpu") :
    parse_step lc st = Outcome.returned { st with cmd := { st.cmd with lsgpuP := 1 } } := by
  unfold parse_step
  rw [htok]
  rfl

/-- The branch of the loop body for the switch `-cpu`. -/
theorem parse_step_cpu (lc : Libc) (st : ParseState)
    (htok : st.argv.getD st.i "" = "-cpu") :
    parse_step lc st = Outcome.returned { st with cmd := { st.cmd with cpuP := 1 } } := by
  unfold parse_step
  rw [htok]
  rfl

/-- The branch of the loop body for the option `-ncpus`. -/
theorem parse_step_ncpus (lc : Libc) (st : ParseState)
    (htok : st.argv.getD st.i "" = "-ncpus") :
    parse_step lc st =
      (getIntOpt lc st.argv st.i st.cmd.ncpus 1).bind fun r =>
      (checkIntHigher "-ncpus" [r.2] ((r.1 : Int) - (st.i : Int)) 1).bind fun _ =>
      Outcome.returned
        { st with
          cmd := { st.cmd with ncpusP := 1, ncpus := r.2, ncpusC := (r.1 : Int) - (st.i : Int) }
          i := r.1 } := by
  unfold parse_step
  rw [htok]
  rfl

/-- The branch of the loop body for the option `-lobin`. -/
theorem parse_step_lobin (lc : Libc) (st : ParseState)
    (htok : st.argv.getD st.i "" = "-lobin") :
    parse_step lc st =
      (getIntOpt lc st.argv st.i st.cmd.lobin 1).bind fun r =>
      (checkIntHigher "-lobin" [r.2] ((r.1 : Int) - (st.i : Int)) 0).bind fun _ =>
      Outcome.returned
        { st with
          cmd := { st.cmd with lobinP := 1, lobin := r.2, lobinC := (r.1 : Int) - (st.i : Int) }
          i := r.1 } := by
  unfold parse_step
  rw [htok]
  rfl

/-- The branch of the loop body for the option `-numharm`. -/
theorem parse_step_numharm (lc : Libc) (st : ParseState)
    (htok : st.argv.getD st.i "" = "-numharm") :
    parse_step lc st =
      (getIntOpt lc st.argv st.i st.cmd.numharm 1).bind fun r =>
      (checkIntLower "-numharm" [r.2] ((r.1 : Int) - (st.i : Int)) 16).bind fun _ =>
      (checkIntHigher "-numharm" [r.2] ((r.1 : Int) - (st.i : Int)) 1).bind fun _ =>
      Outcome.returned
        { st with
          cmd := { st.cmd with numharmP := 1, numharm := r.2, numharmC := (r.1 : Int) - (st.i : Int) }
          i := r.1 } := by
  unfold parse_step
  rw [htok]
  rfl

/-- The branch of the loop body for the option `-zmax`. -/
theorem parse_step_zmax (lc : Libc) (st : ParseState)
    (htok : st.argv.getD st.i "" = "-zmax") :
    parse_step lc st =
      (getIntOpt lc st.argv st.i st.cmd.zmax 1).bind fun r =>
      (checkIntLower "-zmax" [r.2] ((r.1 : Int) - (st.i : Int)) 1200).bind fun _ =>
      (checkIntHigher "-zmax" [r.2] ((r.1 : Int) - (st.i : Int)) 0).bind fun _ =>
      Outcome.returned
        { st with
          cmd := { st.cmd with zmaxP := 1, zmax := r.2, zmaxC := (r.1 : Int) - (st.i : Int) }
          i := r.1 } := by
  unfold parse_step
  rw [htok]
  rfl

/-- The branch of the loop body for the option `-sigma`. -/
theorem parse_step_sigma (lc : Libc) (st : ParseState)
    (htok : st.argv.getD st.i "" = "-sigma") :
    parse_step lc st =
      (getFloatOpt lc st.argv st.i st.cmd.sigma 1).bind fun r =>
      (checkFloatLower "-sigma" [r.2] ((r.1 : Int) - (st.i : Int)) 30.0).bind fun _ =>
      (checkFloatHigher "-sigma" [r.2] ((r.1 : Int) - (st.i : Int)) 1.0).bind fun _ =>
      Outcome.returned
        { st with
          cmd := { st.cmd with sigmaP := 1, sigma := r.2, sigmaC := (r.1 : Int) - (st.i : Int) }
          i := r.1 } := by
  unfold parse_step
  rw [htok]
  rfl

/-- The branch of the loop body for the option `-rlo`. -/
theorem parse_step_rlo (lc : Libc) (st : ParseState)
    (htok : st.argv.getD st.i "" = "-rlo") :
    parse_step lc st =
      (getDoubleOpt lc st.argv st.i st.cmd.rlo 1).bind fun r =>
      (checkFloatHigher "-rlo" [r.2] ((r.1 : Int) - (st.i : Int)) 0.0).bind fun _ =>
      Outcome.returned
        { st with
          cmd := { st.cmd with rloP := 1, rlo := r.2, rloC := (r.1 : Int) - (st.i : Int) }
          i := r.1 } := by
  unfold parse_step
  rw [htok]
  rfl

/-- The branch of the loop body for the option `-rhi`. -/
theorem parse_step_rhi (lc : Libc) (st : ParseState)
    (htok : st.argv.getD st.i "" = "-rhi") :
    parse_step lc st =
      (getDoubleOpt lc st.argv st.i st.cmd.rhi 1).bind fun r =>
      (checkFloatHigher "-rhi" [r.2] ((r.1 : Int) - (st.i : Int)) 0.0).bind fun _ =>
      Outcome.returned
        { st with
          cmd := { st.cmd with rhiP := 1, rhi := r.2, rhiC := (r.1 : Int) - (st.i : Int) }
          i := r.1 } := by
  unfold parse_step
  rw [htok]
  rfl

/-- The branch of the loop body for the option `-flo`. -/
theorem parse_step_flo (lc : Libc) (st : ParseState)
    (htok : st.argv.getD st.i "" = "-flo") :
    parse_step lc st =
      (getDoubleOpt lc st.argv st.i st.cmd.flo 1).bind fun r =>
      (checkFloatHigher "-flo" [r.2] ((r.1 : Int) - (st.i : Int)) 0.0).bind fun _ =>
      Outcome.returned
        { st with
          cmd := { st.cmd with floP := 1, flo := r.2, floC := (r.1 : Int) - (st.i : Int) }
          i := r.1 } := by
  unfold parse_step
  rw [htok]
  rfl

/-- The branch of the loop body for the option `-fhi`. -/
theorem parse_step_fhi (lc : Libc) (st : ParseState)
    (htok : st.argv.getD st.i "" = "-fhi") :
    parse_step lc st =
      (getDoubleOpt lc st.argv st.i st.cmd.fhi 1).bind fun r =>
      (checkFloatHigher "-fhi" [r.2] ((r.1 : Int) - (st.i : Int)) 0.0).bind fun _ =>
      Outcome.returned
        { st with
          cmd := { st.cmd with fhiP := 1, fhi := r.2, fhiC := (r.1 : Int) - (st.i : Int) }
          i := r.1 } := by
  unfold parse_step
  rw [htok]
  rfl

/-- The branch of the loop body for the switch `-inmem`. -/
theorem parse_step_inmem (lc : Libc) (st : ParseState)
    (htok : st.argv.getD st.i "" = "-inmem") :
    parse_step lc st = Outcome.returned { st with cmd := { st.cmd with inmemP := 1 } } := by
  unfold parse_step
  rw [htok]
  rfl

/-- The branch of the loop body for the switch `-photon`. -/
theorem parse_step_photon (lc : Libc) (st : ParseState)
    (htok : st.argv.getD st.i "" = "-photon") :
    parse_step lc st = Outcome.returned { st with cmd := { st.cmd with photonP := 1 } } := by
  unfold parse_step
  rw [htok]
  rfl

/-- The branch of the loop body for the switch `-median`. -/
theorem parse_step_median (lc : Libc) (st : ParseState)
    (htok : st.argv.getD st.i "" = "-median") :
    parse_step lc st = Outcome.returned { st with cmd := { st.cmd with medianP := 1 } } := by
  unfold parse_step
  rw [htok]
  rfl

/-- The branch of the loop body for the switch `-locpow`. -/
theorem parse_step_locpow (lc : Libc) (st : ParseState)
    (htok : st.argv.getD st.i "" = "-locpow") :
    parse_step lc st = Outcome.returned { st with cmd := { st.cmd with locpowP := 1 } } := by
  unfold parse_step
  rw [htok]
  rfl

/-- The branch of the loop body for the option `-zaplist`. -/
theorem parse_step_zaplist (lc : Libc) (st : ParseState)
    (htok : st.argv.getD st.i "" = "-zaplist") :
    parse_step lc st =
      (getStringOpt st.argv st.i st.cmd.zaplist 1).bind fun r =>
      Outcome.returned
        { st with
          cmd := { st.cmd with zaplistP := 1, zaplist := r.2, zaplistC := (r.1 : Int) - (st.i : Int) }
          i := r.1 } := by
  unfold parse_step
  rw [htok]
  rfl

/-- The branch of the loop body for the option `-baryv`. -/
theorem parse_step_baryv (lc : Libc) (st : ParseState)
    (htok : st.argv.getD st.i "" = "-baryv") :
    parse_step lc st =
      (getDoubleOpt lc st.argv st.i st.cmd.baryv 1).bind fun r =>
      (checkFloatLower "-baryv" [r.2] ((r.1 : Int) - (st.i : Int)) 0.1).bind fun _ =>
      (checkFloatHigher "-baryv" [r.2] ((r.1 : Int) - (st.i : Int)) (-0.1)).bind fun _ =>
      Outcome.returned
        { st with
          cmd := { st.cmd with baryvP := 1, baryv := r.2, baryvC := (r.1 : Int) - (st.i : Int) }
          i := r.1 } := by
  unfold parse_step
  rw [htok]
  rfl

/-- The branch of the loop body for the switch `-otheropt`. -/
theorem parse_step_otheropt (lc : Libc) (st : ParseState)
    (htok : st.argv.getD st.i "" = "-otheropt") :
    parse_step lc st = Outcome.returned { st with cmd := { st.cmd with otheroptP := 1 } } := by
  unfold parse_step
  rw [htok]
  rfl

/-- The branch of the loop body for the switch `-noharmpolish`. -/
theorem parse_step_noharmpolish (lc : Libc) (st : ParseState)
    (htok : st.argv.getD st.i "" = "-noharmpolish") :
    parse_step lc st = Outcome.returned { st with cmd := { st.cmd with noharmpolishP := 1 } } := by
  unfold parse_step
  rw [htok]
  rfl

/-- The branch of the loop body for the switch `-noharmremove`. -/
theorem parse_step_noharmremove (lc : Libc) (st : ParseState)
    (htok : st.argv.getD st.i "" = "-noharmremove") :
    parse_step lc st = Outcome.returned { st with cmd := { st.cmd with noharmremoveP := 1 } } := by
  unfold parse_step
  rw [htok]
  rfl

/-- The end of the loop body, for a token that is neither `--` nor an option name: a
token that begins with `-` is an unknown option and ends the program, any other token
is a non-option argument and is stored at `argv[cmd.argc++]`. -/
theorem parse_step_other (lc : Libc) (st : ParseState)
    (h0 : st.argv.getD st.i "" ≠ "--")
    (h1 : st.argv.getD st.i "" ≠ "-gpu")
    (h2 : st.argv.getD st.i "" ≠ "-nsteps")
    (h3 : st.argv.getD st.i "" ≠ "-nbatch")
    (h4 : st.argv.getD st.i "" ≠ "-width")
    (h5 : st.argv.getD st.i "" ≠ "-lsgpu")
    (h6 : st.argv.getD st.i "" ≠ "-cpu")
    (h7 : st.argv.getD st.i "" ≠ "-ncpus")
    (h8 : st.argv.getD st.i "" ≠ "-lobin")
    (h9 : st.argv.getD st.i "" ≠ "-numharm")
    (h10 : st.argv.getD st.i "" ≠ "-zmax")
    (h11 : st.argv.getD st.i "" ≠ "-sigma")
    (h12 : st.argv.getD st.i "" ≠ "-rlo")
    (h13 : st.argv.getD st.i "" ≠ "-rhi")
    (h14 : st.argv.getD st.i "" ≠ "-flo")
    (h15 : st.argv.getD st.i "" ≠ "-fhi")
    (h16 : st.argv.getD st.i "" ≠ "-inmem")
    (h17 : st.argv.getD st.i "" ≠ "-photon")
    (h18 : st.argv.getD st.i "" ≠ "-median")
    (h19 : st.argv.getD st.i "" ≠ "-locpow")
    (h20 : st.argv.getD st.i "" ≠ "-zaplist")
    (h21 : st.argv.getD st.i "" ≠ "-baryv")
    (h22 : st.argv.getD st.i "" ≠ "-otheropt")
    (h23 : st.argv.getD st.i "" ≠ "-noharmpolish")
    (h24 : st.argv.getD st.i "" ≠ "-noharmremove") :
    parse_step lc st =
      if (st.argv.getD st.i "").get 0 = '-' then Outcome.exit_failure
      else
        Outcome.returned
          { st with
            cmd := { st.cmd with argc := st.cmd.argc + 1 }
            argv := st.argv.set st.cmd.argc.toNat (st.argv.getD st.i "") } := by
  unfold parse_step
  rw [if_neg h0, if_neg h1, if_neg h2, if_neg h3, if_neg h4, if_neg h5, if_neg h6, if_neg h7, if_neg h8, if_neg h9, if_neg h10, if_neg h11, if_neg h12, if_neg h13, if_neg h14, if_neg h15, if_neg h16, if_neg h17, if_neg h18, if_neg h19, if_neg h20, if_neg h21, if_neg h22, if_neg h23, if_neg h24]

/-- One pass through the loop body never moves the index back, never changes the length
of `argv`, and leaves `cmd.numharm` unchanged or sets it to a value from 1 to 16. -/
theorem parse_step_inv (lc : Libc) (st st1 : ParseState) (hi : st.i < st.argv.length)
    (h : parse_step lc st = Outcome.returned st1) :
    st.i ≤ st1.i ∧ st1.argv.length = st.argv.length ∧
      (st1.cmd.numharm = st.cmd.numharm ∨ (1 ≤ st1.cmd.numharm ∧ st1.cmd.numharm ≤ 16)) := by
  by_cases h0 : st.argv.getD st.i "" = "--"
  · rw [parse_step_dashdash lc st h0] at h
    simp only [Outcome.returned.injEq] at h
    subst h
    exact ⟨by simp only []; omega, copy_rest_length _ _ _, Or.inl rfl⟩
  by_cases h1 : st.argv.getD st.i "" = "-gpu"
  · rw [parse_step_gpu lc st h1] at h
    simp only [Outcome.bind_eq_returned] at h
    obtain ⟨r, hr, _, _, _, _, h⟩ := h
    simp only [Outcome.returned.injEq] at h
    subst h
    obtain ⟨used, hu, _⟩ := getIntOpts_spec lc st.argv st.i 0 32 r.1 r.2 (by decide) hr
    exact ⟨by simp only []; omega, rfl, Or.inl rfl⟩
  by_cases h2 : st.argv.getD st.i "" = "-nsteps"
  · rw [parse_step_nsteps lc st h2] at h
    simp only [Outcome.bind_eq_returned] at h
    obtain ⟨r, hr, _, _, _, _, h⟩ := h
    simp only [Outcome.returned.injEq] at h
    subst h
    obtain ⟨used, hu, _⟩ := getIntOpts_spec lc st.argv st.i 0 32 r.1 r.2 (by decide) hr
    exact ⟨by simp only []; omega, rfl, Or.inl rfl⟩
  by_cases h3 : st.argv.getD st.i "" = "-nbatch"
  · rw [parse_step_nbatch lc st h3] at h
    simp only [Outcome.bind_eq_returned] at h
    obtain ⟨r, hr, _, _, _, _, h⟩ := h
    simp only [Outcome.returned.injEq] at h
    subst h
    obtain ⟨used, hu, _⟩ := getIntOpts_spec lc st.argv st.i 0 32 r.1 r.2 (by decide) hr
    exact ⟨by simp only []; omega, rfl, Or.inl rfl⟩
  by_cases h4 : st.argv.getD st.i "" = "-width"
  · rw [parse_step_width lc st h4] at h
    simp only [Outcome.bind_eq_returned] at h
    obtain ⟨r, hr, _, _, _, _, h⟩ := h
    simp only [Outcome.returned.injEq] at h
    subst h
    have hr1 := (getIntOpt_spec lc st.argv st.i _ r hr).1
    exact ⟨by simp only []; omega, rfl, Or.inl rfl⟩
  by_cases h5 : st.argv.getD st.i "" = "-lsgpu"
  · rw [parse_step_lsgpu lc st h5] at h
    simp only [Outcome.returned.injEq] at h
    subst h
    exact ⟨le_refl _, rfl, Or.inl rfl⟩
  by_cases h6 : st.argv.getD st.i "" = "-cpu"
  · rw [parse_step_cpu lc st h6] at h
    simp only [Outcome.returned.injEq] at h
    subst h
    exact ⟨le_refl _, rfl, Or.inl rfl⟩
  by_cases h7 : st.argv.getD st.i "" = "-ncpus"
  · rw [parse_step_ncpus lc st h7] at h
    simp only [Outcome.bind_eq_returned] at h
    obtain ⟨r, hr, _, _, h⟩ := h
    simp only [Outcome.returned.injEq] at h
    subst h
    have hr1 := (getIntOpt_spec lc st.argv st.i _ r hr).1
    exact ⟨by simp only []; omega, rfl, Or.inl rfl⟩
  by_cases h8 : st.argv.getD st.i "" = "-lobin"
  · rw [parse_step_lobin lc st h8] at h
    simp only [Outcome.bind_eq_returned] at h
    obtain ⟨r, hr, _, _, h⟩ := h
    simp only [Outcome.returned.injEq] at h
    subst h
    have hr1 := (getIntOpt_spec lc st.argv st.i _ r hr).1
    exact ⟨by simp only []; omega, rfl, Or.inl rfl⟩
  by_cases h9 : st.argv.getD st.i "" = "-numharm"
  · rw [parse_step_numharm lc st h9] at h
    simp only [Outcome.bind_eq_returned] at h
    obtain ⟨r, hr, _, hlow, _, hhigh, h⟩ := h
    simp only [Outcome.returned.injEq] at h
    subst h
    have hr1 := (getIntOpt_spec lc st.argv st.i _ r hr).1
    have hc : (r.1 : Int) - (st.i : Int) = 1 := by rw [hr1]; push_cast; ring
    rw [hc] at hlow hhigh
    exact ⟨by simp only []; omega, rfl,
      Or.inr ⟨checkIntHigher_one _ _ _ _ hhigh, checkIntLower_one _ _ _ _ hlow⟩⟩
  by_cases h10 : st.argv.getD st.i "" = "-zmax"
  · rw [parse_step_zmax lc st h10] at h
    simp only [Outcome.bind_eq_returned] at h
    obtain ⟨r, hr, _, _, _, _, h⟩ := h
    simp only [Outcome.returned.injEq] at h
    subst h
    have hr1 := (getIntOpt_spec lc st.argv st.i _ r hr).1
    exact ⟨by simp only []; omega, rfl, Or.inl rfl⟩
  by_cases h11 : st.argv.getD st.i "" = "-sigma"
  · rw [parse_step_sigma lc st h11] at h
    simp only [Outcome.bind_eq_returned] at h
    obtain ⟨r, hr, _, _, _, _, h⟩ := h
    simp only [Outcome.returned.injEq] at h
    subst h
    have hr1 := (getFloatOpt_spec lc st.argv st.i _ r hr)
    exact ⟨by simp only []; omega, rfl, Or.inl rfl⟩
  by_cases h12 : st.argv.getD st.i "" = "-rlo"
  · rw [parse_step_rlo lc st h12] at h
    simp only [Outcome.bind_eq_returned] at h
    obtain ⟨r, hr, _, _, h⟩ := h
    simp only [Outcome.returned.injEq] at h
    subst h
    have hr1 := (getDoubleOpt_spec lc st.argv st.i _ r hr)
    exact ⟨by simp only []; omega, rfl, Or.inl rfl⟩
  by_cases h13 : st.argv.getD st.i "" = "-rhi"
  · rw [parse_step_rhi lc st h13] at h
    simp only [Outcome.bind_eq_returned] at h
    obtain ⟨r, hr, _, _, h⟩ := h
    simp only [Outcome.returned.injEq] at h
    subst h
    have hr1 := (getDoubleOpt_spec lc st.argv st.i _ r hr)
    exact ⟨by simp only []; omega, rfl, Or.inl rfl⟩
  by_cases h14 : st.argv.getD st.i "" = "-flo"
  · rw [parse_step_flo lc st h14] at h
    simp only [Outcome.bind_eq_returned] at h
    obtain ⟨r, hr, _, _, h⟩ := h
    simp only [Outcome.returned.injEq] at h
    subst h
    have hr1 := (getDoubleOpt_spec lc st.argv st.i _ r hr)
    exact ⟨by simp only []; omega, rfl, Or.inl rfl⟩
  by_cases h15 : st.argv.getD st.i "" = "-fhi"
  · rw [parse_step_fhi lc st h15] at h
    simp only [Outcome.bind_eq_returned] at h
    obtain ⟨r, hr, _, _, h⟩ := h
    simp only [Outcome.returned.injEq] at h
    subst h
    have hr1 := (getDoubleOpt_spec lc st.argv st.i _ r hr)
    exact ⟨by simp only []; omega, rfl, Or.inl rfl⟩
  by_cases h16 : st.argv.getD st.i "" = "-inmem"
  · rw [parse_step_inmem lc st h16] at h
    simp only [Outcome.returned.injEq] at h
    subst h
    exact ⟨le_refl _, rfl, Or.inl rfl⟩
  by_cases h17 : st.argv.getD st.i "" = "-photon"
  · rw [parse_step_photon lc st h17] at h
    simp only [Outcome.returned.injEq] at h
    subst h
    exact ⟨le_refl _, rfl, Or.inl rfl⟩
  by_cases h18 : st.argv.getD st.i "" = "-median"
  · rw [parse_step_median lc st h18] at h
    simp only [Outcome.returned.injEq] at h
    subst h
    exact ⟨le_refl _, rfl, Or.inl rfl⟩
  by_cases h19 : st.argv.getD st.i "" = "-locpow"
  · rw [parse_step_locpow lc st h19] at h
    simp only [Outcome.returned.injEq] at h
    subst h
    exact ⟨le_refl _, rfl, Or.inl rfl⟩
  by_cases h20 : st.argv.getD st.i "" = "-zaplist"
  · rw [parse_step_zaplist lc st h20] at h
    simp only [Outcome.bind_eq_returned] at h
    obtain ⟨r, hr, h⟩ := h
    simp only [Outcome.returned.injEq] at h
    subst h
    have hr1 := (getStringOpt_spec st.argv st.i _ r hr)
    exact ⟨by simp only []; omega, rfl, Or.inl rfl⟩
  by_cases h21 : st.argv.getD st.i "" = "-baryv"
  · rw [parse_step_baryv lc st h21] at h
    simp only [Outcome.bind_eq_returned] at h
    obtain ⟨r, hr, _, _, _, _, h⟩ := h
    simp only [Outcome.returned.injEq] at h
    subst h
    have hr1 := (getDoubleOpt_spec lc st.argv st.i _ r hr)
    exact ⟨by simp only []; omega, rfl, Or.inl rfl⟩
  by_cases h22 : st.argv.getD st.i "" = "-otheropt"
  · rw [parse_step_otheropt lc st h22] at h
    simp only [Outcome.returned.injEq] at h
    subst h
    exact ⟨le_refl _, rfl, Or.inl rfl⟩
  by_cases h23 : st.argv.getD st.i "" = "-noharmpolish"
  · rw [parse_step_noharmpolish lc st h23] at h
    simp only [Outcome.returned.injEq] at h
    subst h
    exact ⟨le_refl _, rfl, Or.inl rfl⟩
  by_cases h24 : st.argv.getD st.i "" = "-noharmremove"
  · rw [parse_step_noharmremove lc st h24] at h
    simp only [Outcome.returned.injEq] at h
    subst h
    exact ⟨le_refl _, rfl, Or.inl rfl⟩
  rw [parse_step_other lc st h0 h1 h2 h3 h4 h5 h6 h7 h8 h9 h10 h11 h12 h13 h14 h15 h16 h17 h18 h19 h20 h21 h22 h23 h24] at h
  split_ifs at h
  simp only [Outcome.returned.injEq] at h
  subst h
  exact ⟨le_refl _, List.length_set _ _ _, Or.inl rfl⟩

/-- The loop of `parseCmdline` is given enough iterations: when it returns, the index
has passed the end of the command line, `argv` has kept its length, and `cmd.numharm`
is the initial one or a value from 1 to 16. -/
theorem parse_loop_inv (lc : Libc) :
    ∀ (fuel : Nat) (st st1 : ParseState),
      st.argv.length ≤ fuel + st.i →
      parse_loop lc fuel st = Outcome.returned st1 →
      st1.argv.length ≤ st1.i ∧ st1.argv.length = st.argv.length ∧
        (st1.cmd.numharm = st.cmd.numharm ∨ (1 ≤ st1.cmd.numharm ∧ st1.cmd.numharm ≤ 16)) := by
  intro fuel
  induction fuel with
  | zero =>
    intro st st1 hfuel h
    simp only [parse_loop, Outcome.returned.injEq] at h
    subst h
    exact ⟨by omega, rfl, Or.inl rfl⟩
  | succ n ih =>
    intro st st1 hfuel h
    simp only [parse_loop] at h
    split_ifs at h with hlt
    · rw [Outcome.bind_eq_returned] at h
      obtain ⟨st2, hstep, hrest⟩ := h
      obtain ⟨hi2, hlen2, hnum2⟩ := parse_step_inv lc st st2 hlt hstep
      obtain ⟨hdone, hlen, hnum⟩ := ih { st2 with i := st2.i + 1 } st1
        (by simp only []; omega) hrest
      refine ⟨hdone, hlen.trans hlen2, ?_⟩
      rcases hnum with hn | hn
      · rcases hnum2 with hm | hm
        · exact Or.inl (hn.trans hm)
        · exact Or.inr (by rw [hn]; exact hm)
      · exact Or.inr hn
    · simp only [Outcome.returned.injEq] at h
      subst h
      exact ⟨by omega, rfl, Or.inl rfl⟩

/-- A token that does not begin with `-` is different from every token that does. -/
theorem ne_of_first_char_ne (s t : String) (h : s.get 0 ≠ '-') (ht : t.get 0 = '-') : s ≠ t :=
  fun e => h (e ▸ ht)

/-- The loop body at a token that does not begin with `-`: the token is a non-option
argument and is stored at `argv[cmd.argc++]`. -/
theorem parse_step_nonoption (lc : Libc) (st : ParseState)
    (h : (st.argv.getD st.i "").get 0 ≠ '-') :
    parse_step lc st =
      Outcome.returned
        { st with
          cmd := { st.cmd with argc := st.cmd.argc + 1 }
          argv := st.argv.set st.cmd.argc.toNat (st.argv.getD st.i "") } := by
  rw [parse_step_other lc st
      (ne_of_first_char_ne _ "--" h rfl)
      (ne_of_first_char_ne _ "-gpu" h rfl)
      (ne_of_first_char_ne _ "-nsteps" h rfl)
      (ne_of_first_char_ne _ "-nbatch" h rfl)
      (ne_of_first_char_ne _ "-width" h rfl)
      (ne_of_first_char_ne _ "-lsgpu" h rfl)
      (ne_of_first_char_ne _ "-cpu" h rfl)
      (ne_of_first_char_ne _ "-ncpus" h rfl)
      (ne_of_first_char_ne _ "-lobin" h rfl)
      (ne_of_first_char_ne _ "-numharm" h rfl)
      (ne_of_first_char_ne _ "-zmax" h rfl)
      (ne_of_first_char_ne _ "-sigma" h rfl)
      (ne_of_first_char_ne _ "-rlo" h rfl)
      (ne_of_first_char_ne _ "-rhi" h rfl)
      (ne_of_first_char_ne _ "-flo" h rfl)
      (ne_of_first_char_ne _ "-fhi" h rfl)
      (ne_of_first_char_ne _ "-inmem" h rfl)
      (ne_of_first_char_ne _ "-photon" h rfl)
      (ne_of_first_char_ne _ "-median" h rfl)
      (ne_of_first_char_ne _ "-locpow" h rfl)
      (ne_of_first_char_ne _ "-zaplist" h rfl)
      (ne_of_first_char_ne _ "-baryv" h rfl)
      (ne_of_first_char_ne _ "-otheropt" h rfl)
      (ne_of_first_char_ne _ "-noharmpolish" h rfl)
      (ne_of_first_char_ne _ "-noharmremove" h rfl),
    if_neg h]

/-! ## Theorems: the ranges of the integer options -/

/-- After option `argv[i]`, a token of integer form without range error: `getIntOpt`
returns its value when it fits an `int` and exits otherwise. -/
theorem getIntOpt_of_int (lc : Libc) (argv : List String) (i : Nat) (value : Int)
    (hnext : i + 1 < argv.length) (hwf : converts lc (argv.getD (i + 1) "") = true)
    (hnr : (lc.strtol (argv.getD (i + 1) "")).erange = false) :
    getIntOpt lc argv i value 1 =
      if INT_MIN ≤ (lc.strtol (argv.getD (i + 1) "")).value ∧
          (lc.strtol (argv.getD (i + 1) "")).value ≤ INT_MAX then
        Outcome.returned (i + 1, (lc.strtol (argv.getD (i + 1) "")).value)
      else Outcome.exit_failure := by
  unfold converts at hwf
  rw [Bool.and_eq_true] at hwf
  unfold getIntOpt
  simp only [hwf.1, hwf.2, hnr, not_le.mpr hnext, ge_iff_le, if_false, Bool.true_eq_false,
    Bool.false_eq_true, false_or, gt_iff_lt]
  by_cases h : INT_MIN ≤ (lc.strtol (argv.getD (i + 1) "")).value ∧
      (lc.strtol (argv.getD (i + 1) "")).value ≤ INT_MAX
  · rw [if_pos h, if_neg]
    rw [not_or, not_lt, not_lt]
    exact ⟨h.2, h.1⟩
  · rw [if_neg h, if_pos]
    rw [not_and_or, not_le, not_le] at h
    exact h.symm

/-- The function `checkIntLower` on a single value. -/
theorem checkIntLower_one_eq (opt : String) (v max : Int) :
    checkIntLower opt [v] 1 max =
      if v ≤ max then Outcome.returned () else Outcome.exit_failure := by
  unfold checkIntLower
  by_cases h : v ≤ max <;> simp [h]

/-- The function `checkIntHigher` on a single value. -/
theorem checkIntHigher_one_eq (opt : String) (v min : Int) :
    checkIntHigher opt [v] 1 min =
      if min ≤ v then Outcome.returned () else Outcome.exit_failure := by
  unfold checkIntHigher
  by_cases h : min ≤ v <;> simp [h]

/-- Checking the entries `0 .. n-1` of an array of `n` entries is checking every entry. -/
theorem all_range_getD (vals : List Int) (P : Int → Bool) :
    (List.range vals.length).all (fun k => P (vals.getD k 0)) = vals.all P := by
  rw [Bool.eq_iff_iff, List.all_eq_true, List.all_eq_true]
  constructor
  · intro h v hv
    obtain ⟨k, hk, rfl⟩ := List.getElem_of_mem hv
    have := h k (List.mem_range.mpr hk)
    rwa [List.getD_eq_getElem _ _ hk] at this
  · intro h k hk
    have hk2 := List.mem_range.mp hk
    rw [List.getD_eq_getElem _ _ hk2]
    exact h _ (List.getElem_mem _)

/-- The function `checkIntLower` on all the values of an array. -/
theorem checkIntLower_all_eq (opt : String) (vals : List Int) (max : Int) :
    checkIntLower opt vals (vals.length : Int) max =
      if ∀ v ∈ vals, v ≤ max then Outcome.returned () else Outcome.exit_failure := by
  unfold checkIntLower
  rw [Int.toNat_ofNat, all_range_getD vals (fun v => decide (v ≤ max))]
  by_cases h : ∀ v ∈ vals, v ≤ max
  · rw [if_pos h, if_pos]
    rw [List.all_eq_true]
    exact fun v hv => decide_eq_true (h v hv)
  · rw [if_neg h, if_neg]
    rw [List.all_eq_true]
    exact fun hall => h (fun v hv => of_decide_eq_true (hall v hv))

/-- The function `checkIntHigher` on all the values of an array. -/
theorem checkIntHigher_all_eq (opt : String) (vals : List Int) (min : Int) :
    checkIntHigher opt vals (vals.length : Int) min =
      if ∀ v ∈ vals, min ≤ v then Outcome.returned () else Outcome.exit_failure := by
  unfold checkIntHigher
  rw [Int.toNat_ofNat, all_range_getD vals (fun v => decide (v ≥ min))]
  by_cases h : ∀ v ∈ vals, min ≤ v
  · rw [if_pos h, if_pos]
    rw [List.all_eq_true]
    exact fun v hv => decide_eq_true (h v hv)
  · rw [if_neg h, if_neg]
    rw [List.all_eq_true]
    exact fun hall => h (fun v hv => of_decide_eq_true (hall v hv))

/-- An option with one integer and both range checks: after a token of integer form
without range error, the rest of the branch runs on the value when it lies in the closed
range, and the program exits otherwise. -/
theorem int_option_chain {β : Type} (lc : Libc) (argv : List String) (i : Nat) (value : Int)
    (opt : String) (lo hi : Int) (f : Nat × Int → Outcome β)
    (hnext : i + 1 < argv.length) (hwf : converts lc (argv.getD (i + 1) "") = true)
    (hnr : (lc.strtol (argv.getD (i + 1) "")).erange = false)
    (hlo : INT_MIN ≤ lo) (hhi : hi ≤ INT_MAX) :
    ((getIntOpt lc argv i value 1).bind fun r =>
      (checkIntLower opt [r.2] ((r.1 : Int) - (i : Int)) hi).bind fun _ =>
      (checkIntHigher opt [r.2] ((r.1 : Int) - (i : Int)) lo).bind fun _ => f r) =
      if lo ≤ (lc.strtol (argv.getD (i + 1) "")).value ∧
          (lc.strtol (argv.getD (i + 1) "")).value ≤ hi then
        f (i + 1, (lc.strtol (argv.getD (i + 1) "")).value)
      else Outcome.exit_failure := by
  rw [getIntOpt_of_int lc argv i value hnext hwf hnr]
  have hc : (((i + 1 : Nat) : Int) - (i : Int)) = 1 := by push_cast; ring
  by_cases hin : INT_MIN ≤ (lc.strtol (argv.getD (i + 1) "")).value ∧
      (lc.strtol (argv.getD (i + 1) "")).value ≤ INT_MAX
  · rw [if_pos hin, Outcome.bind_returned]
    simp only [hc, checkIntLower_one_eq, checkIntHigher_one_eq]
    by_cases h1 : (lc.strtol (argv.getD (i + 1) "")).value ≤ hi
    · by_cases h2 : lo ≤ (lc.strtol (argv.getD (i + 1) "")).value
      · simp only [h1, h2, if_true, and_self, Outcome.bind_returned]
      · simp only [h1, h2, if_true, if_false, false_and, Outcome.bind_returned,
          Outcome.bind_exit]
    · simp only [h1, if_false, and_false, Outcome.bind_exit]
  · rw [if_neg hin, if_neg, Outcome.bind_exit]
    intro h
    exact hin ⟨le_trans hlo h.1, le_trans h.2 hhi⟩

/-- An option with a list of integers and both range checks: the rest of the branch runs
on the values read when every one of them lies in the closed range, and the program
exits otherwise. -/
theorem int_list_chain {β : Type} (lc : Libc) (argv : List String) (i : Nat)
    (opt : String) (lo hi : Int) (f : Nat × List Int → Outcome β) (r : Nat × List Int)
    (hget : getIntOpts lc argv i 0 32 = Outcome.returned r) :
    ((getIntOpts lc argv i 0 32).bind fun r =>
      (checkIntLower opt r.2 ((r.1 : Int) - (i : Int)) hi).bind fun _ =>
      (checkIntHigher opt r.2 ((r.1 : Int) - (i : Int)) lo).bind fun _ => f r) =
      if ∀ v ∈ r.2, lo ≤ v ∧ v ≤ hi then f r else Outcome.exit_failure := by
  obtain ⟨used, hu, _, _, hlen, _⟩ := getIntOpts_spec lc argv i 0 32 r.1 r.2 (by decide) hget
  have hc : ((r.1 : Int) - (i : Int)) = (r.2.length : Int) := by rw [hu, hlen]; push_cast; ring
  rw [hget, Outcome.bind_returned]
  simp only [hc, checkIntLower_all_eq, checkIntHigher_all_eq]
  by_cases h1 : ∀ v ∈ r.2, v ≤ hi
  · by_cases h2 : ∀ v ∈ r.2, lo ≤ v
    · rw [if_pos h1, if_pos h2,
        if_pos (show ∀ v ∈ r.2, lo ≤ v ∧ v ≤ hi from fun v hv => ⟨h2 v hv, h1 v hv⟩)]
      rfl
    · rw [if_pos h1, if_neg h2,
        if_neg (show ¬ ∀ v ∈ r.2, lo ≤ v ∧ v ≤ hi from fun h => h2 (fun v hv => (h v hv).1))]
      rfl
  · rw [if_neg h1,
      if_neg (show ¬ ∀ v ∈ r.2, lo ≤ v ∧ v ≤ hi from fun h => h1 (fun v hv => (h v hv).2))]
    rfl

/-- The count of integer tokens is the only number of tokens for which every counted
token is an integer on the command line and the count stopped at the limit, at the end
of the command line, or at a token that is not an integer. -/
theorem count_ints_eq (lc : Libc) (argv : List String) :
    ∀ (limit j used : Nat), used ≤ limit →
      (∀ k < used, j + k < argv.length ∧ converts lc (argv.getD (j + k) "") = true) →
      (used = limit ∨ argv.length ≤ j + used ∨
        converts lc (argv.getD (j + used) "") = false) →
      count_ints lc argv j limit = used := by
  intro limit
  induction limit with
  | zero =>
    intro j used hle _ _
    have h0 : used = 0 := by omega
    rw [h0]
    rfl
  | succ n ih =>
    intro j used hle hpre hstop
    cases used with
    | zero =>
      have hcond : ¬ (j < argv.length ∧ converts lc (argv.getD j "") = true) := by
        rintro ⟨h1, h2⟩
        rcases hstop with h | h | h
        · omega
        · omega
        · rw [Nat.add_zero, h2] at h
          exact absurd h (by decide)
      simp only [count_ints, hcond, if_false]
    | succ u =>
      have h0 := hpre 0 (Nat.succ_pos u)
      rw [Nat.add_zero] at h0
      simp only [count_ints, h0, and_self, if_true, Nat.add_right_cancel_iff]
      apply ih (j + 1) u (by omega)
      · intro k hk
        have := hpre (k + 1) (by omega)
        rw [show j + (k + 1) = j + 1 + k by omega] at this
        exact this
      · rcases hstop with h | h | h
        · exact Or.inl (by omega)
        · exact Or.inr (Or.inl (by omega))
        · rw [show j + (u + 1) = j + 1 + u by omega] at h
          exact Or.inr (Or.inr h)

/-- The count of integer tokens reads only the tokens from position `j` on. -/
theorem count_ints_congr (lc : Libc) (argv argv0 : List String)
    (hlen : argv.length = argv0.length) :
    ∀ (limit j : Nat), (∀ k, j ≤ k → argv.getD k "" = argv0.getD k "") →
      count_ints lc argv j limit = count_ints lc argv0 j limit := by
  intro limit
  induction limit with
  | zero => intro j _; rfl
  | succ n ih =>
    intro j hsame
    simp only [count_ints, hlen, hsame j (le_refl j)]
    rw [ih (j + 1) (fun k hk => hsame k (by omega))]

/-- The loop of `getIntOpts` counts tokens of the command line only: a positive count
ends before the end of `argv`. -/
theorem getIntOpts_loop_in_range (lc : Libc) (argv : List String) (i : Nat) (cmax : Int) :
    ∀ (fuel used : Nat) (values : List Int) (u : Nat) (vs : List Int),
      (used = 0 ∨ used + i < argv.length) →
      getIntOpts_loop lc argv i cmax fuel used values = Outcome.returned (u, vs) →
      (u = 0 ∨ u + i < argv.length) := by
  intro fuel
  induction fuel with
  | zero =>
    intro used values u vs hinv h
    simp only [getIntOpts_loop, Outcome.returned.injEq, Prod.mk.injEq] at h
    obtain ⟨rfl, rfl⟩ := h
    exact hinv
  | succ n ih =>
    intro used values u vs hinv h
    simp only [getIntOpts_loop] at h
    split_ifs at h with hguard hconv hclean hrange
    · simp only [Outcome.returned.injEq, Prod.mk.injEq] at h
      obtain ⟨rfl, rfl⟩ := h
      exact hinv
    · simp only [Outcome.returned.injEq, Prod.mk.injEq] at h
      obtain ⟨rfl, rfl⟩ := h
      exact hinv
    · exact ih (used + 1) _ u vs (Or.inr (by omega)) h
    · simp only [Outcome.returned.injEq, Prod.mk.injEq] at h
      obtain ⟨rfl, rfl⟩ := h
      exact hinv

/-- A list option takes as many tokens as there are integer tokens after it, at most
32: `getIntOpts` returns the index of the last of them. -/
theorem getIntOpts_index (lc : Libc) (argv : List String) (i : Nat) (r : Nat × List Int)
    (h : getIntOpts lc argv i 0 32 = Outcome.returned r) :
    r.1 = i + count_ints lc argv (i + 1) 32 := by
  obtain ⟨used, hu, _, hmax, _, hk, hstop, _⟩ :=
    getIntOpts_spec lc argv i 0 32 r.1 r.2 (by decide) h
  have hrange : used = 0 ∨ used + i < argv.length := by
    unfold getIntOpts at h
    split_ifs at h with hargc
    rw [Outcome.bind_eq_returned] at h
    obtain ⟨res, hloop, hret⟩ := h
    split_ifs at hret with hmin
    simp only [Outcome.returned.injEq] at hret
    have h1 : r.1 = i + res.1 := by rw [← hret]
    have hres : res.1 = used := by omega
    have := getIntOpts_loop_in_range lc argv i 32 argv.length 0 [] res.1 res.2 (Or.inl rfl)
      hloop
    rwa [hres] at this
  have hle : used ≤ 32 := by
    have := hmax (by decide)
    omega
  rw [hu, count_ints_eq lc argv 32 (i + 1) used hle ?_ ?_]
  · intro k hk'
    refine ⟨by omega, ?_⟩
    have := (hk k hk').1
    simp only [int_token, Bool.and_eq_true] at this
    exact this.1.1.1
  · rcases hstop with ⟨_, h32⟩ | hl | hc
    · exact Or.inl (by exact_mod_cast h32)
    · exact Or.inr (Or.inl hl)
    · exact Or.inr (Or.inr hc)

/-! ## Theorems: non-option arguments and defaults -/

/-- One iteration of the loop of `parseCmdline` whose body returns. -/
theorem parse_loop_step (lc : Libc) (n : Nat) (st st1 : ParseState)
    (hlt : st.i < st.argv.length) (h : parse_step lc st = Outcome.returned st1) :
    parse_loop lc (n + 1) st = parse_loop lc n { st1 with i := st1.i + 1 } := by
  simp only [parse_loop, hlt, if_true, h, Outcome.bind_returned]

/-- The loop of `parseCmdline` ends when the index has reached `argc`. -/
theorem parse_loop_done (lc : Libc) (n : Nat) (st : ParseState)
    (hge : ¬ st.i < st.argv.length) : parse_loop lc n st = Outcome.returned st := by
  cases n with
  | zero => rfl
  | succ m => simp only [parse_loop, hge, if_false]

/-- C15: for a command line of the program name and one input file name (a token that
does not start with a dash), `parseCmdline` returns the static defaults: nsteps 4,
nbatch 2, width 8, ncpus 1, lobin 0, numharm 8, zmax 200, sigma 2.0, flo 1.0,
fhi 10000.0, baryv 0.0, rlo, rhi and zaplist not given, every switch off, and the file
name as the only argument. -/
theorem C15_defaults (lc : Libc) (prog infile : String) (h : infile.get 0 ≠ '-') :
    ∃ c, parseCmdline lc cmd [prog, infile] = Outcome.returned c ∧
      c.nsteps = [4] ∧ c.nbatch = [2] ∧ c.width = 8 ∧ c.ncpus = 1 ∧ c.lobin = 0 ∧
      c.numharm = 8 ∧ c.zmax = 200 ∧ c.sigma = 2 ∧ c.flo = 1 ∧ c.fhi = 10000 ∧
      c.baryv = 0 ∧ c.rloP = 0 ∧ c.rhiP = 0 ∧ c.zaplistP = 0 ∧ c.zaplist = none ∧
      c.lsgpuP = 0 ∧ c.cpuP = 0 ∧ c.inmemP = 0 ∧ c.photonP = 0 ∧ c.medianP = 0 ∧
      c.locpowP = 0 ∧ c.otheroptP = 0 ∧ c.noharmpolishP = 0 ∧ c.noharmremoveP = 0 ∧
      c.argc = 1 ∧ c.argv = [infile] ∧
      c = { cmd with full_cmd_line := some (" ".intercalate [prog, infile]), argc := 1,
                     argv := [infile] } := by
  have e1 : parse_loop lc 2 (parse_init cmd [prog, infile]) = parse_loop lc 1 _ :=
    parse_loop_step lc 1 (parse_init cmd [prog, infile]) _ (show (1 : Nat) < 2 from by decide)
      (parse_step_nonoption lc (parse_init cmd [prog, infile]) h)
  have hp : parseCmdline lc cmd [prog, infile] = Outcome.returned
      { cmd with full_cmd_line := some (" ".intercalate [prog, infile]), argc := 1,
                 argv := [infile] } := by
    show (parse_loop lc 2 (parse_init cmd [prog, infile])).bind _ = _
    rw [e1]
    rfl
  refine ⟨_, hp, rfl, rfl, rfl, rfl, rfl, rfl, rfl, ?_, ?_, ?_, ?_, rfl, rfl, rfl, rfl, rfl, rfl,
    rfl, rfl, rfl, rfl, rfl, rfl, rfl, rfl, rfl, rfl⟩ <;> norm_num [cmd]

/-- C15 at a concrete input: `accelsearch in.fft` returns with the default harmonic count,
maximum f-dot and kernel width. -/
theorem C15_defaults_witness :
    ("in.fft" : String).get 0 ≠ '-' ∧
    ∃ c, parseCmdline sampleLibc cmd ["accelsearch", "in.fft"] = Outcome.returned c ∧
      c.numharm = 8 ∧ c.zmax = 200 ∧ c.width = 8 ∧ c.argv = ["in.fft"] :=
  ⟨by decide,
    (C15_defaults sampleLibc "accelsearch" "in.fft" (by decide)).elim fun c hc =>
      ⟨c, hc.1, hc.2.2.2.2.2.2.1, hc.2.2.2.2.2.2.2.1, hc.2.2.2.1,
        hc.2.2.2.2.2.2.2.2.2.2.2.2.2.2.2.2.2.2.2.2.2.2.2.2.2.2.1⟩⟩

/-! ## Theorems: the values the integer options accept -/

/-- A list option whose first value is a well-formed integer outside `lo .. hi` ends the
program: `getIntOpts` reads at least that value and one of the two range checks exits. -/
theorem int_list_first_rejected {β : Type} (lc : Libc) (argv : List String) (i : Nat)
    (opt : String) (lo hi : Int) (f : Nat × List Int → Outcome β)
    (hnext : i + 1 < argv.length) (htok : int_token lc (argv.getD (i + 1) "") = true)
    (hv : ¬ (lo ≤ (lc.strtol (argv.getD (i + 1) "")).value ∧
      (lc.strtol (argv.getD (i + 1) "")).value ≤ hi)) :
    ((getIntOpts lc argv i 0 32).bind fun r =>
      (checkIntLower opt r.2 ((r.1 : Int) - (i : Int)) hi).bind fun _ =>
      (checkIntHigher opt r.2 ((r.1 : Int) - (i : Int)) lo).bind fun _ => f r) =
      Outcome.exit_failure := by
  have key : ∀ o, getIntOpts lc argv i 0 32 = o →
      ((getIntOpts lc argv i 0 32).bind fun r =>
        (checkIntLower opt r.2 ((r.1 : Int) - (i : Int)) hi).bind fun _ =>
        (checkIntHigher opt r.2 ((r.1 : Int) - (i : Int)) lo).bind fun _ => f r) =
        Outcome.exit_failure := by
    intro o ho
    cases o with
    | exit_failure => rw [ho]; rfl
    | returned r =>
      rw [int_list_chain lc argv i opt lo hi f r ho, if_neg]
      intro hall
      obtain ⟨used, _, _, _, hlen, hk, hstop, _⟩ :=
        getIntOpts_spec lc argv i 0 32 r.1 r.2 (by decide) ho
      have hconv : converts lc (argv.getD (i + 1) "") = true := by
        simp only [int_token, Bool.and_eq_true] at htok
        exact htok.1.1.1
      have hpos : 0 < used := by
        rcases Nat.eq_zero_or_pos used with h0 | h0
        · subst h0
          rcases hstop with ⟨_, h32⟩ | hl | hc
          · exact absurd h32 (by decide)
          · omega
          · rw [Nat.add_zero, hconv] at hc
            exact absurd hc (by decide)
        · exact h0
      have hval := (hk 0 hpos).2
      rw [Nat.add_zero] at hval
      have hmem : r.2.getD 0 0 ∈ r.2 := by
        cases hr : r.2 with
        | nil =>
          rw [hr] at hlen
          simp only [List.length_nil] at hlen
          omega
        | cons x xs => exact List.mem_cons_self x xs
      rw [hval] at hmem
      exact hv (hall _ hmem)
  exact key _ rfl

/-- C16, counterexample: `accelsearch -numharm 3 in.fft` is accepted and stores the
harmonic count 3, which is not a power of two. -/
theorem C16_counterexample :
    parseCmdline sampleLibc cmd ["accelsearch", "-numharm", "3", "in.fft"] =
      Outcome.returned
        { cmd with
          numharmP := 1, numharm := 3, numharmC := 1
          full_cmd_line := some "accelsearch -numharm 3 in.fft"
          argc := 1, argv := ["in.fft", "3", "in.fft"] } ∧
    (3 : Int) ∉ [1, 2, 4, 8, 16] :=
  ⟨rfl, by decide⟩

/-- C16, amended: every harmonic count with which `parseCmdline` returns lies between
1 and 16, and the loop body at `-numharm` stores every well-formed value between 1 and 16
(not only the powers of two). -/
theorem C16_numharm_range (lc : Libc) (argv : List String) (c : Cmdline) (st : ParseState) :
    (parseCmdline lc cmd argv = Outcome.returned c → 1 ≤ c.numharm ∧ c.numharm ≤ 16) ∧
    (st.argv.getD st.i "" = "-numharm" → st.i + 1 < st.argv.length →
      converts lc (st.argv.getD (st.i + 1) "") = true →
      (lc.strtol (st.argv.getD (st.i + 1) "")).erange = false →
      1 ≤ (lc.strtol (st.argv.getD (st.i + 1) "")).value →
      (lc.strtol (st.argv.getD (st.i + 1) "")).value ≤ 16 →
      parse_step lc st =
        Outcome.returned
          { st with
            cmd := { st.cmd with
              numharmP := 1, numharm := (lc.strtol (st.argv.getD (st.i + 1) "")).value, numharmC := 1 }
            i := st.i + 1 }) := by
  constructor
  · intro h
    unfold parseCmdline at h
    rw [Outcome.bind_eq_returned] at h
    obtain ⟨st1, hloop, hfin⟩ := h
    simp only [] at hfin
    split_ifs at hfin with h1 h2
    simp only [Outcome.returned.injEq] at hfin
    subst hfin
    have hinv := (parse_loop_inv lc argv.length (parse_init cmd argv) st1
      (Nat.le_add_right _ _) hloop).2.2
    show 1 ≤ st1.cmd.numharm ∧ st1.cmd.numharm ≤ 16
    rcases hinv with he | hr
    · have h8 : (parse_init cmd argv).cmd.numharm = 8 := rfl
      rw [he, h8]
      decide
    · exact hr
  · intro htok hnext hwf hnr hlo hhi
    have hc : (((st.i + 1 : Nat) : Int) - (st.i : Int)) = 1 := by push_cast; ring
    rw [parse_step_numharm lc st htok,
      int_option_chain lc st.argv st.i st.cmd.numharm "-numharm" 1 16 _ hnext hwf hnr
        (by decide) (by decide), if_pos ⟨hlo, hhi⟩]
    simp only [hc]

/-- C16 at a concrete input: the harmonic count of `accelsearch -numharm 3 in.fft` lies
between 1 and 16. -/
theorem C16_numharm_range_witness :
    parseCmdline sampleLibc cmd ["accelsearch", "-numharm", "3", "in.fft"] =
      Outcome.returned
        { cmd with
          numharmP := 1, numharm := 3, numharmC := 1
          full_cmd_line := some "accelsearch -numharm 3 in.fft"
          argc := 1, argv := ["in.fft", "3", "in.fft"] } ∧
    (1 : Int) ≤ 3 ∧ (3 : Int) ≤ 16 :=
  ⟨rfl,
    (C16_numharm_range sampleLibc ["accelsearch", "-numharm", "3", "in.fft"]
      { cmd with
        numharmP := 1, numharm := 3, numharmC := 1
        full_cmd_line := some "accelsearch -numharm 3 in.fft"
        argc := 1, argv := ["in.fft", "3", "in.fft"] }
      (parse_init cmd [])).1 rfl⟩

/-- C17, counterexample: `accelsearch -nbatch 0 in.fft` and `accelsearch -nsteps 0 in.fft`
end the program with failure; the value 0 is not recorded. -/
theorem C17_counterexample :
    parseCmdline sampleLibc cmd ["accelsearch", "-nbatch", "0", "in.fft"] =
      Outcome.exit_failure ∧
    parseCmdline sampleLibc cmd ["accelsearch", "-nsteps", "0", "in.fft"] =
      Outcome.exit_failure ∧
    int_token sampleLibc "0" = true ∧ (sampleLibc.strtol "0").value = 0 :=
  ⟨rfl, rfl, rfl, rfl⟩

/-- C17, amended: the loop body at `-nbatch` and at `-nsteps` ends the program with
failure when the first value of the list is the integer 0 (the lower bound of both
options is 1). -/
theorem C17_zero_rejected (lc : Libc) (st : ParseState)
    (hnext : st.i + 1 < st.argv.length)
    (htok : int_token lc (st.argv.getD (st.i + 1) "") = true)
    (hzero : (lc.strtol (st.argv.getD (st.i + 1) "")).value = 0) :
    (st.argv.getD st.i "" = "-nbatch" → parse_step lc st = Outcome.exit_failure) ∧
    (st.argv.getD st.i "" = "-nsteps" → parse_step lc st = Outcome.exit_failure) := by
  constructor
  · intro hopt
    rw [parse_step_nbatch lc st hopt]
    exact int_list_first_rejected lc st.argv st.i "-nbatch" 1 5 _ hnext htok
      (by rw [hzero]; decide)
  · intro hopt
    rw [parse_step_nsteps lc st hopt]
    exact int_list_first_rejected lc st.argv st.i "-nsteps" 1 8 _ hnext htok
      (by rw [hzero]; decide)

/-- C17 at a concrete input: the loop body at the option of
`accelsearch -nbatch 0 in.fft` exits. -/
theorem C17_zero_rejected_witness :
    ((parse_init cmd ["accelsearch", "-nbatch", "0", "in.fft"]).i + 1 <
        (parse_init cmd ["accelsearch", "-nbatch", "0", "in.fft"]).argv.length ∧
      int_token sampleLibc "0" = true ∧ (sampleLibc.strtol "0").value = 0) ∧
    parse_step sampleLibc (parse_init cmd ["accelsearch", "-nbatch", "0", "in.fft"]) =
      Outcome.exit_failure :=
  ⟨⟨by decide, rfl, rfl⟩,
    (C17_zero_rejected sampleLibc (parse_init cmd ["accelsearch", "-nbatch", "0", "in.fft"])
      (by decide) rfl rfl).1 rfl⟩

/-- C18, counterexample: `accelsearch -width 1 in.fft` ends the program with failure
although 1 is in the list, and `accelsearch -width 3 in.fft` is accepted with width 3
although 3 is not. -/
theorem C18_counterexample :
    parseCmdline sampleLibc cmd ["accelsearch", "-width", "1", "in.fft"] =
      Outcome.exit_failure ∧
    parseCmdline sampleLibc cmd ["accelsearch", "-width", "3", "in.fft"] =
      Outcome.returned
        { cmd with
          widthP := 1, width := 3, widthC := 1
          full_cmd_line := some "accelsearch -width 3 in.fft"
          argc := 1, argv := ["in.fft", "3", "in.fft"] } ∧
    (1 : Int) ∈ [1, 2, 4, 8, 16, 32] ∧ (3 : Int) ∉ [1, 2, 4, 8, 16, 32] :=
  ⟨rfl, rfl, by decide, by decide⟩

/-- C18, amended: the loop body at `-width`, followed by a well-formed integer, returns
if and only if the value lies between 2 and 32, and it then stores that value in
`cmd.width`; for any other value the program ends with failure. -/
theorem C18_width_range (lc : Libc) (st : ParseState)
    (hopt : st.argv.getD st.i "" = "-width") (hnext : st.i + 1 < st.argv.length)
    (hwf : converts lc (st.argv.getD (st.i + 1) "") = true)
    (hnr : (lc.strtol (st.argv.getD (st.i + 1) "")).erange = false) :
    ((∃ st1, parse_step lc st = Outcome.returned st1) ↔
      (2 ≤ (lc.strtol (st.argv.getD (st.i + 1) "")).value ∧
        (lc.strtol (st.argv.getD (st.i + 1) "")).value ≤ 32)) ∧
    (∀ st1, parse_step lc st = Outcome.returned st1 →
      st1.cmd.width = (lc.strtol (st.argv.getD (st.i + 1) "")).value ∧ st1.cmd.widthP = 1) ∧
    (¬ (2 ≤ (lc.strtol (st.argv.getD (st.i + 1) "")).value ∧
        (lc.strtol (st.argv.getD (st.i + 1) "")).value ≤ 32) →
      parse_step lc st = Outcome.exit_failure) := by
  have hstep := int_option_chain lc st.argv st.i st.cmd.width "-width" 2 32
    (fun r => Outcome.returned
      { st with
        cmd := { st.cmd with widthP := 1, width := r.2, widthC := (r.1 : Int) - (st.i : Int) }
        i := r.1 }) hnext hwf hnr (by decide) (by decide)
  rw [← parse_step_width lc st hopt] at hstep
  by_cases hr : 2 ≤ (lc.strtol (st.argv.getD (st.i + 1) "")).value ∧
      (lc.strtol (st.argv.getD (st.i + 1) "")).value ≤ 32
  · rw [if_pos hr] at hstep
    refine ⟨⟨fun _ => hr, fun _ => ⟨_, hstep⟩⟩, ?_, fun hn => absurd hr hn⟩
    intro st1 h1
    rw [hstep, Outcome.returned.injEq] at h1
    subst h1
    exact ⟨rfl, rfl⟩
  · rw [if_neg hr] at hstep
    refine ⟨⟨?_, fun h => absurd h hr⟩, ?_, fun _ => hstep⟩
    · rintro ⟨st1, h1⟩
      rw [hstep] at h1
      exact Outcome.noConfusion h1
    · intro st1 h1
      rw [hstep] at h1
      exact Outcome.noConfusion h1

/-- C18 at a concrete input: the loop body at the option of
`accelsearch -width 3 in.fft` stores the width 3. -/
theorem C18_width_range_witness :
    ((parse_init cmd ["accelsearch", "-width", "3", "in.fft"]).argv.getD
        (parse_init cmd ["accelsearch", "-width", "3", "in.fft"]).i "" = "-width" ∧
      (parse_init cmd ["accelsearch", "-width", "3", "in.fft"]).i + 1 <
        (parse_init cmd ["accelsearch", "-width", "3", "in.fft"]).argv.length ∧
      converts sampleLibc "3" = true ∧ (sampleLibc.strtol "3").erange = false) ∧
    ∃ st1, parse_step sampleLibc (parse_init cmd ["accelsearch", "-width", "3", "in.fft"]) =
      Outcome.returned st1 :=
  ⟨⟨rfl, by decide, rfl, rfl⟩,
    (C18_width_range sampleLibc (parse_init cmd ["accelsearch", "-width", "3", "in.fft"])
      rfl (by decide) rfl rfl).1.mpr ⟨by decide, by decide⟩⟩

/-! ## Theorems: the tokens after the end-of-options marker -/

/-- Reading a list after one entry has been overwritten. -/
theorem getD_set_eq (l : List String) (a b : Nat) (x : String) :
    (l.set a x).getD b "" =
      if a = b then (if a < l.length then x else "") else l.getD b "" := by
  simp only [List.getD_eq_getElem?_getD, List.getElem?_set]
  by_cases hab : a = b
  · subst hab
    by_cases hl : a < l.length
    · simp only [if_true, hl, Option.getD_some]
    · simp only [if_true, hl, if_false, Option.getD_none]
  · simp only [hab, if_false]

/-- The copying loop at `--` after `m` steps, started with `cmd.argc = n ≤ i + 1`: the
count is `n + m`, the vector keeps its length, entry `n + k` holds the token that was at
`i + 1 + k`, and the entries from `n + m` on are still the original ones. -/
theorem copy_rest_fold (argv : List String) (i n : Nat) (hn : n ≤ i + 1) (m : Nat) :
    ((List.range m).foldl
        (fun (acc : List String × Int) (k : Nat) =>
          (acc.1.set acc.2.toNat (acc.1.getD (i + 1 + k) ""), acc.2 + 1))
        (argv, (n : Int))).2 = ((n + m : Nat) : Int) ∧
    ((List.range m).foldl
        (fun (acc : List String × Int) (k : Nat) =>
          (acc.1.set acc.2.toNat (acc.1.getD (i + 1 + k) ""), acc.2 + 1))
        (argv, (n : Int))).1.length = argv.length ∧
    (∀ k < m, ((List.range m).foldl
        (fun (acc : List String × Int) (k : Nat) =>
          (acc.1.set acc.2.toNat (acc.1.getD (i + 1 + k) ""), acc.2 + 1))
        (argv, (n : Int))).1.getD (n + k) "" = argv.getD (i + 1 + k) "") ∧
    (∀ j, n + m ≤ j → ((List.range m).foldl
        (fun (acc : List String × Int) (k : Nat) =>
          (acc.1.set acc.2.toNat (acc.1.getD (i + 1 + k) ""), acc.2 + 1))
        (argv, (n : Int))).1.getD j "" = argv.getD j "") := by
  induction m with
  | zero =>
    refine ⟨rfl, rfl, fun k hk => absurd hk (Nat.not_lt_zero k), fun j _ => rfl⟩
  | succ m ih =>
    obtain ⟨h2, hlen, hcopied, hrest⟩ := ih
    rw [List.range_succ, List.foldl_append]
    simp only [List.foldl_cons, List.foldl_nil]
    rw [h2, Int.toNat_ofNat]
    refine ⟨by push_cast; ring, by rw [List.length_set, hlen], ?_, ?_⟩
    · intro k hk
      rw [getD_set_eq]
      by_cases hkm : n + m = n + k
      · have hk' : k = m := by omega
        subst hk'
        rw [if_pos rfl, hrest (i + 1 + k) (by omega)]
        by_cases hl : n + k < argv.length
        · rw [hlen, if_pos hl]
        · rw [hlen, if_neg hl, List.getD_eq_default]
          omega
      · rw [if_neg hkm]
        exact hcopied k (by omega)
    · intro j hj
      rw [getD_set_eq, if_neg (by omega)]
      exact hrest j (by omega)

/-- The loop of `parseCmdline` at a token `--` in option position, with `cmd.argc = n`:
it ends there, having copied every later token, changing no other field of `cmd`. -/
theorem parse_loop_dashdash (lc : Libc) (fuel : Nat) (st : ParseState) (n : Nat)
    (hlt : st.i < st.argv.length) (htok : st.argv.getD st.i "" = "--")
    (hargc : st.cmd.argc = (n : Int)) (hn : n ≤ st.i + 1) :
    ∃ argv1, parse_loop lc (fuel + 1) st =
        Outcome.returned
          { cmd := { st.cmd with argc := ((n + (st.argv.length - (st.i + 1)) : Nat) : Int) }
            argv := argv1
            i := st.argv.length + 1 } ∧
      argv1.length = st.argv.length ∧
      (∀ k < st.argv.length - (st.i + 1),
        argv1.getD (n + k) "" = st.argv.getD (st.i + 1 + k) "") ∧
      (∀ j, n + (st.argv.length - (st.i + 1)) ≤ j → argv1.getD j "" = st.argv.getD j "") := by
  obtain ⟨h2, hlen, hcopied, hrest⟩ :=
    copy_rest_fold st.argv st.i n hn (st.argv.length - (st.i + 1))
  refine ⟨(copy_rest st.argv st.i st.cmd.argc).1, ?_, ?_, ?_, ?_⟩
  · rw [parse_loop_step lc fuel st _ hlt (parse_step_dashdash lc st htok)]
    rw [parse_loop_done lc fuel _ (by
      show ¬ st.argv.length + 1 < (copy_rest st.argv st.i st.cmd.argc).1.length
      rw [hargc]
      unfold copy_rest
      rw [hlen]
      omega)]
    rw [hargc]
    unfold copy_rest
    rw [h2]
  · rw [hargc]; unfold copy_rest; exact hlen
  · rw [hargc]; unfold copy_rest; exact hcopied
  · rw [hargc]; unfold copy_rest; exact hrest

/-! ## Theorems: exactly one non-option argument -/

/-- The copying loop at `--` writes from slot `cmd.argc = n` on: the entries below `n`
are untouched. -/
theorem copy_rest_fold_low (argv : List String) (i n : Nat) (hn : n ≤ i + 1) (m : Nat) :
    ∀ j < n, ((List.range m).foldl
        (fun (acc : List String × Int) (k : Nat) =>
          (acc.1.set acc.2.toNat (acc.1.getD (i + 1 + k) ""), acc.2 + 1))
        (argv, (n : Int))).1.getD j "" = argv.getD j "" := by
  induction m with
  | zero => intro j _; rfl
  | succ m ih =>
    intro j hj
    obtain ⟨h2, _, _, _⟩ := copy_rest_fold argv i n hn m
    rw [List.range_succ, List.foldl_append]
    simp only [List.foldl_cons, List.foldl_nil]
    rw [h2, Int.toNat_ofNat, getD_set_eq, if_neg (by omega)]
    exact ih j hj

/-- Entry `k` of a run of consecutive positions. -/
theorem getD_range' (s n k : Nat) (hk : k < n) : (List.range' s n).getD k 0 = s + k := by
  simp [List.getD_eq_getElem?_getD, List.getElem?_range', hk]

/-- The number of values of an option depends only on the tokens from the option on. -/
theorem option_values_congr (lc : Libc) (argv argv0 : List String) (i : Nat)
    (hlen : argv.length = argv0.length)
    (hsame : ∀ j, i ≤ j → argv.getD j "" = argv0.getD j "") :
    option_values lc argv i = option_values lc argv0 i := by
  unfold option_values
  rw [hsame i (le_refl i),
    count_ints_congr lc argv argv0 hlen 32 (i + 1) (fun k hk => hsame k (by omega))]

/-- The positions of the non-option arguments are found within `argc` steps: more fuel
finds the same positions. -/
theorem nonoption_positions_fuel (lc : Libc) (argv : List String) :
    ∀ (fuel i : Nat), argv.length ≤ fuel + i →
      nonoption_positions lc argv (fuel + 1) i = nonoption_positions lc argv fuel i := by
  intro fuel
  induction fuel with
  | zero =>
    intro i hi
    have hge : ¬ i < argv.length := by omega
    simp only [nonoption_positions, hge, if_false]
  | succ n ih =>
    intro i hi
    rw [nonoption_positions]
    conv_rhs => rw [nonoption_positions]
    by_cases hlt : i < argv.length
    · simp only [hlt, if_true]
      rw [ih (i + option_values lc argv i + 1) (by omega), ih (i + 1) (by omega)]
    · simp only [hlt, if_false]

/-- The loop body at an option (a token that begins with `-` and is not `--`), when it
returns: the vector and the argument count are untouched and the index has moved over
the values of the option. -/
theorem parse_step_option_keeps (lc : Libc) (st st1 : ParseState)
    (h0 : st.argv.getD st.i "" ≠ "--") (hdash : (st.argv.getD st.i "").get 0 = '-')
    (h : parse_step lc st = Outcome.returned st1) :
    st1.argv = st.argv ∧ st1.cmd.argc = st.cmd.argc ∧
      st1.i = st.i + option_values lc st.argv st.i := by
  by_cases h1 : st.argv.getD st.i "" = "-gpu"
  · have hov : option_values lc st.argv st.i = count_ints lc st.argv (st.i + 1) 32 := by
      unfold option_values
      rw [h1]
      rfl
    rw [parse_step_gpu lc st h1] at h
    simp only [Outcome.bind_eq_returned] at h
    obtain ⟨r, hr, _, _, _, _, h⟩ := h
    simp only [Outcome.returned.injEq] at h
    subst h
    exact ⟨rfl, rfl, by rw [hov]; exact getIntOpts_index lc st.argv st.i r hr⟩
  by_cases h2 : st.argv.getD st.i "" = "-nsteps"
  · have hov : option_values lc st.argv st.i = count_ints lc st.argv (st.i + 1) 32 := by
      unfold option_values
      rw [h2]
      rfl
    rw [parse_step_nsteps lc st h2] at h
    simp only [Outcome.bind_eq_returned] at h
    obtain ⟨r, hr, _, _, _, _, h⟩ := h
    simp only [Outcome.returned.injEq] at h
    subst h
    exact ⟨rfl, rfl, by rw [hov]; exact getIntOpts_index lc st.argv st.i r hr⟩
  by_cases h3 : st.argv.getD st.i "" = "-nbatch"
  · have hov : option_values lc st.argv st.i = count_ints lc st.argv (st.i + 1) 32 := by
      unfold option_values
      rw [h3]
      rfl
    rw [parse_step_nbatch lc st h3] at h
    simp only [Outcome.bind_eq_returned] at h
    obtain ⟨r, hr, _, _, _, _, h⟩ := h
    simp only [Outcome.returned.injEq] at h
    subst h
    exact ⟨rfl, rfl, by rw [hov]; exact getIntOpts_index lc st.argv st.i r hr⟩
  by_cases h4 : st.argv.getD st.i "" = "-width"
  · have hov : option_values lc st.argv st.i = 1 := by
      unfold option_values
      rw [h4]
      rfl
    rw [parse_step_width lc st h4] at h
    simp only [Outcome.bind_eq_returned] at h
    obtain ⟨r, hr, _, _, _, _, h⟩ := h
    simp only [Outcome.returned.injEq] at h
    subst h
    exact ⟨rfl, rfl, by rw [hov]; exact (getIntOpt_spec lc st.argv st.i _ r hr).1⟩
  by_cases h5 : st.argv.getD st.i "" = "-lsgpu"
  · have hov : option_values lc st.argv st.i = 0 := by
      unfold option_values
      rw [h5]
      rfl
    rw [parse_step_lsgpu lc st h5] at h
    simp only [Outcome.returned.injEq] at h
    subst h
    exact ⟨rfl, rfl, by rw [hov]; rfl⟩
  by_cases h6 : st.argv.getD st.i "" = "-cpu"
  · have hov : option_values lc st.argv st.i = 0 := by
      unfold option_values
      rw [h6]
      rfl
    rw [parse_step_cpu lc st h6] at h
    simp only [Outcome.returned.injEq] at h
    subst h
    exact ⟨rfl, rfl, by rw [hov]; rfl⟩
  by_cases h7 : st.argv.getD st.i "" = "-ncpus"
  · have hov : option_values lc st.argv st.i = 1 := by
      unfold option_values
      rw [h7]
      rfl
    rw [parse_step_ncpus lc st h7] at h
    simp only [Outcome.bind_eq_returned] at h
    obtain ⟨r, hr, _, _, h⟩ := h
    simp only [Outcome.returned.injEq] at h
    subst h
    exact ⟨rfl, rfl, by rw [hov]; exact (getIntOpt_spec lc st.argv st.i _ r hr).1⟩
  by_cases h8 : st.argv.getD st.i "" = "-lobin"
  · have hov : option_values lc st.argv st.i = 1 := by
      unfold option_values
      rw [h8]
      rfl
    rw [parse_step_lobin lc st h8] at h
    simp only [Outcome.bind_eq_returned] at h
    obtain ⟨r, hr, _, _, h⟩ := h
    simp only [Outcome.returned.injEq] at h
    subst h
    exact ⟨rfl, rfl, by rw [hov]; exact (getIntOpt_spec lc st.argv st.i _ r hr).1⟩
  by_cases h9 : st.argv.getD st.i "" = "-numharm"
  · have hov : option_values lc st.argv st.i = 1 := by
      unfold option_values
      rw [h9]
      rfl
    rw [parse_step_numharm lc st h9] at h
    simp only [Outcome.bind_eq_returned] at h
    obtain ⟨r, hr, _, _, _, _, h⟩ := h
    simp only [Outcome.returned.injEq] at h
    subst h
    exact ⟨rfl, rfl, by rw [hov]; exact (getIntOpt_spec lc st.argv st.i _ r hr).1⟩
  by_cases h10 : st.argv.getD st.i "" = "-zmax"
  · have hov : option_values lc st.argv st.i = 1 := by
      unfold option_values
      rw [h10]
      rfl
    rw [parse_step_zmax lc st h10] at h
    simp only [Outcome.bind_eq_returned] at h
    obtain ⟨r, hr, _, _, _, _, h⟩ := h
    simp only [Outcome.returned.injEq] at h
    subst h
    exact ⟨rfl, rfl, by rw [hov]; exact (getIntOpt_spec lc st.argv st.i _ r hr).1⟩
  by_cases h11 : st.argv.getD st.i "" = "-sigma"
  · have hov : option_values lc st.argv st.i = 1 := by
      unfold option_values
      rw [h11]
      rfl
    rw [parse_step_sigma lc st h11] at h
    simp only [Outcome.bind_eq_returned] at h
    obtain ⟨r, hr, _, _, _, _, h⟩ := h
    simp only [Outcome.returned.injEq] at h
    subst h
    exact ⟨rfl, rfl, by rw [hov]; exact getFloatOpt_spec lc st.argv st.i _ r hr⟩
  by_cases h12 : st.argv.getD st.i "" = "-rlo"
  · have hov : option_values lc st.argv st.i = 1 := by
      unfold option_values
      rw [h12]
      rfl
    rw [parse_step_rlo lc st h12] at h
    simp only [Outcome.bind_eq_returned] at h
    obtain ⟨r, hr, _, _, h⟩ := h
    simp only [Outcome.returned.injEq] at h
    subst h
    exact ⟨rfl, rfl, by rw [hov]; exact getDoubleOpt_spec lc st.argv st.i _ r hr⟩
  by_cases h13 : st.argv.getD st.i "" = "-rhi"
  · have hov : option_values lc st.argv st.i = 1 := by
      unfold option_values
      rw [h13]
      rfl
    rw [parse_step_rhi lc st h13] at h
    simp only [Outcome.bind_eq_returned] at h
    obtain ⟨r, hr, _, _, h⟩ := h
    simp only [Outcome.returned.injEq] at h
    subst h
    exact ⟨rfl, rfl, by rw [hov]; exact getDoubleOpt_spec lc st.argv st.i _ r hr⟩
  by_cases h14 : st.argv.getD st.i "" = "-flo"
  · have hov : option_values lc st.argv st.i = 1 := by
      unfold option_values
      rw [h14]
      rfl
    rw [parse_step_flo lc st h14] at h
    simp only [Outcome.bind_eq_returned] at h
    obtain ⟨r, hr, _, _, h⟩ := h
    simp only [Outcome.returned.injEq] at h
    subst h
    exact ⟨rfl, rfl, by rw [hov]; exact getDoubleOpt_spec lc st.argv st.i _ r hr⟩
  by_cases h15 : st.argv.getD st.i "" = "-fhi"
  · have hov : option_values lc st.argv st.i = 1 := by
      unfold option_values
      rw [h15]
      rfl
    rw [parse_step_fhi lc st h15] at h
    simp only [Outcome.bind_eq_returned] at h
    obtain ⟨r, hr, _, _, h⟩ := h
    simp only [Outcome.returned.injEq] at h
    subst h
    exact ⟨rfl, rfl, by rw [hov]; exact getDoubleOpt_spec lc st.argv st.i _ r hr⟩
  by_cases h16 : st.argv.getD st.i "" = "-inmem"
  · have hov : option_values lc st.argv st.i = 0 := by
      unfold option_values
      rw [h16]
      rfl
    rw [parse_step_inmem lc st h16] at h
    simp only [Outcome.returned.injEq] at h
    subst h
    exact ⟨rfl, rfl, by rw [hov]; rfl⟩
  by_cases h17 : st.argv.getD st.i "" = "-photon"
  · have hov : option_values lc st.argv st.i = 0 := by
      unfold option_values
      rw [h17]
      rfl
    rw [parse_step_photon lc st h17] at h
    simp only [Outcome.returned.injEq] at h
    subst h
    exact ⟨rfl, rfl, by rw [hov]; rfl⟩
  by_cases h18 : st.argv.getD st.i "" = "-median"
  · have hov : option_values lc st.argv st.i = 0 := by
      unfold option_values
      rw [h18]
      rfl
    rw [parse_step_median lc st h18] at h
    simp only [Outcome.returned.injEq] at h
    subst h
    exact ⟨rfl, rfl, by rw [hov]; rfl⟩
  by_cases h19 : st.argv.getD st.i "" = "-locpow"
  · have hov : option_values lc st.argv st.i = 0 := by
      unfold option_values
      rw [h19]
      rfl
    rw [parse_step_locpow lc st h19] at h
    simp only [Outcome.returned.injEq] at h
    subst h
    exact ⟨rfl, rfl, by rw [hov]; rfl⟩
  by_cases h20 : st.argv.getD st.i "" = "-zaplist"
  · have hov : option_values lc st.argv st.i = 1 := by
      unfold option_values
      rw [h20]
      rfl
    rw [parse_step_zaplist lc st h20] at h
    simp only [Outcome.bind_eq_returned] at h
    obtain ⟨r, hr, h⟩ := h
    simp only [Outcome.returned.injEq] at h
    subst h
    exact ⟨rfl, rfl, by rw [hov]; exact getStringOpt_spec st.argv st.i _ r hr⟩
  by_cases h21 : st.argv.getD st.i "" = "-baryv"
  · have hov : option_values lc st.argv st.i = 1 := by
      unfold option_values
      rw [h21]
      rfl
    rw [parse_step_baryv lc st h21] at h
    simp only [Outcome.bind_eq_returned] at h
    obtain ⟨r, hr, _, _, _, _, h⟩ := h
    simp only [Outcome.returned.injEq] at h
    subst h
    exact ⟨rfl, rfl, by rw [hov]; exact getDoubleOpt_spec lc st.argv st.i _ r hr⟩
  by_cases h22 : st.argv.getD st.i "" = "-otheropt"
  · have hov : option_values lc st.argv st.i = 0 := by
      unfold option_values
      rw [h22]
      rfl
    rw [parse_step_otheropt lc st h22] at h
    simp only [Outcome.returned.injEq] at h
    subst h
    exact ⟨rfl, rfl, by rw [hov]; rfl⟩
  by_cases h23 : st.argv.getD st.i "" = "-noharmpolish"
  · have hov : option_values lc st.argv st.i = 0 := by
      unfold option_values
      rw [h23]
      rfl
    rw [parse_step_noharmpolish lc st h23] at h
    simp only [Outcome.returned.injEq] at h
    subst h
    exact ⟨rfl, rfl, by rw [hov]; rfl⟩
  by_cases h24 : st.argv.getD st.i "" = "-noharmremove"
  · have hov : option_values lc st.argv st.i = 0 := by
      unfold option_values
      rw [h24]
      rfl
    rw [parse_step_noharmremove lc st h24] at h
    simp only [Outcome.returned.injEq] at h
    subst h
    exact ⟨rfl, rfl, by rw [hov]; rfl⟩
  rw [parse_step_other lc st h0 h1 h2 h3 h4 h5 h6 h7 h8 h9 h10 h11 h12 h13 h14 h15 h16 h17 h18 h19 h20 h21 h22 h23 h24, if_pos hdash] at h
  exact absurd h (by simp)

/-- The loop of `parseCmdline`, entered at index `st.i` with `cmd.argc = n ≤ st.i` and
with the tokens from `st.i` on still those of the command line `argv0`: when it returns,
`cmd.argc` has grown by the number of non-option arguments from `st.i` on, the slots
from `n` on hold those arguments in order, and the slots below `n` are untouched. -/
theorem parse_loop_positions (lc : Libc) (argv0 : List String) :
    ∀ (fuel : Nat) (st st1 : ParseState) (n : Nat),
      st.argv.length = argv0.length →
      st.cmd.argc = (n : Int) → n ≤ st.i →
      (∀ j, st.i ≤ j → st.argv.getD j "" = argv0.getD j "") →
      parse_loop lc fuel st = Outcome.returned st1 →
      st1.cmd.argc = ((n + (nonoption_positions lc argv0 fuel st.i).length : Nat) : Int) ∧
      (∀ k < (nonoption_positions lc argv0 fuel st.i).length,
        st1.argv.getD (n + k) "" =
          argv0.getD ((nonoption_positions lc argv0 fuel st.i).getD k 0) "") ∧
      (∀ j < n, st1.argv.getD j "" = st.argv.getD j "") := by
  intro fuel
  induction fuel with
  | zero =>
    intro st st1 n _ hargc _ _ h
    simp only [parse_loop, Outcome.returned.injEq] at h
    subst h
    refine ⟨by simpa [nonoption_positions] using hargc, ?_, fun j _ => rfl⟩
    intro k hk
    simp [nonoption_positions] at hk
  | succ fuel ih =>
    intro st st1 n hlen hargc hni hsame h
    by_cases hlt : st.i < st.argv.length
    swap
    · rw [parse_loop_done lc (fuel + 1) st hlt] at h
      simp only [Outcome.returned.injEq] at h
      subst h
      have hP : nonoption_positions lc argv0 (fuel + 1) st.i = [] := by
        rw [nonoption_positions, if_neg (by rw [← hlen]; exact hlt)]
      rw [hP]
      refine ⟨by simpa using hargc, ?_, fun j _ => rfl⟩
      intro k hk
      exact absurd hk (Nat.not_lt_zero k)
    have hlt0 : st.i < argv0.length := by rw [← hlen]; exact hlt
    have htok : st.argv.getD st.i "" = argv0.getD st.i "" := hsame st.i (le_refl _)
    by_cases hdd : st.argv.getD st.i "" = "--"
    · have hP : nonoption_positions lc argv0 (fuel + 1) st.i =
          List.range' (st.i + 1) (argv0.length - (st.i + 1)) := by
        rw [nonoption_positions, if_pos hlt0, if_pos (by rw [← htok]; exact hdd)]
      obtain ⟨h2, hlen2, hcopied, _⟩ :=
        copy_rest_fold st.argv st.i n (by omega) (st.argv.length - (st.i + 1))
      have hlow := copy_rest_fold_low st.argv st.i n (by omega) (st.argv.length - (st.i + 1))
      rw [parse_loop_step lc fuel st _ hlt (parse_step_dashdash lc st hdd)] at h
      rw [parse_loop_done lc fuel _ (by
        show ¬ st.argv.length + 1 < (copy_rest st.argv st.i st.cmd.argc).1.length
        rw [copy_rest_length]
        omega)] at h
      simp only [Outcome.returned.injEq] at h
      subst h
      rw [hP, List.length_range']
      rw [hargc]
      unfold copy_rest
      refine ⟨?_, ?_, hlow⟩
      · show _ = _
        rw [h2, hlen]
      · intro k hk
        rw [getD_range' _ _ _ hk]
        show _ = _
        rw [hcopied k (by rw [hlen]; exact hk)]
        exact hsame _ (by omega)
    by_cases hdash : (st.argv.getD st.i "").get 0 = '-'
    · have hP : nonoption_positions lc argv0 (fuel + 1) st.i =
          nonoption_positions lc argv0 fuel (st.i + option_values lc argv0 st.i + 1) := by
        rw [nonoption_positions, if_pos hlt0, if_neg (by rw [← htok]; exact hdd),
          if_pos (by rw [← htok]; exact hdash)]
      simp only [parse_loop, hlt, if_true] at h
      rw [Outcome.bind_eq_returned] at h
      obtain ⟨st2, hstep, hrest⟩ := h
      obtain ⟨ha, hc, hi⟩ := parse_step_option_keeps lc st st2 hdd hdash hstep
      rw [option_values_congr lc st.argv argv0 st.i hlen hsame] at hi
      obtain ⟨r1, r2, r3⟩ := ih { st2 with i := st2.i + 1 } st1 n
        (by show st2.argv.length = _; rw [ha]; exact hlen)
        (by show st2.cmd.argc = _; rw [hc]; exact hargc)
        (by show n ≤ st2.i + 1; omega)
        (by
          intro j hj
          show st2.argv.getD j "" = _
          rw [ha]
          exact hsame j (by
            have : st2.i + 1 ≤ j := hj
            omega))
        hrest
      have hidx : ({ st2 with i := st2.i + 1 } : ParseState).i =
          st.i + option_values lc argv0 st.i + 1 := by
        show st2.i + 1 = _
        rw [hi]
      rw [hidx] at r1 r2
      rw [hP]
      refine ⟨r1, r2, ?_⟩
      intro j hj
      rw [r3 j hj]
      show st2.argv.getD j "" = _
      rw [ha]
    · have hP : nonoption_positions lc argv0 (fuel + 1) st.i =
          st.i :: nonoption_positions lc argv0 fuel (st.i + 1) := by
        rw [nonoption_positions, if_pos hlt0, if_neg (by rw [← htok]; exact hdd),
          if_neg (by rw [← htok]; exact hdash)]
      rw [parse_loop_step lc fuel st _ hlt (parse_step_nonoption lc st hdash)] at h
      have hnat : st.cmd.argc.toNat = n := by rw [hargc, Int.toNat_ofNat]
      obtain ⟨r1, r2, r3⟩ := ih _ st1 (n + 1)
        (by show (st.argv.set _ _).length = _; rw [List.length_set]; exact hlen)
        (by show st.cmd.argc + 1 = _; rw [hargc]; push_cast; rfl)
        (by show n + 1 ≤ st.i + 1; omega)
        (by
          intro j hj
          show (st.argv.set _ _).getD j "" = _
          have hj' : st.i + 1 ≤ j := hj
          rw [hnat, getD_set_eq, if_neg (by omega)]
          exact hsame j (by omega))
        h
      have hidx : ∀ (c : Cmdline) (a : List String),
          ({ cmd := c, argv := a, i := st.i + 1 } : ParseState).i = st.i + 1 := fun _ _ => rfl
      simp only [hidx] at r1 r2
      have hset : ∀ j, j ≤ n → (st.argv.set st.cmd.argc.toNat (st.argv.getD st.i "")).getD j "" =
          if n = j then argv0.getD st.i "" else st.argv.getD j "" := by
        intro j _
        rw [hnat, getD_set_eq, if_pos (show n < st.argv.length by omega), htok]
      rw [hP]
      refine ⟨?_, ?_, ?_⟩
      · rw [r1, List.length_cons]
        congr 1
        omega
      · intro k hk
        cases k with
        | zero =>
          rw [Nat.add_zero, r3 n (Nat.lt_succ_self n)]
          show (st.argv.set _ _).getD n "" = _
          rw [hset n (le_refl n), if_pos rfl]
          rfl
        | succ k =>
          rw [List.length_cons] at hk
          have := r2 k (by omega)
          rw [show n + (k + 1) = n + 1 + k by omega, this]
          rfl
      · intro j hj
        rw [r3 j (by omega)]
        show (st.argv.set _ _).getD j "" = _
        rw [hset j (by omega), if_neg (by omega)]

/-- With at least `argc` steps the positions found do not depend on the number of
steps. -/
theorem nonoption_positions_fuel_add (lc : Libc) (argv : List String) (fuel i : Nat)
    (h : argv.length ≤ fuel + i) :
    ∀ extra, nonoption_positions lc argv (fuel + extra) i =
      nonoption_positions lc argv fuel i := by
  intro extra
  induction extra with
  | zero => rfl
  | succ m ih =>
    rw [← Nat.add_assoc, nonoption_positions_fuel lc argv (fuel + m) i (by omega), ih]

/-- Every position found from `i` on is a position of the command line, not before
`i`. -/
theorem nonoption_positions_mem (lc : Libc) (argv : List String) :
    ∀ (fuel i j : Nat), j ∈ nonoption_positions lc argv fuel i → i ≤ j ∧ j < argv.length := by
  intro fuel
  induction fuel with
  | zero =>
    intro i j hj
    simp [nonoption_positions] at hj
  | succ n ih =>
    intro i j hj
    rw [nonoption_positions] at hj
    split_ifs at hj with hlt hdd hdash
    · rw [List.mem_range'_1] at hj
      omega
    · have := ih _ j hj
      omega
    · rcases List.mem_cons.mp hj with h | h
      · omega
      · have := ih _ j h
        omega
    · simp at hj

/-- C14: for a command line with a program name (`argc ≥ 1`; with `argc = 0` the source
reads `argv[0]` in `catArgv` before the loop), `parseCmdline` returns normally only when
the command line holds exactly one non-option argument: the positions of the non-option
arguments, as the synopsis of `usage` describes them, are then a single position `j`
after the program name, and the function returns `cmd.argc = 1` with `cmd.argv[0]` the
token at `j`; with no or with two or more non-option arguments it exits with failure.
The positions do not depend on the number of loop steps allowed beyond `argc`. In
particular it exits on the program name alone and on two non-option arguments, and
returns on one. -/
theorem C14_exactly_one_argument (lc : Libc) (cmd0 : Cmdline) (argv : List String)
    (prog a b : String) :
    (1 ≤ argv.length →
      (∀ c, parseCmdline lc cmd0 argv = Outcome.returned c →
        ∃ j, nonoption_positions lc argv argv.length 1 = [j] ∧ 1 ≤ j ∧ j < argv.length ∧
          c.argc = 1 ∧ c.argv.getD 0 "" = argv.getD j "") ∧
      ((nonoption_positions lc argv argv.length 1).length ≠ 1 →
        parseCmdline lc cmd0 argv = Outcome.exit_failure)) ∧
    (∀ fuel, argv.length ≤ fuel →
      nonoption_positions lc argv fuel 1 = nonoption_positions lc argv argv.length 1) ∧
    parseCmdline lc cmd0 [prog] = Outcome.exit_failure ∧
    (a.get 0 ≠ '-' →
      ∃ c, parseCmdline lc cmd0 [prog, a] = Outcome.returned c ∧ c.argc = 1 ∧ c.argv = [a]) ∧
    (a.get 0 ≠ '-' → b.get 0 ≠ '-' →
      parseCmdline lc cmd0 [prog, a, b] = Outcome.exit_failure) := by
  have hmain : ∀ c, parseCmdline lc cmd0 argv = Outcome.returned c →
      ∃ j, nonoption_positions lc argv argv.length 1 = [j] ∧ 1 ≤ j ∧ j < argv.length ∧
        c.argc = 1 ∧ c.argv.getD 0 "" = argv.getD j "" := by
    intro c h
    unfold parseCmdline at h
    rw [Outcome.bind_eq_returned] at h
    obtain ⟨st, hloop, hfin⟩ := h
    simp only [] at hfin
    split_ifs at hfin with h1 h2
    simp only [Outcome.returned.injEq] at hfin
    subst hfin
    obtain ⟨r1, r2, _⟩ := parse_loop_positions lc argv argv.length (parse_init cmd0 argv) st 1
      rfl rfl (le_refl 1) (fun j _ => rfl) hloop
    have hidx : (parse_init cmd0 argv).i = 1 := rfl
    rw [hidx] at r1 r2
    have hone : (nonoption_positions lc argv argv.length 1).length = 1 := by omega
    obtain ⟨j, hj⟩ := List.length_eq_one.mp hone
    have hmem := nonoption_positions_mem lc argv argv.length 1 j (by rw [hj]; exact List.mem_singleton_self j)
    have hslot := r2 0 (by omega)
    rw [hj] at hslot
    refine ⟨j, hj, hmem.1, hmem.2, by show st.cmd.argc - 1 = 1; omega, ?_⟩
    rw [← show st.argv.getD (1 + 0) "" = argv.getD j "" from hslot]
    simp only [List.getD_eq_getElem?_getD, List.getElem?_drop]
  refine ⟨fun _ => ⟨hmain, ?_⟩, ?_, rfl, ?_, ?_⟩
  · intro hne
    cases hp : parseCmdline lc cmd0 argv with
    | exit_failure => rfl
    | returned c =>
      obtain ⟨j, hj, _⟩ := hmain c hp
      rw [hj] at hne
      exact absurd rfl hne
  · intro fuel hfuel
    have := nonoption_positions_fuel_add lc argv argv.length 1 (by omega) (fuel - argv.length)
    rw [show argv.length + (fuel - argv.length) = fuel by omega] at this
    exact this
  · intro ha
    have e1 : parse_loop lc 2 (parse_init cmd0 [prog, a]) = parse_loop lc 1 _ :=
      parse_loop_step lc 1 (parse_init cmd0 [prog, a]) _ (show (1 : Nat) < 2 from by decide)
        (parse_step_nonoption lc (parse_init cmd0 [prog, a]) ha)
    have hp : parseCmdline lc cmd0 [prog, a] = Outcome.returned
        { cmd0 with full_cmd_line := some (" ".intercalate [prog, a]), argc := 1, argv := [a] } := by
      show (parse_loop lc 2 (parse_init cmd0 [prog, a])).bind _ = _
      rw [e1]
      rfl
    exact ⟨_, hp, rfl, rfl⟩
  · intro ha hb
    have e1 : parse_loop lc 3 (parse_init cmd0 [prog, a, b]) = parse_loop lc 2 _ :=
      parse_loop_step lc 2 (parse_init cmd0 [prog, a, b]) _ (show (1 : Nat) < 3 from by decide)
        (parse_step_nonoption lc (parse_init cmd0 [prog, a, b]) ha)
    have e2 := parse_loop_step lc 1 _ _ (show (2 : Nat) < 3 from by decide)
      (parse_step_nonoption lc
        { cmd := { (parse_init cmd0 [prog, a, b]).cmd with argc := 1 + 1 }
          argv := [prog, a, b]
          i := 2 } hb)
    show (parse_loop lc 3 (parse_init cmd0 [prog, a, b])).bind _ = _
    rw [e1]
    erw [e2]
    rfl

/-- C14 at concrete inputs: in `accelsearch -gpu 0 1 -- -cpu` the only non-option
argument is the token `-cpu` at position 5 (the two integers are values of `-gpu`, the
token after `--` is an argument though it spells an option), and the command line is
accepted with it as `cmd.argv[0]`; `accelsearch -gpu 0 1` holds no non-option argument
and is rejected. -/
theorem C14_exactly_one_argument_witness :
    1 ≤ ["accelsearch", "-gpu", "0", "1", "--", "-cpu"].length ∧
    nonoption_positions sampleLibc ["accelsearch", "-gpu", "0", "1", "--", "-cpu"] 6 1 = [5] ∧
    (∃ c, parseCmdline sampleLibc cmd ["accelsearch", "-gpu", "0", "1", "--", "-cpu"] =
        Outcome.returned c ∧ c.cpuP = 0 ∧
      ∃ j, nonoption_positions sampleLibc ["accelsearch", "-gpu", "0", "1", "--", "-cpu"]
          ["accelsearch", "-gpu", "0", "1", "--", "-cpu"].length 1 = [j] ∧
        1 ≤ j ∧ j < ["accelsearch", "-gpu", "0", "1", "--", "-cpu"].length ∧ c.argc = 1 ∧
        c.argv.getD 0 "" = ["accelsearch", "-gpu", "0", "1", "--", "-cpu"].getD j "") ∧
    nonoption_positions sampleLibc ["accelsearch", "-gpu", "0", "1"] 4 1 = [] ∧
    parseCmdline sampleLibc cmd ["accelsearch", "-gpu", "0", "1"] = Outcome.exit_failure :=
  ⟨by decide, by decide,
    ⟨_, rfl, rfl,
      ((C14_exactly_one_argument sampleLibc cmd ["accelsearch", "-gpu", "0", "1", "--", "-cpu"]
        "" "" "").1 (by decide)).1 _ rfl⟩,
    by decide,
    ((C14_exactly_one_argument sampleLibc cmd ["accelsearch", "-gpu", "0", "1"]
      "" "" "").1 (by decide)).2 (by decide)⟩

/-- C19, counterexample: in `accelsearch -zaplist -- -cpu in.fft` the first `--` is
taken as the value of `-zaplist`, and the token `-cpu` after it sets the switch. -/
theorem C19_counterexample :
    parseCmdline sampleLibc cmd ["accelsearch", "-zaplist", "--", "-cpu", "in.fft"] =
      Outcome.returned
        { cmd with
          zaplistP := 1, zaplist := some "--", zaplistC := 1, cpuP := 1
          full_cmd_line := some "accelsearch -zaplist -- -cpu in.fft"
          argc := 1, argv := ["in.fft", "--", "-cpu", "in.fft"] } ∧
    cmd.cpuP = 0 :=
  ⟨rfl, rfl⟩

/-- C19, amended: when the loop of `parseCmdline` meets `--` in option position (not as
the value of `-zaplist`), every later token is copied in order as a non-option argument
(entry `cmd.argc + k` of the vector receives the token at `i + 1 + k`), the loop ends, and
no field of `cmd` other than the argument count changes; so a command line that begins
with `--` returns only with one token after it, that token as the argument and every
option field at its initial value. -/
theorem C19_tokens_after_dashdash (lc : Libc) (fuel : Nat) (st : ParseState) (n : Nat)
    (cmd0 : Cmdline) (prog : String) (rest : List String) (c : Cmdline) :
    (st.i < st.argv.length → st.argv.getD st.i "" = "--" → st.cmd.argc = (n : Int) →
      n ≤ st.i + 1 →
      ∃ argv1, parse_loop lc (fuel + 1) st =
          Outcome.returned
            { cmd := { st.cmd with argc := ((n + (st.argv.length - (st.i + 1)) : Nat) : Int) }
              argv := argv1
              i := st.argv.length + 1 } ∧
        argv1.length = st.argv.length ∧
        ∀ k < st.argv.length - (st.i + 1),
          argv1.getD (n + k) "" = st.argv.getD (st.i + 1 + k) "") ∧
    (parseCmdline lc cmd0 (prog :: "--" :: rest) = Outcome.returned c →
      rest.length = 1 ∧ c.argv.getD 0 "" = rest.getD 0 "" ∧
      c = { cmd0 with
            full_cmd_line := some (" ".intercalate (prog :: "--" :: rest))
            argc := 1, argv := c.argv }) := by
  constructor
  · intro hlt htok hargc hn
    obtain ⟨argv1, h1, h2, h3, _⟩ := parse_loop_dashdash lc fuel st n hlt htok hargc hn
    exact ⟨argv1, h1, h2, h3⟩
  · intro h
    obtain ⟨argv1, h1, _, h3, _⟩ :=
      parse_loop_dashdash lc (rest.length + 1) (parse_init cmd0 (prog :: "--" :: rest)) 1
        (show 1 < (prog :: "--" :: rest).length by
          simp only [List.length_cons]; omega)
        rfl rfl (show (1 : Nat) ≤ 1 + 1 from by decide)
    unfold parseCmdline at h
    rw [show (prog :: "--" :: rest).length = rest.length + 1 + 1 from rfl, h1,
      Outcome.bind_returned] at h
    simp only [] at h
    have hcount : (((1 + ((parse_init cmd0 (prog :: "--" :: rest)).argv.length -
        ((parse_init cmd0 (prog :: "--" :: rest)).i + 1)) : Nat) : Int)) - 1 =
        (rest.length : Int) := by
      show (((1 + ((prog :: "--" :: rest).length - (1 + 1)) : Nat) : Int)) - 1 = _
      simp only [List.length_cons]
      push_cast
      omega
    rw [hcount] at h
    split_ifs at h with ha hb
    have hone : rest.length = 1 := by omega
    simp only [Outcome.returned.injEq] at h
    subst h
    refine ⟨hone, ?_, ?_⟩
    · show (argv1.drop 1).getD 0 "" = rest.getD 0 ""
      have h0 : argv1.getD (1 + 0) "" = rest.getD 0 "" := h3 0 (by
        show 0 < (prog :: "--" :: rest).length - (1 + 1)
        simp only [List.length_cons]; omega)
      rw [← h0]
      simp only [List.getD_eq_getElem?_getD, List.getElem?_drop]
    · congr 1
      exact_mod_cast hone

/-- C19 at a concrete input: `accelsearch -- -cpu` returns with `-cpu` as the argument
and the switch `-cpu` off. -/
theorem C19_tokens_after_dashdash_witness :
    parseCmdline sampleLibc cmd ["accelsearch", "--", "-cpu"] =
      Outcome.returned
        { cmd with
          full_cmd_line := some "accelsearch -- -cpu"
          argc := 1, argv := ["-cpu", "-cpu"] } ∧
    (["-cpu"] : List String).length = 1 ∧ cmd.cpuP = 0 :=
  ⟨rfl,
    (C19_tokens_after_dashdash sampleLibc 0 (parse_init cmd []) 0 cmd "accelsearch" ["-cpu"]
      { cmd with
        full_cmd_line := some "accelsearch -- -cpu"
        argc := 1, argv := ["-cpu", "-cpu"] }).2 rfl |>.1,
    rfl⟩

/-! ## Theorems: constants of the search grid and the flag word -/

/-- C21: the value of `ACCEL_USELEN` in force after the `#undef` / `#define` of the
header is 3962, which is less than 65536, so every index from 0 to `ACCEL_USELEN` is
unchanged by the conversion to `unsigned short`, the type of the `rinds` entries. -/
theorem C21_uselen_fits_unsigned_short :
    ACCEL_USELEN = 3962 ∧ ACCEL_USELEN < 65536 ∧
    ∀ n : Int, 0 ≤ n → n ≤ ACCEL_USELEN → to_unsigned_short n = n := by
  have hval : ACCEL_USELEN = 3962 := rfl
  refine ⟨hval, by rw [hval]; decide, ?_⟩
  intro n h0 hn
  rw [hval] at hn
  unfold to_unsigned_short
  exact Int.emod_eq_of_lt h0 (by omega)

/-- C21 at a concrete input: the largest index, `ACCEL_USELEN` itself, is kept by the
conversion to `unsigned short`, while 65536 would not be. -/
theorem C21_uselen_fits_unsigned_short_witness :
    ((0 : Int) ≤ 3962 ∧ (3962 : Int) ≤ ACCEL_USELEN) ∧ to_unsigned_short 3962 = 3962 ∧
    to_unsigned_short 65536 ≠ 65536 :=
  ⟨⟨by decide, by decide⟩,
    C21_uselen_fits_unsigned_short.2.2 3962 (by decide) (by decide), by decide⟩

/-- C22: `ACCEL_NUMBETWEEN` is 2, `ACCEL_DR` is `1 / ACCEL_NUMBETWEEN = 0.5` (division of
reals), `ACCEL_DZ` is 2, and `ACCEL_RDR`, `ACCEL_RDZ` are the exact reciprocals of
`ACCEL_DR`, `ACCEL_DZ`: both products are 1. -/
theorem C22_grid_constants_consistent :
    ACCEL_NUMBETWEEN = 2 ∧ ACCEL_DR = 1 / (ACCEL_NUMBETWEEN : ℚ) ∧ ACCEL_DR = 1 / 2 ∧
    ACCEL_DZ = 2 ∧
    (ACCEL_RDR : ℚ) = 1 / ACCEL_DR ∧ ACCEL_RDZ = 1 / (ACCEL_DZ : ℚ) ∧
    ACCEL_DR * (ACCEL_RDR : ℚ) = 1 ∧ (ACCEL_DZ : ℚ) * ACCEL_RDZ = 1 := by
  refine ⟨rfl, ?_, ?_, rfl, ?_, ?_, ?_, ?_⟩ <;>
    norm_num [ACCEL_NUMBETWEEN, ACCEL_DR, ACCEL_RDR, ACCEL_DZ, ACCEL_RDZ]

/-- C27, counterexample: the group masks `CU_INPT_SINGLE` and `CU_INPT_ALL` are not
disjoint; they share the bits 2 and 3 (value 12). -/
theorem C27_counterexample :
    CU_INPT_SINGLE &&& CU_INPT_ALL = 12 ∧ CU_INPT_SINGLE &&& CU_INPT_ALL ≠ 0 := by
  decide

/-- C27, amended: the single-bit flags from `CU_INPT_DEVICE` (bit 0) to `FLAG_STORE_EXP`
(bit 29) are pairwise distinct powers of two; a flag is set in a group mask exactly when
it is one of the members the header lists for that mask; the masks `CU_INPT_ALL`,
`CU_OUTP_ALL`, `FLAG_CNV_ALL`, `FLAG_STP_ALL` are pairwise disjoint; and `CU_INPT_SINGLE`
is contained in `CU_INPT_ALL` and disjoint from the other three. -/
theorem C27_flag_word :
    search_flags.Pairwise (fun a b => a ≠ b) ∧
    (∀ f ∈ search_flags, ∃ k < 30, f = 2 ^ k) ∧
    CU_INPT_DEVICE = 2 ^ 0 ∧ FLAG_STORE_EXP = 2 ^ 29 ∧
    (∀ f ∈ search_flags,
      (flag_in f CU_INPT_SINGLE = true ↔ f ∈ [CU_INPT_SINGLE_G, CU_INPT_SINGLE_C]) ∧
      (flag_in f CU_INPT_ALL = true ↔
        f ∈ [CU_INPT_DEVICE, CU_INPT_HOST, CU_INPT_SINGLE_G, CU_INPT_SINGLE_C]) ∧
      (flag_in f CU_OUTP_ALL = true ↔ f ∈ [CU_OUTP_DEVICE, CU_OUTP_HOST, CU_OUTP_SINGLE]) ∧
      (flag_in f FLAG_CNV_ALL = true ↔ f ∈ [FLAG_CNV_PLN, FLAG_CNV_STK, FLAG_CNV_FAM]) ∧
      (flag_in f FLAG_STP_ALL = true ↔ f ∈ [FLAG_STP_ROW, FLAG_STP_PLN, FLAG_STP_STK])) ∧
    CU_INPT_SINGLE = 2 ^ 3 + 2 ^ 2 ∧ CU_INPT_ALL = 2 ^ 0 + 2 ^ 1 + 2 ^ 3 + 2 ^ 2 ∧
    CU_OUTP_ALL = 2 ^ 4 + 2 ^ 5 + 2 ^ 6 ∧ FLAG_CNV_ALL = 2 ^ 14 + 2 ^ 15 + 2 ^ 16 ∧
    FLAG_STP_ALL = 2 ^ 17 + 2 ^ 18 + 2 ^ 19 ∧
    CU_INPT_ALL &&& CU_OUTP_ALL = 0 ∧ CU_INPT_ALL &&& FLAG_CNV_ALL = 0 ∧
    CU_INPT_ALL &&& FLAG_STP_ALL = 0 ∧ CU_OUTP_ALL &&& FLAG_CNV_ALL = 0 ∧
    CU_OUTP_ALL &&& FLAG_STP_ALL = 0 ∧ FLAG_CNV_ALL &&& FLAG_STP_ALL = 0 ∧
    CU_INPT_SINGLE &&& CU_INPT_ALL = CU_INPT_SINGLE ∧
    CU_INPT_SINGLE &&& CU_OUTP_ALL = 0 ∧ CU_INPT_SINGLE &&& FLAG_CNV_ALL = 0 ∧
    CU_INPT_SINGLE &&& FLAG_STP_ALL = 0 := by
  have hdistinct : search_flags.Pairwise (fun a b => a ≠ b) := by decide
  have hpow : ∀ f ∈ search_flags, ∃ k < 30, f = 2 ^ k := by decide
  have hmembers : ∀ f ∈ search_flags,
      (flag_in f CU_INPT_SINGLE = true ↔ f ∈ [CU_INPT_SINGLE_G, CU_INPT_SINGLE_C]) ∧
      (flag_in f CU_INPT_ALL = true ↔
        f ∈ [CU_INPT_DEVICE, CU_INPT_HOST, CU_INPT_SINGLE_G, CU_INPT_SINGLE_C]) ∧
      (flag_in f CU_OUTP_ALL = true ↔ f ∈ [CU_OUTP_DEVICE, CU_OUTP_HOST, CU_OUTP_SINGLE]) ∧
      (flag_in f FLAG_CNV_ALL = true ↔ f ∈ [FLAG_CNV_PLN, FLAG_CNV_STK, FLAG_CNV_FAM]) ∧
      (flag_in f FLAG_STP_ALL = true ↔ f ∈ [FLAG_STP_ROW, FLAG_STP_PLN, FLAG_STP_STK]) := by
    decide
  refine ⟨hdistinct, hpow, rfl, rfl, hmembers, ?_⟩
  decide

/-- C27 at a concrete input: the flag `FLAG_CNV_STK` of the list is the power of two
`2 ^ 15`, and it is set in `FLAG_CNV_ALL` and in no other group mask. -/
theorem C27_flag_word_witness :
    FLAG_CNV_STK ∈ search_flags ∧ (∃ k < 30, FLAG_CNV_STK = 2 ^ k) ∧
    (flag_in FLAG_CNV_STK FLAG_CNV_ALL = true ↔
      FLAG_CNV_STK ∈ [FLAG_CNV_PLN, FLAG_CNV_STK, FLAG_CNV_FAM]) :=
  ⟨by decide, C27_flag_word.2.1 FLAG_CNV_STK (by decide),
    (C27_flag_word.2.2.2.2.1 FLAG_CNV_STK (by decide)).2.2.2.1⟩

/-! ## Theorems: the simplexes and the half-widths of the two solves -/

/-- Evaluation of `round_double` at a positive fraction in lowest terms. -/
theorem round_double_eval (x : ℚ) (N : Int) (d m : Nat) (e : Int)
    (hx : x = (N : ℚ) / (d : ℚ)) (hN : 0 < N) (hd : 0 < d) (hc : Nat.Coprime N.natAbs d)
    (hp : round_double_parts N.natAbs d = (m, e)) :
    round_double x = (m : ℚ) * (2 : ℚ) ^ e := by
  have hd0 : (0 : Int) < (d : Int) := by exact_mod_cast hd
  have hnum : x.num = N := by
    rw [hx]
    have := Rat.num_div_eq_of_coprime hd0 (by simpa using hc)
    simpa using this
  have hden : x.den = d := by
    rw [hx]
    have := Rat.den_div_eq_of_coprime hd0 (by simpa using hc)
    exact_mod_cast this
  have hx0 : x ≠ 0 := by
    intro h0
    rw [h0] at hnum
    exact absurd hnum.symm (ne_of_gt hN)
  unfold round_double
  rw [if_neg hx0, hnum, hden]
  simp only [hp, Int.sign_eq_one_of_pos hN, Int.cast_one, one_mul]

/-- The `double` nearest to 0.4. -/
theorem round_double_step :
    round_double 0.4 = 3602879701896397 / 9007199254740992 := by
  rw [round_double_eval 0.4 2 5 7205759403792794 (-54) (by norm_num) (by decide) (by decide)
    (by decide) (by decide)]
  norm_num

set_option maxRecDepth 8192 in
/-- In `double` arithmetic `2 ^ 53 - 0.4` is `2 ^ 53`. -/
theorem round_double_big_minus :
    round_double (9007199254740992 - round_double 0.4) = 9007199254740992 := by
  rw [round_double_step,
    round_double_eval _ 81129638414606678092909303247667 9007199254740992 9007199254740992 0
      (by norm_num) (by decide) (by decide) (by norm_num) (by decide)]
  norm_num

set_option maxRecDepth 8192 in
/-- In `double` arithmetic `2 ^ 53 + 0.4` is `2 ^ 53`. -/
theorem round_double_big_plus :
    round_double (9007199254740992 + round_double 0.4) = 9007199254740992 := by
  rw [round_double_step,
    round_double_eval _ 81129638414606685298668707040461 9007199254740992 4503599627370496 1
      (by norm_num) (by decide) (by decide) (by norm_num) (by decide)]
  norm_num

/-- In `double` arithmetic `100 - 0.4` is a little less than 99.6. -/
theorem round_double_100_minus :
    round_double (100 - round_double 0.4) = 3504363460047667 / 35184372088832 := by
  rw [round_double_step,
    round_double_eval _ 897117045772202803 9007199254740992 7008726920095334 (-46)
      (by norm_num) (by decide) (by decide) (by norm_num) (by decide)]
  norm_num

/-- In `double` arithmetic `100 + 0.4` is a little more than 100.4. -/
theorem round_double_100_plus :
    round_double (100 + round_double 0.4) = 3532510957718733 / 35184372088832 := by
  rw [round_double_step,
    round_double_eval _ 904322805175995597 9007199254740992 7065021915437466 (-46)
      (by norm_num) (by decide) (by decide) (by norm_num) (by decide)]
  norm_num

/-- The quotient `8 / ZSCALE` is the `double` 2. -/
theorem round_double_two : round_double (8 / ZSCALE) = 2 := by
  rw [round_double_eval _ 2 1 4503599627370496 (-51) (by norm_num [ZSCALE]) (by decide)
    (by decide) (by decide) (by decide)]
  norm_num

/-- In `double` arithmetic `2 - 0.4` is 1.6 rounded. -/
theorem round_double_2_minus :
    round_double (2 - round_double 0.4) = 3602879701896397 / 2251799813685248 := by
  rw [round_double_step,
    round_double_eval _ 14411518807585587 9007199254740992 7205759403792794 (-52)
      (by norm_num) (by decide) (by decide) (by norm_num) (by decide)]
  norm_num

/-- In `double` arithmetic `2 + 0.4` is 2.4 rounded. -/
theorem round_double_2_plus :
    round_double (2 + round_double 0.4) = 5404319552844595 / 2251799813685248 := by
  rw [round_double_step,
    round_double_eval _ 21617278211378381 9007199254740992 5404319552844595 (-51)
      (by norm_num) (by decide) (by decide) (by norm_num) (by decide)]
  norm_num

/-- Twice the signed area of the starting simplex in `double` arithmetic. -/
theorem cross_first_simplex_double (rin zin : ℚ) :
    cross (first_simplex_double rin zin).x0 (first_simplex_double rin zin).x1
        (first_simplex_double rin zin).x2 =
      -((round_double (round_double (zin / ZSCALE) + round_double 0.4) -
          round_double (round_double (zin / ZSCALE) - round_double 0.4)) *
        (round_double (rin + round_double 0.4) - round_double (rin - round_double 0.4))) := by
  simp only [cross, first_simplex_double]
  ring

/-- C23, counterexample: at `rin = 2 ^ 53 = 9007199254740992`, `zin = 0`, the `double`
values `rin - 0.4` and `rin + 0.4` are both `rin`; the three vertices of the starting
simplex have the same `r`, the triangle is degenerate and the estimate is not strictly
inside it. -/
theorem C23_counterexample :
    (first_simplex_double 9007199254740992 0).x0.1 = 9007199254740992 ∧
    (first_simplex_double 9007199254740992 0).x1.1 = 9007199254740992 ∧
    (first_simplex_double 9007199254740992 0).x2.1 = 9007199254740992 ∧
    Simplex.nondegenerate (first_simplex_double 9007199254740992 0) = false ∧
    Simplex.strictly_inside (first_simplex_double 9007199254740992 0)
      (9007199254740992, round_double (0 / ZSCALE)) = false := by
  have h0 : (first_simplex_double 9007199254740992 0).x0.1 = 9007199254740992 :=
    round_double_big_minus
  have h1 : (first_simplex_double 9007199254740992 0).x1.1 = 9007199254740992 :=
    round_double_big_minus
  have h2 : (first_simplex_double 9007199254740992 0).x2.1 = 9007199254740992 :=
    round_double_big_plus
  refine ⟨h0, h1, h2, ?_, ?_⟩
  · simp only [Simplex.nondegenerate, cross, h0, h1, h2, sub_self, zero_mul, mul_zero,
      ne_eq, not_true_eq_false, decide_False]
  · simp only [Simplex.strictly_inside, cross, h0, h1, sub_self, zero_mul, mul_zero,
      lt_self_iff_false, decide_False, Bool.false_and, Bool.and_false, Bool.or_self]

/-- C23, amended: in exact arithmetic the simplex that `max_rz_arr` and
`max_rz_arr_harmonics` hand to the first solve has the vertices
`(rin - 0.4, zin/ZSCALE - 0.4)`, `(rin - 0.4, zin/ZSCALE + 0.4)`, `(rin + 0.4, zin/ZSCALE)`
with `ZSCALE = 4`, is non-degenerate (twice its signed area is `-0.64`) and has the
estimate strictly inside. In `double` arithmetic, with `step` the `double` nearest 0.4
and `z` the `double` `zin/ZSCALE`, the triangle is non-degenerate exactly when
`rin + step` differs from `rin - step` and `z + step` differs from `z - step`, and the
estimate `(rin, z)` is strictly inside it whenever `rin - step < rin < rin + step` and
`z - step < z < z + step` hold for the rounded values. -/
theorem C23_first_simplex {D F : Type} (env : Env D F) (g : Globals)
    (data : List fcomplex) (datas : List (List fcomplex)) (num_harmonics : Int)
    (r_offset : List Int) (numdata : Int) (rin zin : ℚ) :
    first_solve_simplex (max_rz_arr env g data numdata rin zin).trace =
      some { x0 := (rin - 0.4, zin / ZSCALE - 0.4)
             x1 := (rin - 0.4, zin / ZSCALE + 0.4)
             x2 := (rin + 0.4, zin / ZSCALE) } ∧
    first_solve_simplex
        (max_rz_arr_harmonics env g datas num_harmonics r_offset numdata rin zin).trace =
      some { x0 := (rin - 0.4, zin / ZSCALE - 0.4)
             x1 := (rin - 0.4, zin / ZSCALE + 0.4)
             x2 := (rin + 0.4, zin / ZSCALE) } ∧
    ZSCALE = 4 ∧
    cross (rin - 0.4, zin / ZSCALE - 0.4) (rin - 0.4, zin / ZSCALE + 0.4)
      (rin + 0.4, zin / ZSCALE) = -0.64 ∧
    Simplex.nondegenerate
      { x0 := (rin - 0.4, zin / ZSCALE - 0.4)
        x1 := (rin - 0.4, zin / ZSCALE + 0.4)
        x2 := (rin + 0.4, zin / ZSCALE) } = true ∧
    Simplex.strictly_inside
      { x0 := (rin - 0.4, zin / ZSCALE - 0.4)
        x1 := (rin - 0.4, zin / ZSCALE + 0.4)
        x2 := (rin + 0.4, zin / ZSCALE) } (rin, zin / ZSCALE) = true ∧
    (Simplex.nondegenerate (first_simplex_double rin zin) = true ↔
      (round_double (rin + round_double 0.4) ≠ round_double (rin - round_double 0.4) ∧
        round_double (round_double (zin / ZSCALE) + round_double 0.4) ≠
          round_double (round_double (zin / ZSCALE) - round_double 0.4))) ∧
    (round_double (rin - round_double 0.4) < rin →
      rin < round_double (rin + round_double 0.4) →
      round_double (round_double (zin / ZSCALE) - round_double 0.4) <
        round_double (zin / ZSCALE) →
      round_double (zin / ZSCALE) <
        round_double (round_double (zin / ZSCALE) + round_double 0.4) →
      Simplex.strictly_inside (first_simplex_double rin zin)
        (rin, round_double (zin / ZSCALE)) = true) := by
  have hc : cross (rin - 0.4, zin / ZSCALE - 0.4) (rin - 0.4, zin / ZSCALE + 0.4)
      (rin + 0.4, zin / ZSCALE) = -0.64 := by
    simp only [cross]
    ring_nf
  have h1 : cross (rin - 0.4, zin / ZSCALE - 0.4) (rin - 0.4, zin / ZSCALE + 0.4)
      (rin, zin / ZSCALE) = -0.32 := by
    simp only [cross]
    ring_nf
  have h2 : cross (rin - 0.4, zin / ZSCALE + 0.4) (rin + 0.4, zin / ZSCALE)
      (rin, zin / ZSCALE) = -0.16 := by
    simp only [cross]
    ring_nf
  have h3 : cross (rin + 0.4, zin / ZSCALE) (rin - 0.4, zin / ZSCALE - 0.4)
      (rin, zin / ZSCALE) = -0.16 := by
    simp only [cross]
    ring_nf
  refine ⟨rfl, ?_, by norm_num [ZSCALE], hc, ?_, ?_, ?_, ?_⟩
  · simp only [max_rz_arr_harmonics, ne_eq, not_true_eq_false, and_false, if_false,
      List.cons_append, List.nil_append]
    rfl
  · simp only [Simplex.nondegenerate, hc]
    norm_num
  · simp only [Simplex.strictly_inside, h1, h2, h3]
    norm_num
  · simp only [Simplex.nondegenerate, cross_first_simplex_double, decide_eq_true_eq, ne_eq,
      neg_eq_zero, mul_eq_zero, sub_eq_zero, not_or]
    exact and_comm
  · intro ha hb hc' hd
    have e1 : cross (first_simplex_double rin zin).x0 (first_simplex_double rin zin).x1
        (rin, round_double (zin / ZSCALE)) =
        -((round_double (round_double (zin / ZSCALE) + round_double 0.4) -
            round_double (round_double (zin / ZSCALE) - round_double 0.4)) *
          (rin - round_double (rin - round_double 0.4))) := by
      simp only [cross, first_simplex_double]
      ring
    have e2 : cross (first_simplex_double rin zin).x1 (first_simplex_double rin zin).x2
        (rin, round_double (zin / ZSCALE)) =
        -((round_double (round_double (zin / ZSCALE) + round_double 0.4) -
            round_double (zin / ZSCALE)) *
          (round_double (rin + round_double 0.4) - rin)) := by
      simp only [cross, first_simplex_double]
      ring
    have e3 : cross (first_simplex_double rin zin).x2 (first_simplex_double rin zin).x0
        (rin, round_double (zin / ZSCALE)) =
        -((round_double (zin / ZSCALE) -
            round_double (round_double (zin / ZSCALE) - round_double 0.4)) *
          (round_double (rin + round_double 0.4) - rin)) := by
      simp only [cross, first_simplex_double]
      ring
    have n1 : cross (first_simplex_double rin zin).x0 (first_simplex_double rin zin).x1
        (rin, round_double (zin / ZSCALE)) < 0 := by
      rw [e1, neg_lt_zero]
      exact mul_pos (by linarith) (by linarith)
    have n2 : cross (first_simplex_double rin zin).x1 (first_simplex_double rin zin).x2
        (rin, round_double (zin / ZSCALE)) < 0 := by
      rw [e2, neg_lt_zero]
      exact mul_pos (by linarith) (by linarith)
    have n3 : cross (first_simplex_double rin zin).x2 (first_simplex_double rin zin).x0
        (rin, round_double (zin / ZSCALE)) < 0 := by
      rw [e3, neg_lt_zero]
      exact mul_pos (by linarith) (by linarith)
    simp only [Simplex.strictly_inside, n1, n2, n3, decide_True, Bool.and_self, Bool.or_true]

/-- C23 (amended) at a concrete input: `rin = 100`, `zin = 8`; the `double` values
`100 - 0.4 < 100 < 100 + 0.4` and `2 - 0.4 < 2 < 2 + 0.4` are distinct, so the estimate
`(100, 2)` is strictly inside the starting simplex. -/
theorem C23_first_simplex_witness :
    (round_double (100 - round_double 0.4) < 100 ∧
      (100 : ℚ) < round_double (100 + round_double 0.4) ∧
      round_double (round_double (8 / ZSCALE) - round_double 0.4) < round_double (8 / ZSCALE) ∧
      round_double (8 / ZSCALE) < round_double (round_double (8 / ZSCALE) + round_double 0.4)) ∧
    Simplex.strictly_inside (first_simplex_double 100 8) (100, round_double (8 / ZSCALE)) =
      true :=
  have ha : round_double (100 - round_double 0.4) < 100 := by
    rw [round_double_100_minus]; norm_num
  have hb : (100 : ℚ) < round_double (100 + round_double 0.4) := by
    rw [round_double_100_plus]; norm_num
  have hc : round_double (round_double (8 / ZSCALE) - round_double 0.4) <
      round_double (8 / ZSCALE) := by
    rw [round_double_two, round_double_2_minus]; norm_num
  have hd : round_double (8 / ZSCALE) <
      round_double (round_double (8 / ZSCALE) + round_double 0.4) := by
    rw [round_double_two, round_double_2_plus]; norm_num
  ⟨⟨ha, hb, hc, hd⟩,
    (C23_first_simplex sampleEnv emptyGlobals [] [] 1 [] 0 100 8).2.2.2.2.2.2.2 ha hb hc hd⟩

/-- C24: at each of the two solver calls of `max_rz_arr` and of `max_rz_arr_harmonics`,
`y[k]` is the objective at `x[k]` under the file-scope variables (so the half-width) in
force at that call, for `k = 0, 1, 2`, and the solver is given that same objective. The
second simplex is `x0`, `x0 + (0.01, 0)`, `x0 + (0, 0.01)` with `x0` the first vertex
the first call leaves; the second call runs after only `max_kern_half_width` has
changed, to the `HIGHACC` half-width, and its three values are evaluated after that
change. -/
theorem C24_values_match_simplex {D F : Type} (env : Env D F) (g : Globals)
    (data : List fcomplex) (datas : List (List fcomplex)) (num_harmonics : Int)
    (r_offset : List Int) (numdata : Int) (rin zin : ℚ) :
    (∃ (g2 g3 : Globals) (x xa xb xc : Simplex) (y ya yb yc : Vals),
      (max_rz_arr env g data numdata rin zin).trace =
        [Event.amoeba 1.0e-7 g2 x y xa ya, Event.amoeba 1.0e-10 g3 xb yb xc yc] ∧
      g2.max_kern_half_width = env.z_resp_halfwidth (|zin| + 4.0) Accuracy.LOWACC ∧
      y.y0 = power_call_rz env g2 x.x0 ∧ y.y1 = power_call_rz env g2 x.x1 ∧
      y.y2 = power_call_rz env g2 x.x2 ∧
      xa = (env.amoeba x y 1.0e-7 (power_call_rz env g2) 0).1 ∧
      g3 = { g2 with max_kern_half_width :=
              env.z_resp_halfwidth (|xa.x0.2| + 4.0) Accuracy.HIGHACC } ∧
      xb.x0 = xa.x0 ∧ xb.x1 = xa.x0 + (0.01, 0) ∧ xb.x2 = xa.x0 + (0, 0.01) ∧
      yb.y0 = power_call_rz env g3 xb.x0 ∧ yb.y1 = power_call_rz env g3 xb.x1 ∧
      yb.y2 = power_call_rz env g3 xb.x2 ∧
      xc = (env.amoeba xb yb 1.0e-10 (power_call_rz env g3) 0).1 ∧
      yc = (env.amoeba xb yb 1.0e-10 (power_call_rz env g3) 0).2.1) ∧
    (∃ (g2 g3 : Globals) (x xa xb xc : Simplex) (y ya yb yc : Vals),
      (max_rz_arr_harmonics env g datas num_harmonics r_offset numdata rin zin).trace =
        [Event.amoeba 1.0e-7 g2 x y xa ya, Event.amoeba 1.0e-10 g3 xb yb xc yc] ∧
      g2.max_kern_half_width = env.z_resp_halfwidth (|zin * (num_harmonics : ℚ)| + 4.0) Accuracy.LOWACC ∧
      y.y0 = power_call_rz_harmonics env g2 x.x0 ∧ y.y1 = power_call_rz_harmonics env g2 x.x1 ∧
      y.y2 = power_call_rz_harmonics env g2 x.x2 ∧
      xa = (env.amoeba x y 1.0e-7 (power_call_rz_harmonics env g2) 0).1 ∧
      g3 = { g2 with max_kern_half_width :=
              env.z_resp_halfwidth (|xa.x0.2 * ZSCALE * (num_harmonics : ℚ)| + 4.0) Accuracy.HIGHACC } ∧
      xb.x0 = xa.x0 ∧ xb.x1 = xa.x0 + (0.01, 0) ∧ xb.x2 = xa.x0 + (0, 0.01) ∧
      yb.y0 = power_call_rz_harmonics env g3 xb.x0 ∧ yb.y1 = power_call_rz_harmonics env g3 xb.x1 ∧
      yb.y2 = power_call_rz_harmonics env g3 xb.x2 ∧
      xc = (env.amoeba xb yb 1.0e-10 (power_call_rz_harmonics env g3) 0).1 ∧
      yc = (env.amoeba xb yb 1.0e-10 (power_call_rz_harmonics env g3) 0).2.1) := by
  have hx1 : ∀ a : ℚ × ℚ, (a.1 + 0.01, a.2) = a + (0.01, 0) := fun a =>
    Prod.ext rfl (add_zero a.2).symm
  have hx2 : ∀ a : ℚ × ℚ, (a.1, a.2 + 0.01) = a + (0, 0.01) := fun a =>
    Prod.ext (add_zero a.1).symm rfl
  constructor
  · exact ⟨_, _, _, _, _, _, _, _, _, _, rfl, rfl, rfl, rfl, rfl, rfl, rfl, rfl, hx1 _, hx2 _,
      rfl, rfl, rfl, rfl, rfl⟩
  · simp only [max_rz_arr_harmonics, ne_eq, not_true_eq_false, and_false, if_false,
      List.cons_append, List.nil_append]
    exact ⟨_, _, _, _, _, _, _, _, _, _, rfl, rfl, rfl, rfl, rfl, rfl, rfl, rfl, hx1 _, hx2 _,
      rfl, rfl, rfl, rfl, rfl⟩

/-- C25 (what the code does): the `HIGHACC` half-width of `max_rz_arr` is
`z_resp_halfwidth(fabs(x[0][1]) + 4.0, HIGHACC)` with `x[0][1]` the scaled coordinate
`z / ZSCALE` of the first pass's best vertex, while `max_rz_arr_harmonics` with
`num_harmonics = 1` uses `z_resp_halfwidth(fabs(x[0][1]*ZSCALE*1) + 4.0, HIGHACC)`. The
`LOWACC` half-widths agree. With a half-width that is the integral part of its
argument, a solver that leaves its simplex unchanged, `rin = 100` and `zin = 8`, both
first passes leave `x[0] = (99.6, 1.6)`; `max_rz_arr` then uses the half-width 5 and
`max_rz_arr_harmonics` the half-width 10, the value of `|ZSCALE * x[0][1]| + 4`. -/
theorem C25_highacc_half_widths_differ {D F : Type} (env : Env D F) (g : Globals)
    (data : List fcomplex) (datas : List (List fcomplex)) (r_offset : List Int)
    (numdata : Int) (rin zin : ℚ) :
    (∃ (g2 g3 : Globals) (x xa xb xc : Simplex) (y ya yb yc : Vals),
      (max_rz_arr env g data numdata rin zin).trace =
        [Event.amoeba 1.0e-7 g2 x y xa ya, Event.amoeba 1.0e-10 g3 xb yb xc yc] ∧
      xa = (env.amoeba x y 1.0e-7 (power_call_rz env g2) 0).1 ∧
      solve_half_widths (max_rz_arr env g data numdata rin zin).trace =
        [env.z_resp_halfwidth (|zin| + 4.0) Accuracy.LOWACC,
         env.z_resp_halfwidth (|xa.x0.2| + 4.0) Accuracy.HIGHACC]) ∧
    (∃ (g2 g3 : Globals) (x xa xb xc : Simplex) (y ya yb yc : Vals),
      (max_rz_arr_harmonics env g datas 1 r_offset numdata rin zin).trace =
        [Event.amoeba 1.0e-7 g2 x y xa ya, Event.amoeba 1.0e-10 g3 xb yb xc yc] ∧
      xa = (env.amoeba x y 1.0e-7 (power_call_rz_harmonics env g2) 0).1 ∧
      solve_half_widths (max_rz_arr_harmonics env g datas 1 r_offset numdata rin zin).trace =
        [env.z_resp_halfwidth (|zin| + 4.0) Accuracy.LOWACC,
         env.z_resp_halfwidth (|ZSCALE * xa.x0.2| + 4.0) Accuracy.HIGHACC]) ∧
    solve_half_widths (max_rz_arr widthEnv emptyGlobals [] 0 100 8).trace = [12, 5] ∧
    solve_half_widths (max_rz_arr_harmonics widthEnv emptyGlobals [[]] 1 [0] 0 100 8).trace =
      [12, 10] ∧
    widthEnv.z_resp_halfwidth (|ZSCALE * ((8 : ℚ) / ZSCALE - 0.4)| + 4.0) Accuracy.HIGHACC =
      10 := by
  have e1 : |(8 : ℚ)| + 4.0 = 12 := by norm_num
  have e1h : |(8 : ℚ) * ((1 : Int) : ℚ)| + 4.0 = 12 := by norm_num
  have e2 : |(8 : ℚ) / ZSCALE - 0.4| + 4.0 = 28 / 5 := by
    rw [abs_of_pos] <;> norm_num [ZSCALE]
  have e2h : |((8 : ℚ) / ZSCALE - 0.4) * ZSCALE * ((1 : Int) : ℚ)| + 4.0 = 52 / 5 := by
    rw [abs_of_pos] <;> norm_num [ZSCALE]
  have e3 : |ZSCALE * ((8 : ℚ) / ZSCALE - 0.4)| + 4.0 = 52 / 5 := by
    rw [abs_of_pos] <;> norm_num [ZSCALE]
  have t1 : trunc (12 : ℚ) = 12 := rfl
  have t2 : trunc ((28 : ℚ) / 5) = 5 := by
    unfold trunc
    norm_num
    rfl
  have t3 : trunc ((52 : ℚ) / 5) = 10 := by
    unfold trunc
    norm_num
    rfl
  refine ⟨?_, ?_, ?_, ?_, ?_⟩
  · exact ⟨_, _, _, _, _, _, _, _, _, _, rfl, rfl, rfl⟩
  · simp only [max_rz_arr_harmonics, ne_eq, not_true_eq_false, and_false, if_false,
      List.cons_append, List.nil_append]
    refine ⟨_, _, _, _, _, _, _, _, _, _, rfl, rfl, ?_⟩
    simp only [solve_half_widths, List.filterMap_cons, List.filterMap_nil, Int.cast_one,
      mul_one, mul_comm ZSCALE]
  · simp only [solve_half_widths, max_rz_arr, widthEnv, sampleEnv, List.filterMap_cons,
      List.filterMap_nil, e1, e2, t1, t2]
  · simp only [solve_half_widths, max_rz_arr_harmonics, widthEnv, sampleEnv, ne_eq,
      not_true_eq_false, and_false, if_false, List.cons_append, List.nil_append,
      List.filterMap_cons, List.filterMap_nil, e1h, e2h, t1, t3]
  · simp only [widthEnv, e3, t3]

/-! ## Theorems: the file-scope variables -/

/-- The objective `power_call_rz` reads `maxdata`, `nummaxdata` and
`max_kern_half_width` and no other file-scope variable. -/
theorem power_call_rz_reads {D F : Type} (env : Env D F) (g : Globals) :
    power_call_rz env g =
      power_call_rz env
        { emptyGlobals with
          maxdata := g.maxdata, nummaxdata := g.nummaxdata,
          max_kern_half_width := g.max_kern_half_width } :=
  rfl

/-- The objective `power_call_rz_harmonics` reads every file-scope variable but
`maxdata`. -/
theorem power_call_rz_harmonics_reads {D F : Type} (env : Env D F) (g : Globals) :
    power_call_rz_harmonics env g = power_call_rz_harmonics env { g with maxdata := [] } :=
  rfl

/-- The entries the closing loop of `max_rz_arr_harmonics` writes to `derivs[]` and
`power[]` depend on the file-scope variables only through `nummaxdata` and
`max_kern_half_width`. -/
theorem final_derivs_loop_congr {D F : Type} (env : Env D F) (g g' : Globals)
    (data : List (List fcomplex)) (num_harmonics : Int) (r_offset : List Int) (numdata : Int)
    (rout zout : ℚ) (h1 : g.nummaxdata = g'.nummaxdata)
    (h2 : g.max_kern_half_width = g'.max_kern_half_width) :
    (final_derivs_loop env g data num_harmonics r_offset numdata rout zout).2 =
      (final_derivs_loop env g' data num_harmonics r_offset numdata rout zout).2 := by
  obtain ⟨md, h⟩ := final_derivs_loop_eq env g data num_harmonics r_offset numdata rout zout
  obtain ⟨md', h'⟩ := final_derivs_loop_eq env g' data num_harmonics r_offset numdata rout zout
  rw [h, h']
  simp only [power_call_rz, h1, h2]

/-- C26: for every two initial values `g`, `g'` of the file-scope variables,
`max_rz_arr` and `max_rz_arr_harmonics` called with the same arguments produce the same
outputs and give the solver the same simplexes, values and tolerances. The objectives
read only `maxdata`, `nummaxdata`, `max_kern_half_width` (`power_call_rz`) and every
variable but `maxdata` (`power_call_rz_harmonics`), and at both solver calls each of
these holds a value assigned from the arguments. -/
theorem C26_outputs_independent_of_file_scope_state {D F : Type} (env : Env D F)
    (g g' : Globals) (data : List fcomplex) (datas : List (List fcomplex))
    (num_harmonics : Int) (r_offset : List Int) (numdata : Int) (rin zin : ℚ) :
    (max_rz_arr env g data numdata rin zin).val =
      (max_rz_arr env g' data numdata rin zin).val ∧
    solver_calls (max_rz_arr env g data numdata rin zin).trace =
      solver_calls (max_rz_arr env g' data numdata rin zin).trace ∧
    (max_rz_arr_harmonics env g datas num_harmonics r_offset numdata rin zin).val =
      (max_rz_arr_harmonics env g' datas num_harmonics r_offset numdata rin zin).val ∧
    solver_calls
        (max_rz_arr_harmonics env g datas num_harmonics r_offset numdata rin zin).trace =
      solver_calls
        (max_rz_arr_harmonics env g' datas num_harmonics r_offset numdata rin zin).trace ∧
    power_call_rz env g =
      power_call_rz env
        { emptyGlobals with
          maxdata := g.maxdata, nummaxdata := g.nummaxdata,
          max_kern_half_width := g.max_kern_half_width } ∧
    power_call_rz_harmonics env g = power_call_rz_harmonics env { g with maxdata := [] } ∧
    (∃ (g2 g3 : Globals) (x xa xb xc : Simplex) (y ya yb yc : Vals) (w2 w3 : Int),
      (max_rz_arr env g data numdata rin zin).trace =
        [Event.amoeba 1.0e-7 g2 x y xa ya, Event.amoeba 1.0e-10 g3 xb yb xc yc] ∧
      g2 = { g with maxdata := data, nummaxdata := numdata, max_kern_half_width := w2 } ∧
      g3 = { g with maxdata := data, nummaxdata := numdata, max_kern_half_width := w3 }) ∧
    (∃ (g2 g3 : Globals) (x xa xb xc : Simplex) (y ya yb yc : Vals) (w2 w3 : Int)
        (locpow : List ℚ),
      (max_rz_arr_harmonics env g datas num_harmonics r_offset numdata rin zin).trace =
        [Event.amoeba 1.0e-7 g2 x y xa ya, Event.amoeba 1.0e-10 g3 xb yb xc yc] ∧
      locpow = (List.range num_harmonics.toNat).map (fun (k : Nat) =>
        env.get_scaleFactorZ (datas.getD k []) numdata
          (harmonic_r (r_offset.getD k 0) rin ((k : Int) + 1))
          (zin * (((k : Int) + 1 : Int) : ℚ)) 0.0) ∧
      g2 = { maxdata := g.maxdata, nummaxdata := numdata, max_kern_half_width := w2,
             max_num_harmonics := num_harmonics, maxdata_harmonics := datas,
             maxlocpow := locpow, maxr_offset := r_offset } ∧
      g3 = { maxdata := g.maxdata, nummaxdata := numdata, max_kern_half_width := w3,
             max_num_harmonics := num_harmonics, maxdata_harmonics := datas,
             maxlocpow := locpow, maxr_offset := r_offset }) := by
  refine ⟨rfl, rfl, ?_, ?_, rfl, rfl, ?_, ?_⟩
  · simp only [max_rz_arr_harmonics, ne_eq, not_true_eq_false, and_false, if_false,
      List.cons_append, List.nil_append]
    congr 1
    · exact congrArg Prod.fst
        (final_derivs_loop_congr env _ _ datas num_harmonics r_offset numdata _ _ rfl rfl)
    · exact congrArg Prod.snd
        (final_derivs_loop_congr env _ _ datas num_harmonics r_offset numdata _ _ rfl rfl)
  · simp only [max_rz_arr_harmonics, ne_eq, not_true_eq_false, and_false, if_false,
      List.cons_append, List.nil_append]
    rfl
  · exact ⟨_, _, _, _, _, _, _, _, _, _, _, _, rfl, rfl, rfl⟩
  · simp only [max_rz_arr_harmonics, ne_eq, not_true_eq_false, and_false, if_false,
      List.cons_append, List.nil_append]
    exact ⟨_, _, _, _, _, _, _, _, _, _, _, _, _, rfl, rfl, rfl, rfl⟩

end Presto
